import Mathlib

/-!
# NanoBananaWaterMarkRemover: detection and reverse alpha blending

A shallow embedding of the pixel code of `src/app.js` (the same-thread path:
`detectWatermark`, `reverseAlphaBlend`, `selectMask`, `loadMasks`) and of
`src/worker.js` (the background-thread path: `detectWatermark`, `processImage`).

JavaScript numbers are IEEE-754 binary64 values.  They are modelled as rationals
rounded to 53 significant bits after every arithmetic operation (`f64`), with
`none` standing for `NaN` (what reading a typed array out of range leads to).
Typed arrays are lists of naturals; a write past the end is dropped, as in
JavaScript.
-/

namespace JS

/-! ## binary64 rounding -/

/-- The rational `2 ^ e`, built from powers of naturals. -/
def twoPow (e : ℤ) : ℚ :=
  if 0 ≤ e then ((2 ^ e.toNat : ℕ) : ℚ) else 1 / ((2 ^ (-e).toNat : ℕ) : ℚ)

/-- One halving step of the bit-length estimate. -/
def log2Step (p : ℕ × ℕ) (s : ℕ) : ℕ × ℕ :=
  if 2 ^ s ≤ p.1 then (p.1 / 2 ^ s, p.2 + s) else p

/-- Estimate of `⌊log₂ n⌋`, exact below `2 ^ 1024`. -/
def log2Est (n : ℕ) : ℕ :=
  ([512, 256, 128, 64, 32, 16, 8, 4, 2, 1].foldl log2Step (n, 0)).2

/-- The exponent `e` with `2 ^ e ≤ a < 2 ^ (e + 1)` of a positive rational: `Int.log 2 a`,
reached through a checked guess so that it evaluates quickly. -/
def binade (a : ℚ) : ℤ :=
  let g : ℤ := (log2Est a.num.natAbs : ℤ) - (log2Est a.den : ℤ)
  if twoPow g ≤ a ∧ a < twoPow (g + 1) then g
  else if twoPow (g - 1) ≤ a ∧ a < twoPow g then g - 1
  else Int.log 2 a

/-- Round to the nearest integer, ties to the even one. -/
def roundHalfEven (x : ℚ) : ℤ :=
  let f := ⌊x⌋
  if x - f < 1 / 2 then f
  else if 1 / 2 < x - f then f + 1
  else if f % 2 = 0 then f else f + 1

/-- Round a rational to the nearest binary64 value (53 significant bits, ties to even).
The exponent range is not bounded: every value the pixel code computes from bytes lies far
inside the normal range of binary64. -/
def f64 (q : ℚ) : ℚ :=
  if q = 0 then 0
  else
    let ulp := twoPow (binade |q| - 52)
    (roundHalfEven (q / ulp) : ℚ) * ulp

/-! ## JavaScript numbers -/

/-- A JavaScript number as the pixel code meets it: `none` is `NaN`, `some q` the finite
double of value `q`. -/
abbrev Number := Option ℚ

/-- A decimal literal of the source, such as `0.299`. -/
def lit (q : ℚ) : Number := some (f64 q)

/-- An integer literal or integer-valued variable (exactly representable). -/
def int (z : ℤ) : Number := some (z : ℚ)

/-- JavaScript `a + b`. -/
def add (a b : Number) : Number :=
  match a, b with
  | some x, some y => some (f64 (x + y))
  | _, _ => none

/-- JavaScript `a - b`. -/
def sub (a b : Number) : Number :=
  match a, b with
  | some x, some y => some (f64 (x - y))
  | _, _ => none

/-- JavaScript `a * b`. -/
def mul (a b : Number) : Number :=
  match a, b with
  | some x, some y => some (f64 (x * y))
  | _, _ => none

/-- JavaScript `a / b`.  Every division of the pixel code is guarded against a zero
divisor; the model answers `NaN` there. -/
def div (a b : Number) : Number :=
  match a, b with
  | some x, some y => if y = 0 then none else some (f64 (x / y))
  | _, _ => none

/-- JavaScript `a < b`: false as soon as one side is `NaN`. -/
def lt (a b : Number) : Bool :=
  match a, b with
  | some x, some y => decide (x < y)
  | _, _ => false

/-- JavaScript `a > b`. -/
def gt (a b : Number) : Bool := lt b a

/-- JavaScript `Math.round`: the nearest integer, ties towards `+∞`. -/
def mathRound (a : Number) : Number :=
  match a with
  | some x => some ((⌊x + 1 / 2⌋ : ℤ) : ℚ)
  | none => none

/-- JavaScript `Math.min`. -/
def mathMin (a b : Number) : Number :=
  match a, b with
  | some x, some y => some (min x y)
  | _, _ => none

/-- JavaScript `Math.max`. -/
def mathMax (a b : Number) : Number :=
  match a, b with
  | some x, some y => some (max x y)
  | _, _ => none

/-- Reading `buf[i]` from a `Uint8ClampedArray`: `undefined` past the end, which the
arithmetic that follows turns into `NaN`. -/
def getByte (buf : List ℕ) (i : ℕ) : Number := (buf[i]?).map (fun b : ℕ => (b : ℚ))

/-- The conversion applied when a number is stored into a `Uint8ClampedArray`:
`NaN` becomes 0, the value is clamped to `[0, 255]` and rounded, ties to even. -/
def toUint8Clamp (a : Number) : ℕ :=
  match a with
  | none => 0
  | some x => if x ≤ 0 then 0 else if 255 ≤ x then 255 else (roundHalfEven x).toNat

/-- Writing `buf[i] = v` into a `Uint8ClampedArray` (dropped past the end). -/
def putByte (buf : List ℕ) (i : ℕ) (v : Number) : List ℕ := buf.set i (toUint8Clamp v)

/-- The integers `lo, lo + 1, …, hi - 1`: the values a counting `for` loop runs through. -/
def intRange (lo hi : ℤ) : List ℤ := (List.range (hi - lo).toNat).map (fun i : ℕ => lo + (i : ℤ))

end JS

open JS

/-! ## `src/app.js`: the same-thread path -/

namespace App

/-- One entry of `MASK_CONFIGS`. -/
structure MaskConfig where
  size : ℕ
  path : String
  margin : ℕ
deriving DecidableEq, Repr

/-- The table `MASK_CONFIGS` of `app.js`. -/
def MASK_CONFIGS : List MaskConfig :=
  [{ size := 96, path := "assets/mask_96.png", margin := 64 },
   { size := 48, path := "assets/mask_48.png", margin := 32 }]

/-- An `ImageData`: a byte buffer with its dimensions. -/
structure ImageData where
  data : List ℕ
  width : ℕ
  height : ℕ
deriving DecidableEq, Repr

/-- A mask object as stored in `state.masks` (the fields the pixel code reads). -/
structure Mask where
  imageData : ImageData
  width : ℕ
  height : ℕ
  margin : ℕ
deriving DecidableEq, Repr

/-- The body of the loop of `preprocessMask` for the pixel starting at byte `i`. -/
def preprocessStep (data : List ℕ) (output : List ℕ) (i : ℕ) : List ℕ :=
  let r := getByte data i
  let g := getByte data (i + 1)
  let b := getByte data (i + 2)
  let luminance := mathRound (add (add (mul (lit 0.299) r) (mul (lit 0.587) g)) (mul (lit 0.114) b))
  let output := putByte output i (int 255)
  let output := putByte output (i + 1) (int 255)
  let output := putByte output (i + 2) (int 255)
  putByte output (i + 3) luminance

/-- The function `preprocessMask(imageData)`: a fresh `ImageData` of the same size, white, whose alpha is
the luminance of the input pixel.  The loop runs over `i = 0, 4, 8, … < data.length`. -/
def preprocessMask (imageData : ImageData) : ImageData :=
  let data := imageData.data
  let output := List.replicate (imageData.width * imageData.height * 4) 0
  { data := (List.range ((data.length + 3) / 4)).foldl
      (fun output n => preprocessStep data output (4 * n)) output
    width := imageData.width
    height := imageData.height }

/-- The map `state.masks`: a `Map` from size key to mask object, as an association list whose first
entry for a key is the current one. -/
abbrev Masks := List (ℕ × Mask)

/-- The lookup `state.masks.get(key)`. -/
def Masks.get (masks : Masks) (key : ℕ) : Option Mask := (masks.find? (fun e => e.1 == key)).map (fun e => e.2)

/-- The update `state.masks.set(key, mask)`. -/
def Masks.set (masks : Masks) (key : ℕ) (mask : Mask) : Masks :=
  (key, mask) :: masks.filter (fun e => e.1 != key)

/-- The function `loadMasks()`: every configured bitmap that decodes (`loadImage path = some raw`) is
preprocessed and stored under its size key; one that fails is logged and skipped. -/
def loadMasks (loadImage : String → Option ImageData) : Masks :=
  MASK_CONFIGS.foldl
    (fun masks config =>
      match loadImage config.path with
      | some rawImageData =>
        masks.set config.size
          { imageData := preprocessMask rawImageData
            width := rawImageData.width
            height := rawImageData.height
            margin := config.margin }
      | none => masks)
    []

/-- The function `selectMask(width, height)`. -/
def selectMask (masks : Masks) (width height : ℕ) : Option Mask :=
  if width > 1024 ∧ height > 1024 then masks.get 96 else masks.get 48

/-- The three numbers `detectWatermark` computes and logs. -/
structure Brightness where
  avgWatermarkBrightness : Number
  avgSurroundingBrightness : Number
  brightnessDiff : Number
deriving DecidableEq, Repr

/-- What a call of `detectWatermark` does: the boolean it returns and the brightness values
it writes to the console (nothing on the early return). -/
structure Detection where
  result : Bool
  logged : Option Brightness
deriving DecidableEq, Repr

/-- The first loop nest of `detectWatermark`: the pair
`(watermarkBrightness, watermarkPixelCount)` after the footprint has been scanned. -/
def watermarkSums (imgPixels maskPixels : List ℕ) (maskWidth maskHeight imgWidth imgHeight : ℕ)
    (offsetX offsetY : ℤ) : Number × Number :=
  (List.range maskHeight).foldl
    (fun acc (my : ℕ) =>
      (List.range maskWidth).foldl
        (fun acc (mx : ℕ) =>
          let imgX : ℤ := offsetX + mx
          let imgY : ℤ := offsetY + my
          if imgX < 0 ∨ imgY < 0 ∨ imgX ≥ imgWidth ∨ imgY ≥ imgHeight then acc
          else
            let imgIdx := ((imgY * imgWidth + imgX) * 4).toNat
            let maskIdx : ℕ := (my * maskWidth + mx) * 4
            let alpha := div (getByte maskPixels (maskIdx + 3)) (int 255)
            if gt alpha (lit 0.1) then
              let r := getByte imgPixels imgIdx
              let g := getByte imgPixels (imgIdx + 1)
              let b := getByte imgPixels (imgIdx + 2)
              let brightness := add (add (mul (lit 0.299) r) (mul (lit 0.587) g)) (mul (lit 0.114) b)
              (add acc.1 (mul brightness alpha), add acc.2 alpha)
            else acc)
        acc)
    (int 0, int 0)

/-- The body shared by the two reference loops of `detectWatermark`: add the brightness of
pixel `(x, y)` and count it. -/
def surroundingStep (imgPixels : List ℕ) (imgWidth : ℕ) (acc : Number × Number) (x y : ℤ) : Number × Number :=
  let imgIdx := ((y * imgWidth + x) * 4).toNat
  let r := getByte imgPixels imgIdx
  let g := getByte imgPixels (imgIdx + 1)
  let b := getByte imgPixels (imgIdx + 2)
  let brightness := add (add (mul (lit 0.299) r) (mul (lit 0.587) g)) (mul (lit 0.114) b)
  (add acc.1 brightness, add acc.2 (int 1))

/-- The second and third loop nests of `detectWatermark`: the pair
`(surroundingBrightness, surroundingPixelCount)` after the left and the top strip. -/
def surroundingSums (imgPixels : List ℕ) (maskWidth maskHeight imgWidth imgHeight : ℕ)
    (offsetX offsetY : ℤ) : Number × Number :=
  let sampleSize : ℤ := min maskWidth maskHeight
  let left :=
    (intRange offsetY (min (offsetY + maskHeight) imgHeight)).foldl
      (fun acc y =>
        (intRange (max 0 (offsetX - sampleSize)) offsetX).foldl
          (fun acc x => surroundingStep imgPixels imgWidth acc x y) acc)
      (int 0, int 0)
  (intRange (max 0 (offsetY - sampleSize)) offsetY).foldl
    (fun acc y =>
      (intRange offsetX (min (offsetX + maskWidth) imgWidth)).foldl
        (fun acc x => surroundingStep imgPixels imgWidth acc x y) acc)
    left

/-- The function `detectWatermark(imageData, mask, imgWidth, imgHeight)`. -/
def detectWatermark (imageData : ImageData) (mask : Mask) (imgWidth imgHeight : ℕ) : Detection :=
  let imgPixels := imageData.data
  let maskPixels := mask.imageData.data
  let maskWidth := mask.width
  let maskHeight := mask.height
  let margin := mask.margin
  let offsetX : ℤ := (imgWidth : ℤ) - maskWidth - margin
  let offsetY : ℤ := (imgHeight : ℤ) - maskHeight - margin
  if offsetX < 0 ∨ offsetY < 0 then { result := false, logged := none }
  else
    let wm := watermarkSums imgPixels maskPixels maskWidth maskHeight imgWidth imgHeight offsetX offsetY
    let sr := surroundingSums imgPixels maskWidth maskHeight imgWidth imgHeight offsetX offsetY
    let avgWatermarkBrightness := if gt wm.2 (int 0) then div wm.1 wm.2 else int 0
    let avgSurroundingBrightness := if gt sr.2 (int 0) then div sr.1 sr.2 else int 128
    let brightnessDiff := sub avgWatermarkBrightness avgSurroundingBrightness
    let threshold := int 10
    { result := gt brightnessDiff threshold
      logged := some { avgWatermarkBrightness, avgSurroundingBrightness, brightnessDiff } }

/-- The body of the loop nest of `reverseAlphaBlend` for the mask pixel `(mx, my)`. -/
def blendStep (maskPixels : List ℕ) (maskWidth imgWidth imgHeight : ℕ) (offsetX offsetY : ℤ)
    (imgPixels : List ℕ) (my mx : ℕ) : List ℕ :=
  let imgX : ℤ := offsetX + mx
  let imgY : ℤ := offsetY + my
  if imgX < 0 ∨ imgY < 0 ∨ imgX ≥ imgWidth ∨ imgY ≥ imgHeight then imgPixels
  else
    let imgIdx := ((imgY * imgWidth + imgX) * 4).toNat
    let maskIdx := (my * maskWidth + mx) * 4
    let alpha := div (getByte maskPixels (maskIdx + 3)) (int 255)
    if lt alpha (lit 0.01) then imgPixels
    else
      let wmR := getByte maskPixels maskIdx
      let wmG := getByte maskPixels (maskIdx + 1)
      let wmB := getByte maskPixels (maskIdx + 2)
      let compR := getByte imgPixels imgIdx
      let compG := getByte imgPixels (imgIdx + 1)
      let compB := getByte imgPixels (imgIdx + 2)
      let invAlpha := sub (int 1) alpha
      if lt invAlpha (lit 0.01) then imgPixels
      else
        let origR := div (sub compR (mul wmR alpha)) invAlpha
        let origG := div (sub compG (mul wmG alpha)) invAlpha
        let origB := div (sub compB (mul wmB alpha)) invAlpha
        let imgPixels := putByte imgPixels imgIdx (mathMax (int 0) (mathMin (int 255) (mathRound origR)))
        let imgPixels := putByte imgPixels (imgIdx + 1) (mathMax (int 0) (mathMin (int 255) (mathRound origG)))
        putByte imgPixels (imgIdx + 2) (mathMax (int 0) (mathMin (int 255) (mathRound origB)))

/-- The function `reverseAlphaBlend(imageData, mask, imgWidth, imgHeight)`: the contents of
`imageData.data` after the call (the function works in place). -/
def reverseAlphaBlend (imageData : ImageData) (mask : Mask) (imgWidth imgHeight : ℕ) : List ℕ :=
  let imgPixels := imageData.data
  let maskPixels := mask.imageData.data
  let maskWidth := mask.width
  let maskHeight := mask.height
  let margin := mask.margin
  let offsetX : ℤ := (imgWidth : ℤ) - maskWidth - margin
  let offsetY : ℤ := (imgHeight : ℤ) - maskHeight - margin
  (List.range maskHeight).foldl
    (fun imgPixels my =>
      (List.range maskWidth).foldl
        (fun imgPixels mx =>
          blendStep maskPixels maskWidth imgWidth imgHeight offsetX offsetY imgPixels my mx)
        imgPixels)
    imgPixels

end App

/-! ## `src/worker.js`: the background-thread path -/

namespace Worker

/-- The `data` object of a message to the worker. -/
structure Request where
  imageData : List ℕ
  maskData : List ℕ
  maskWidth : ℕ
  maskHeight : ℕ
  margin : ℕ
  imgWidth : ℕ
  imgHeight : ℕ
deriving DecidableEq, Repr

/-- The `debug` field of a `detectResult` message. -/
structure Debug where
  avgWatermarkBrightness : Number
  avgSurroundingBrightness : Number
  brightnessDiff : Number
deriving DecidableEq, Repr

/-- A `detectResult` message; the early return posts it without a `debug` field. -/
structure DetectResult where
  hasWatermark : Bool
  debug : Option Debug
deriving DecidableEq, Repr

/-- The first loop nest of the worker's `detectWatermark`. -/
def watermarkSums (imgPixels maskPixels : List ℕ) (maskWidth maskHeight imgWidth imgHeight : ℕ)
    (offsetX offsetY : ℤ) : Number × Number :=
  (List.range maskHeight).foldl
    (fun acc (my : ℕ) =>
      (List.range maskWidth).foldl
        (fun acc (mx : ℕ) =>
          let imgX : ℤ := offsetX + mx
          let imgY : ℤ := offsetY + my
          if imgX < 0 ∨ imgY < 0 ∨ imgX ≥ imgWidth ∨ imgY ≥ imgHeight then acc
          else
            let imgIdx := ((imgY * imgWidth + imgX) * 4).toNat
            let maskIdx : ℕ := (my * maskWidth + mx) * 4
            let alpha := div (getByte maskPixels (maskIdx + 3)) (int 255)
            if gt alpha (lit 0.1) then
              let r := getByte imgPixels imgIdx
              let g := getByte imgPixels (imgIdx + 1)
              let b := getByte imgPixels (imgIdx + 2)
              let brightness := add (add (mul (lit 0.299) r) (mul (lit 0.587) g)) (mul (lit 0.114) b)
              (add acc.1 (mul brightness alpha), add acc.2 alpha)
            else acc)
        acc)
    (int 0, int 0)

/-- The body shared by the two reference loops of the worker's `detectWatermark`. -/
def surroundingStep (imgPixels : List ℕ) (imgWidth : ℕ) (acc : Number × Number) (x y : ℤ) : Number × Number :=
  let imgIdx := ((y * imgWidth + x) * 4).toNat
  let r := getByte imgPixels imgIdx
  let g := getByte imgPixels (imgIdx + 1)
  let b := getByte imgPixels (imgIdx + 2)
  let brightness := add (add (mul (lit 0.299) r) (mul (lit 0.587) g)) (mul (lit 0.114) b)
  (add acc.1 brightness, add acc.2 (int 1))

/-- The second and third loop nests of the worker's `detectWatermark`. -/
def surroundingSums (imgPixels : List ℕ) (maskWidth maskHeight imgWidth imgHeight : ℕ)
    (offsetX offsetY : ℤ) : Number × Number :=
  let sampleSize : ℤ := min maskWidth maskHeight
  let left :=
    (intRange offsetY (min (offsetY + maskHeight) imgHeight)).foldl
      (fun acc y =>
        (intRange (max 0 (offsetX - sampleSize)) offsetX).foldl
          (fun acc x => surroundingStep imgPixels imgWidth acc x y) acc)
      (int 0, int 0)
  (intRange (max 0 (offsetY - sampleSize)) offsetY).foldl
    (fun acc y =>
      (intRange offsetX (min (offsetX + maskWidth) imgWidth)).foldl
        (fun acc x => surroundingStep imgPixels imgWidth acc x y) acc)
    left

/-- The worker's `detectWatermark(data)`: the message it posts. -/
def detectWatermark (data : Request) : DetectResult :=
  let imgPixels := data.imageData
  let maskPixels := data.maskData
  let offsetX : ℤ := (data.imgWidth : ℤ) - data.maskWidth - data.margin
  let offsetY : ℤ := (data.imgHeight : ℤ) - data.maskHeight - data.margin
  if offsetX < 0 ∨ offsetY < 0 then { hasWatermark := false, debug := none }
  else
    let wm := watermarkSums imgPixels maskPixels data.maskWidth data.maskHeight data.imgWidth
      data.imgHeight offsetX offsetY
    let sr := surroundingSums imgPixels data.maskWidth data.maskHeight data.imgWidth
      data.imgHeight offsetX offsetY
    let avgWatermarkBrightness := if gt wm.2 (int 0) then div wm.1 wm.2 else int 0
    let avgSurroundingBrightness := if gt sr.2 (int 0) then div sr.1 sr.2 else int 128
    let brightnessDiff := sub avgWatermarkBrightness avgSurroundingBrightness
    let threshold := int 10
    { hasWatermark := gt brightnessDiff threshold
      debug := some { avgWatermarkBrightness, avgSurroundingBrightness, brightnessDiff } }

/-- The body of the loop nest of the worker's `processImage` for the mask pixel `(mx, my)`. -/
def blendStep (maskPixels : List ℕ) (maskWidth imgWidth imgHeight : ℕ) (offsetX offsetY : ℤ)
    (imgPixels : List ℕ) (my mx : ℕ) : List ℕ :=
  let imgX : ℤ := offsetX + mx
  let imgY : ℤ := offsetY + my
  if imgX < 0 ∨ imgY < 0 ∨ imgX ≥ imgWidth ∨ imgY ≥ imgHeight then imgPixels
  else
    let imgIdx := ((imgY * imgWidth + imgX) * 4).toNat
    let maskIdx := (my * maskWidth + mx) * 4
    let alpha := div (getByte maskPixels (maskIdx + 3)) (int 255)
    if gt alpha (lit 0.001) then
      let invAlpha := sub (int 1) alpha
      if gt invAlpha (lit 0.001) then
        let wmR := int 255
        let wmG := int 255
        let wmB := int 255
        let r := div (sub (getByte imgPixels imgIdx) (mul wmR alpha)) invAlpha
        let g := div (sub (getByte imgPixels (imgIdx + 1)) (mul wmG alpha)) invAlpha
        let b := div (sub (getByte imgPixels (imgIdx + 2)) (mul wmB alpha)) invAlpha
        let imgPixels := putByte imgPixels imgIdx (mathMax (int 0) (mathMin (int 255) (mathRound r)))
        let imgPixels := putByte imgPixels (imgIdx + 1) (mathMax (int 0) (mathMin (int 255) (mathRound g)))
        putByte imgPixels (imgIdx + 2) (mathMax (int 0) (mathMin (int 255) (mathRound b)))
      else imgPixels
    else imgPixels

/-- The worker's `processImage(data)`: the buffer of the `processResult` message it posts. -/
def processImage (data : Request) : List ℕ :=
  let imgPixels := data.imageData
  let maskPixels := data.maskData
  let offsetX : ℤ := (data.imgWidth : ℤ) - data.maskWidth - data.margin
  let offsetY : ℤ := (data.imgHeight : ℤ) - data.maskHeight - data.margin
  (List.range data.maskHeight).foldl
    (fun imgPixels my =>
      (List.range data.maskWidth).foldl
        (fun imgPixels mx =>
          blendStep maskPixels data.maskWidth data.imgWidth data.imgHeight offsetX offsetY
            imgPixels my mx)
        imgPixels)
    imgPixels

end Worker

/-! ## Auxiliary notions used to state what the loops do -/

namespace JS

/-- Byte `j` of the image buffer is one of the three colour bytes of the image pixel under
mask pixel `(mx, my)`, and that pixel lies inside the image. -/
def targets (imgWidth imgHeight : ℕ) (offsetX offsetY : ℤ) (my mx j : ℕ) : Prop :=
  0 ≤ offsetX + mx ∧ 0 ≤ offsetY + my ∧ offsetX + mx < imgWidth ∧ offsetY + my < imgHeight ∧
    ∃ ch : ℕ, ch < 3 ∧ j = (((offsetY + my) * imgWidth + (offsetX + mx)) * 4).toNat + ch

/-- The byte stored for one colour channel by the unblending formula
`Math.max(0, Math.min(255, Math.round((comp - wm * alpha) / invAlpha)))`. -/
def restored (wm alpha invAlpha : Number) (comp : ℕ) : ℕ :=
  toUint8Clamp (mathMax (int 0) (mathMin (int 255)
    (mathRound (div (sub (some (comp : ℚ)) (mul wm alpha)) invAlpha))))

end JS

namespace App

/-- What one pass of the body of `reverseAlphaBlend` for mask pixel `(mx, my)` does to byte
`j` of the image buffer, as a function of the value `b` that byte holds. -/
def byteMap (maskPixels : List ℕ) (maskWidth imgWidth imgHeight : ℕ) (offsetX offsetY : ℤ)
    (my mx j b : ℕ) : ℕ :=
  let imgX : ℤ := offsetX + mx
  let imgY : ℤ := offsetY + my
  if imgX < 0 ∨ imgY < 0 ∨ imgX ≥ imgWidth ∨ imgY ≥ imgHeight then b
  else
    let imgIdx := ((imgY * imgWidth + imgX) * 4).toNat
    let maskIdx := (my * maskWidth + mx) * 4
    let alpha := div (getByte maskPixels (maskIdx + 3)) (int 255)
    if lt alpha (lit 0.01) then b
    else
      let invAlpha := sub (int 1) alpha
      if lt invAlpha (lit 0.01) then b
      else if j = imgIdx then restored (getByte maskPixels maskIdx) alpha invAlpha b
      else if j = imgIdx + 1 then restored (getByte maskPixels (maskIdx + 1)) alpha invAlpha b
      else if j = imgIdx + 2 then restored (getByte maskPixels (maskIdx + 2)) alpha invAlpha b
      else b

end App

namespace Worker

/-- What one pass of the body of the worker's `processImage` for mask pixel `(mx, my)` does
to byte `j` of the image buffer, as a function of the value `b` that byte holds. -/
def byteMap (maskPixels : List ℕ) (maskWidth imgWidth imgHeight : ℕ) (offsetX offsetY : ℤ)
    (my mx j b : ℕ) : ℕ :=
  let imgX : ℤ := offsetX + mx
  let imgY : ℤ := offsetY + my
  if imgX < 0 ∨ imgY < 0 ∨ imgX ≥ imgWidth ∨ imgY ≥ imgHeight then b
  else
    let imgIdx := ((imgY * imgWidth + imgX) * 4).toNat
    let maskIdx := (my * maskWidth + mx) * 4
    let alpha := div (getByte maskPixels (maskIdx + 3)) (int 255)
    if gt alpha (lit 0.001) then
      let invAlpha := sub (int 1) alpha
      if gt invAlpha (lit 0.001) then
        if j = imgIdx ∨ j = imgIdx + 1 ∨ j = imgIdx + 2 then restored (int 255) alpha invAlpha b
        else b
      else b
    else b

end Worker

namespace JS

/-- Modelled from the spec: the compositing that put the overlay on the image is not part of
the repository.  For an original channel byte `o` under a white overlay of alpha byte `k`
it yields `round(o * (1 - a) + 255 * a)` with `a = k / 255`. -/
def compositeByte (o k : ℕ) : ℕ :=
  (⌊(o : ℚ) * (1 - (k : ℚ) / 255) + 255 * ((k : ℚ) / 255) + 1 / 2⌋).toNat

end JS

namespace Worker

/-- The request `processImage` of `app.js` posts to the worker for an image and its mask
(`detectWatermarkWithWorker` and `processImageWithWorker` build the same `data` object). -/
def requestOf (imageData : App.ImageData) (mask : App.Mask) (imgWidth imgHeight : ℕ) : Request :=
  { imageData := imageData.data
    maskData := mask.imageData.data
    maskWidth := mask.width
    maskHeight := mask.height
    margin := mask.margin
    imgWidth := imgWidth
    imgHeight := imgHeight }

end Worker

/-! ## `src/app.js`: the per-image dispatcher and the lightbox -/

namespace App

/-- The object `processImage` resolves to.  A blob is a PNG of the canvas; it is represented
by the pixel bytes it encodes. -/
structure ProcessResult where
  blob : List ℕ
  originalBlob : List ℕ
  width : ℕ
  height : ℕ
  maskSize : ℕ
  margin : ℕ
  success : Bool
  noWatermark : Bool
deriving DecidableEq, Repr

/-- The function `processImage(file)`, from the decoded image on: `image` is what
`ctx.getImageData` returns for the canvas the file was drawn on, `worker` tells whether the
Web Worker is available.  An exception is an `Except.error` with its message. -/
def processImage (masks : Masks) (worker : Bool) (image : ImageData) :
    Except String ProcessResult :=
  match selectMask masks image.width image.height with
  | none => Except.error "找不到合適的 mask"
  | some mask =>
    let imageData := image
    if worker then
      let hasWatermark :=
        (Worker.detectWatermark
          (Worker.requestOf imageData mask image.width image.height)).hasWatermark
      if !hasWatermark then
        Except.ok
          { blob := imageData.data, originalBlob := imageData.data, width := image.width,
            height := image.height, maskSize := mask.width, margin := mask.margin,
            success := true, noWatermark := true }
      else
        let processedData :=
          Worker.processImage (Worker.requestOf imageData mask image.width image.height)
        Except.ok
          { blob := processedData, originalBlob := imageData.data, width := image.width,
            height := image.height, maskSize := mask.width, margin := mask.margin,
            success := true, noWatermark := false }
    else
      let hasWatermark := (detectWatermark imageData mask image.width image.height).result
      if !hasWatermark then
        Except.ok
          { blob := imageData.data, originalBlob := imageData.data, width := image.width,
            height := image.height, maskSize := mask.width, margin := mask.margin,
            success := true, noWatermark := true }
      else
        Except.ok
          { blob := reverseAlphaBlend imageData mask image.width image.height,
            originalBlob := imageData.data, width := image.width, height := image.height,
            maskSize := mask.width, margin := mask.margin, success := true,
            noWatermark := false }

/-- The part of `state.lightbox` that `navigateLightbox` reads and writes. -/
structure Lightbox where
  currentIndex : ℤ
  showingOriginal : Bool
deriving DecidableEq, Repr

/-- The `while` loop of `navigateLightbox`, started at `targetIndex`: the value of
`targetIndex` when the loop is left, or `none` when `fuel` iterations do not reach the
exit.  `successes` lists the `success` fields of `state.processedImages`. -/
def skipFailed : ℕ → List Bool → ℤ → ℤ → Option ℤ
  | 0, _, _, _ => none
  | fuel + 1, successes, direction, targetIndex =>
    if 0 ≤ targetIndex ∧ targetIndex < successes.length then
      if successes[targetIndex.toNat]? = some true then some targetIndex
      else skipFailed fuel successes direction (targetIndex + direction)
    else some targetIndex

/-- The function `navigateLightbox(direction)`: the lightbox state after the call, or `none`
when the loop has not finished within `fuel` iterations. -/
def navigateLightbox (fuel : ℕ) (successes : List Bool) (lightbox : Lightbox) (direction : ℤ) :
    Option Lightbox :=
  let newIndex := lightbox.currentIndex + direction
  match skipFailed fuel successes direction newIndex with
  | none => none
  | some targetIndex =>
    if 0 ≤ targetIndex ∧ targetIndex < successes.length ∧
        successes[targetIndex.toNat]? = some true then
      some { currentIndex := targetIndex, showingOriginal := false }
    else some lightbox

end App

/-! ## `reverseAlphaBlend` and `detectWatermark` as transformers of both arrays -/

namespace App

/-- The two typed arrays a call of `detectWatermark` or `reverseAlphaBlend` has in its
hands: `imageData.data` and `mask.imageData.data`. -/
structure Memory where
  imgPixels : List ℕ
  maskPixels : List ℕ
deriving DecidableEq, Repr

/-- The loop body of `reverseAlphaBlend`, every array access made on the memory: the reads
go to either array, the three stores to `imgPixels`. -/
def blendStepMem (maskWidth imgWidth imgHeight : ℕ) (offsetX offsetY : ℤ)
    (mem : Memory) (my mx : ℕ) : Memory :=
  let imgX : ℤ := offsetX + mx
  let imgY : ℤ := offsetY + my
  if imgX < 0 ∨ imgY < 0 ∨ imgX ≥ imgWidth ∨ imgY ≥ imgHeight then mem
  else
    let imgIdx := ((imgY * imgWidth + imgX) * 4).toNat
    let maskIdx := (my * maskWidth + mx) * 4
    let alpha := div (getByte mem.maskPixels (maskIdx + 3)) (int 255)
    if lt alpha (lit 0.01) then mem
    else
      let wmR := getByte mem.maskPixels maskIdx
      let wmG := getByte mem.maskPixels (maskIdx + 1)
      let wmB := getByte mem.maskPixels (maskIdx + 2)
      let compR := getByte mem.imgPixels imgIdx
      let compG := getByte mem.imgPixels (imgIdx + 1)
      let compB := getByte mem.imgPixels (imgIdx + 2)
      let invAlpha := sub (int 1) alpha
      if lt invAlpha (lit 0.01) then mem
      else
        let origR := div (sub compR (mul wmR alpha)) invAlpha
        let origG := div (sub compG (mul wmG alpha)) invAlpha
        let origB := div (sub compB (mul wmB alpha)) invAlpha
        let mem : Memory :=
          ⟨putByte mem.imgPixels imgIdx (mathMax (int 0) (mathMin (int 255) (mathRound origR))),
            mem.maskPixels⟩
        let mem : Memory :=
          ⟨putByte mem.imgPixels (imgIdx + 1)
            (mathMax (int 0) (mathMin (int 255) (mathRound origG))), mem.maskPixels⟩
        ⟨putByte mem.imgPixels (imgIdx + 2)
          (mathMax (int 0) (mathMin (int 255) (mathRound origB))), mem.maskPixels⟩

/-- The function `reverseAlphaBlend` as a transformer of the memory. -/
def reverseAlphaBlendMem (mem : Memory) (maskWidth maskHeight margin imgWidth imgHeight : ℕ) :
    Memory :=
  let offsetX : ℤ := (imgWidth : ℤ) - maskWidth - margin
  let offsetY : ℤ := (imgHeight : ℤ) - maskHeight - margin
  (List.range maskHeight).foldl
    (fun mem my =>
      (List.range maskWidth).foldl
        (fun mem mx => blendStepMem maskWidth imgWidth imgHeight offsetX offsetY mem my mx)
        mem)
    mem

/-- The footprint-loop body of `detectWatermark` on the memory: it only reads. -/
def watermarkStepMem (maskWidth imgWidth imgHeight : ℕ) (offsetX offsetY : ℤ)
    (st : (Number × Number) × Memory) (my mx : ℕ) : (Number × Number) × Memory :=
  let acc := st.1
  let mem := st.2
  let imgX : ℤ := offsetX + mx
  let imgY : ℤ := offsetY + my
  if imgX < 0 ∨ imgY < 0 ∨ imgX ≥ imgWidth ∨ imgY ≥ imgHeight then (acc, mem)
  else
    let imgIdx := ((imgY * imgWidth + imgX) * 4).toNat
    let maskIdx : ℕ := (my * maskWidth + mx) * 4
    let alpha := div (getByte mem.maskPixels (maskIdx + 3)) (int 255)
    if gt alpha (lit 0.1) then
      let r := getByte mem.imgPixels imgIdx
      let g := getByte mem.imgPixels (imgIdx + 1)
      let b := getByte mem.imgPixels (imgIdx + 2)
      let brightness := add (add (mul (lit 0.299) r) (mul (lit 0.587) g)) (mul (lit 0.114) b)
      ((add acc.1 (mul brightness alpha), add acc.2 alpha), mem)
    else (acc, mem)

/-- The reference-loop body of `detectWatermark` on the memory: it only reads. -/
def surroundingStepMem (imgWidth : ℕ) (st : (Number × Number) × Memory) (x y : ℤ) :
    (Number × Number) × Memory :=
  let acc := st.1
  let mem := st.2
  let imgIdx := ((y * imgWidth + x) * 4).toNat
  let r := getByte mem.imgPixels imgIdx
  let g := getByte mem.imgPixels (imgIdx + 1)
  let b := getByte mem.imgPixels (imgIdx + 2)
  let brightness := add (add (mul (lit 0.299) r) (mul (lit 0.587) g)) (mul (lit 0.114) b)
  ((add acc.1 brightness, add acc.2 (int 1)), mem)

/-- The function `detectWatermark` as a transformer of the memory: the boolean it returns
and the memory it leaves. -/
def detectWatermarkMem (mem : Memory) (maskWidth maskHeight margin imgWidth imgHeight : ℕ) :
    Bool × Memory :=
  let offsetX : ℤ := (imgWidth : ℤ) - maskWidth - margin
  let offsetY : ℤ := (imgHeight : ℤ) - maskHeight - margin
  if offsetX < 0 ∨ offsetY < 0 then (false, mem)
  else
    let wm :=
      (List.range maskHeight).foldl
        (fun st my =>
          (List.range maskWidth).foldl
            (fun st mx => watermarkStepMem maskWidth imgWidth imgHeight offsetX offsetY st my mx)
            st)
        ((int 0, int 0), mem)
    let sampleSize : ℤ := min maskWidth maskHeight
    let left :=
      (intRange offsetY (min (offsetY + maskHeight) imgHeight)).foldl
        (fun st y =>
          (intRange (max 0 (offsetX - sampleSize)) offsetX).foldl
            (fun st x => surroundingStepMem imgWidth st x y) st)
        ((int 0, int 0), wm.2)
    let sr :=
      (intRange (max 0 (offsetY - sampleSize)) offsetY).foldl
        (fun st y =>
          (intRange offsetX (min (offsetX + maskWidth) imgWidth)).foldl
            (fun st x => surroundingStepMem imgWidth st x y) st)
        left
    let avgWatermarkBrightness := if gt wm.1.2 (int 0) then div wm.1.1 wm.1.2 else int 0
    let avgSurroundingBrightness := if gt sr.1.2 (int 0) then div sr.1.1 sr.1.2 else int 128
    let brightnessDiff := sub avgWatermarkBrightness avgSurroundingBrightness
    (gt brightnessDiff (int 10), sr.2)

end App

/-! ## The brightness formulas in the words of the specification -/

namespace JS

/-- The luminance `0.299 * r + 0.587 * g + 0.114 * b` of the pixel that starts at byte
`imgIdx`, in double arithmetic. -/
def luminanceAt (imgPixels : List ℕ) (imgIdx : ℕ) : Number :=
  add (add (mul (lit 0.299) (getByte imgPixels imgIdx))
    (mul (lit 0.587) (getByte imgPixels (imgIdx + 1))))
    (mul (lit 0.114) (getByte imgPixels (imgIdx + 2)))

/-- The alpha byte `Math.round(0.299 * r + 0.587 * g + 0.114 * b)` stored for a pixel of
colour `(r, g, b)`, in double arithmetic. -/
def luminanceByte (r g b : ℕ) : ℕ :=
  toUint8Clamp (mathRound (add (add (mul (lit 0.299) (some (r : ℚ)))
    (mul (lit 0.587) (some (g : ℚ)))) (mul (lit 0.114) (some (b : ℚ)))))

/-- The mask pixels `(my, mx)` in the order the loops visit them. -/
def maskCells (maskWidth maskHeight : ℕ) : List (ℕ × ℕ) :=
  (List.range maskHeight).flatMap (fun my => (List.range maskWidth).map (fun mx => (my, mx)))

/-- Following the claim's words: `Σ(L·a) / Σ(a)` over the mask pixels of opacity above 0.1
(alpha byte at least 26), where `L` is the luminance of the image pixel under the mask pixel
and `a = alphaByte / 255`; 0 when there is no such pixel.  The sums run in the order of the
loops, in double arithmetic. -/
def overlayBrightnessSpec (imgPixels maskPixels : List ℕ) (maskWidth maskHeight imgWidth : ℕ)
    (offsetX offsetY : ℤ) : Number :=
  let weighted := (maskCells maskWidth maskHeight).filter
    (fun c => decide (26 ≤ maskPixels.getD ((c.1 * maskWidth + c.2) * 4 + 3) 0))
  let a := fun c : ℕ × ℕ => div (getByte maskPixels ((c.1 * maskWidth + c.2) * 4 + 3)) (int 255)
  let L := fun c : ℕ × ℕ =>
    luminanceAt imgPixels (((offsetY + c.1) * imgWidth + (offsetX + c.2)) * 4).toNat
  if weighted = [] then int 0
  else div (weighted.foldl (fun s c => add s (mul (L c) (a c))) (int 0))
    (weighted.foldl (fun s c => add s (a c)) (int 0))

/-- The pixels `(x, y)` of the two reference strips, in the order the loops visit them: the
strip left of the footprint, then the strip above it, each `min(maskWidth, maskHeight)` deep
and cut at the image border 0. -/
def referencePixels (maskWidth maskHeight : ℕ) (offsetX offsetY : ℤ) : List (ℤ × ℤ) :=
  let s : ℤ := min maskWidth maskHeight
  (intRange offsetY (offsetY + maskHeight)).flatMap
      (fun y => (intRange (max 0 (offsetX - s)) offsetX).map (fun x => (x, y))) ++
    (intRange (max 0 (offsetY - s)) offsetY).flatMap
      (fun y => (intRange offsetX (offsetX + maskWidth)).map (fun x => (x, y)))

/-- Following the claim's words: the unweighted mean luminance over the reference pixels,
128 when there is none.  Sum and count run in the order of the loops, in double arithmetic. -/
def referenceBrightnessSpec (imgPixels : List ℕ) (maskWidth maskHeight imgWidth : ℕ)
    (offsetX offsetY : ℤ) : Number :=
  let px := referencePixels maskWidth maskHeight offsetX offsetY
  if px = [] then int 128
  else div (px.foldl (fun s p => add s (luminanceAt imgPixels ((p.2 * (imgWidth : ℤ) + p.1) * 4).toNat))
      (int 0))
    (px.foldl (fun n _ => add n (int 1)) (int 0))

/-! ## The end-to-end scenario of the specification -/

/-- Modelled from the spec: the white 48×48 template of margin 32 whose `i`-th pixel, in
raster order, has alpha byte `alphaOf i`. -/
def scenarioMask (alphaOf : ℕ → ℕ) : App.Mask :=
  { imageData :=
      { data := (List.range (48 * 48 * 4)).map
          (fun j => if j % 4 = 3 then alphaOf (j / 4) else 255)
        width := 48
        height := 48 }
    width := 48
    height := 48
    margin := 32 }

/-- Modelled from the spec: byte `j` of the 200×200 image that is `(128, 128, 128)`
everywhere and opaque, composited per channel with the template of alpha bytes `alphaOf` at
its footprint, whose corner is `(120, 120)`. -/
def scenarioByte (alphaOf : ℕ → ℕ) (j : ℕ) : ℕ :=
  if j % 4 = 3 then 255
  else if 120 ≤ j / 4 % 200 ∧ j / 4 % 200 < 168 ∧ 120 ≤ j / 4 / 200 ∧ j / 4 / 200 < 168 then
    compositeByte 128 (alphaOf ((j / 4 / 200 - 120) * 48 + (j / 4 % 200 - 120)))
  else 128

/-- Modelled from the spec: the composited 200×200 image of the scenario. -/
def scenarioImage (alphaOf : ℕ → ℕ) : App.ImageData :=
  { data := (List.range (200 * 200 * 4)).map (scenarioByte alphaOf)
    width := 200
    height := 200 }

/-- Modelled from the spec: a ramp from 0 to 255 over the footprint, linear in raster order:
the alpha byte of the `i`-th of the 2304 template pixels. -/
def rampAlpha (i : ℕ) : ℕ := i * 255 / 2303

end JS

/-! ## The pixel loops with every array access checked

A typed array answers `undefined` to a read past its end and drops a store past its end, so
the loops themselves cannot tell a stray index.  The definitions below repeat the loops of
`reverseAlphaBlend`, `processImage` and `detectWatermark` access by access, in the order of
the source, with each access checked against the length of its array: the run ends in `none`
at the first index outside its array. -/

namespace JS

/-- A checked read of `buf[i]`: the value, or `none` when `i` is not an index of `buf`. -/
def readChecked (buf : List ℕ) (i : ℕ) : Option Number :=
  if i < buf.length then some (getByte buf i) else none

/-- A checked store `buf[i] = v`: the array after the store, or `none` when `i` is not an
index of `buf`. -/
def writeChecked (buf : List ℕ) (i : ℕ) (v : Number) : Option (List ℕ) :=
  if i < buf.length then some (putByte buf i v) else none

end JS

namespace App

/-- The loop body of `reverseAlphaBlend` with every array access checked. -/
def blendStepChecked (maskPixels : List ℕ) (maskWidth imgWidth imgHeight : ℕ)
    (offsetX offsetY : ℤ) (imgPixels : List ℕ) (my mx : ℕ) : Option (List ℕ) :=
  let imgX : ℤ := offsetX + mx
  let imgY : ℤ := offsetY + my
  if imgX < 0 ∨ imgY < 0 ∨ imgX ≥ imgWidth ∨ imgY ≥ imgHeight then some imgPixels
  else
    let imgIdx := ((imgY * imgWidth + imgX) * 4).toNat
    let maskIdx := (my * maskWidth + mx) * 4
    (readChecked maskPixels (maskIdx + 3)).bind (fun a =>
      let alpha := div a (int 255)
      if lt alpha (lit 0.01) then some imgPixels
      else
        (readChecked maskPixels maskIdx).bind (fun wmR =>
        (readChecked maskPixels (maskIdx + 1)).bind (fun wmG =>
        (readChecked maskPixels (maskIdx + 2)).bind (fun wmB =>
        (readChecked imgPixels imgIdx).bind (fun compR =>
        (readChecked imgPixels (imgIdx + 1)).bind (fun compG =>
        (readChecked imgPixels (imgIdx + 2)).bind (fun compB =>
          let invAlpha := sub (int 1) alpha
          if lt invAlpha (lit 0.01) then some imgPixels
          else
            let origR := div (sub compR (mul wmR alpha)) invAlpha
            let origG := div (sub compG (mul wmG alpha)) invAlpha
            let origB := div (sub compB (mul wmB alpha)) invAlpha
            (writeChecked imgPixels imgIdx
              (mathMax (int 0) (mathMin (int 255) (mathRound origR)))).bind (fun imgPixels =>
            (writeChecked imgPixels (imgIdx + 1)
              (mathMax (int 0) (mathMin (int 255) (mathRound origG)))).bind (fun imgPixels =>
            writeChecked imgPixels (imgIdx + 2)
              (mathMax (int 0) (mathMin (int 255) (mathRound origB))))))))))))

/-- The function `reverseAlphaBlend` with every array access checked: the contents of
`imageData.data` after the call, or `none` if some index fell outside its array. -/
def reverseAlphaBlendChecked (imageData : ImageData) (mask : Mask) (imgWidth imgHeight : ℕ) :
    Option (List ℕ) :=
  let imgPixels := imageData.data
  let maskPixels := mask.imageData.data
  let maskWidth := mask.width
  let maskHeight := mask.height
  let margin := mask.margin
  let offsetX : ℤ := (imgWidth : ℤ) - maskWidth - margin
  let offsetY : ℤ := (imgHeight : ℤ) - maskHeight - margin
  (List.range maskHeight).foldlM
    (fun imgPixels my =>
      (List.range maskWidth).foldlM
        (fun imgPixels mx =>
          blendStepChecked maskPixels maskWidth imgWidth imgHeight offsetX offsetY imgPixels
            my mx)
        imgPixels)
    imgPixels

/-- The body of the footprint loop of `detectWatermark` with every array access checked.
The state carries, next to the two sums, the number of positions the in-loop bounds test has
skipped so far. -/
def watermarkStepChecked (imgPixels maskPixels : List ℕ) (maskWidth imgWidth imgHeight : ℕ)
    (offsetX offsetY : ℤ) (st : (Number × Number) × ℕ) (my mx : ℕ) :
    Option ((Number × Number) × ℕ) :=
  let acc := st.1
  let imgX : ℤ := offsetX + mx
  let imgY : ℤ := offsetY + my
  if imgX < 0 ∨ imgY < 0 ∨ imgX ≥ imgWidth ∨ imgY ≥ imgHeight then some (acc, st.2 + 1)
  else
    let imgIdx := ((imgY * imgWidth + imgX) * 4).toNat
    let maskIdx : ℕ := (my * maskWidth + mx) * 4
    (readChecked maskPixels (maskIdx + 3)).bind (fun a =>
      let alpha := div a (int 255)
      if gt alpha (lit 0.1) then
        (readChecked imgPixels imgIdx).bind (fun r =>
        (readChecked imgPixels (imgIdx + 1)).bind (fun g =>
        (readChecked imgPixels (imgIdx + 2)).bind (fun b =>
          let brightness := add (add (mul (lit 0.299) r) (mul (lit 0.587) g)) (mul (lit 0.114) b)
          some ((add acc.1 (mul brightness alpha), add acc.2 alpha), st.2))))
      else some (acc, st.2))

/-- The footprint loop nest of `detectWatermark` with every array access checked: the two
sums and the number of positions skipped by the bounds test. -/
def watermarkSumsChecked (imgPixels maskPixels : List ℕ)
    (maskWidth maskHeight imgWidth imgHeight : ℕ) (offsetX offsetY : ℤ) :
    Option ((Number × Number) × ℕ) :=
  (List.range maskHeight).foldlM
    (fun st (my : ℕ) =>
      (List.range maskWidth).foldlM
        (fun st (mx : ℕ) =>
          watermarkStepChecked imgPixels maskPixels maskWidth imgWidth imgHeight offsetX
            offsetY st my mx)
        st)
    ((int 0, int 0), 0)

/-- The body of the two reference loops of `detectWatermark` with every array access
checked. -/
def surroundingStepChecked (imgPixels : List ℕ) (imgWidth : ℕ) (acc : Number × Number)
    (x y : ℤ) : Option (Number × Number) :=
  let imgIdx := ((y * imgWidth + x) * 4).toNat
  (readChecked imgPixels imgIdx).bind (fun r =>
  (readChecked imgPixels (imgIdx + 1)).bind (fun g =>
  (readChecked imgPixels (imgIdx + 2)).bind (fun b =>
    let brightness := add (add (mul (lit 0.299) r) (mul (lit 0.587) g)) (mul (lit 0.114) b)
    some (add acc.1 brightness, add acc.2 (int 1)))))

/-- The two reference loop nests of `detectWatermark` with every array access checked. -/
def surroundingSumsChecked (imgPixels : List ℕ) (maskWidth maskHeight imgWidth imgHeight : ℕ)
    (offsetX offsetY : ℤ) : Option (Number × Number) :=
  let sampleSize : ℤ := min maskWidth maskHeight
  ((intRange offsetY (min (offsetY + maskHeight) imgHeight)).foldlM
      (fun acc y =>
        (intRange (max 0 (offsetX - sampleSize)) offsetX).foldlM
          (fun acc x => surroundingStepChecked imgPixels imgWidth acc x y) acc)
      (int 0, int 0)).bind (fun left =>
    (intRange (max 0 (offsetY - sampleSize)) offsetY).foldlM
      (fun acc y =>
        (intRange offsetX (min (offsetX + maskWidth) imgWidth)).foldlM
          (fun acc x => surroundingStepChecked imgPixels imgWidth acc x y) acc)
      left)

/-- The function `detectWatermark` with every array access checked: what the call does and
the number of footprint positions its bounds test skipped, or `none` if some index fell
outside its array. -/
def detectWatermarkChecked (imageData : ImageData) (mask : Mask) (imgWidth imgHeight : ℕ) :
    Option (Detection × ℕ) :=
  let imgPixels := imageData.data
  let maskPixels := mask.imageData.data
  let maskWidth := mask.width
  let maskHeight := mask.height
  let margin := mask.margin
  let offsetX : ℤ := (imgWidth : ℤ) - maskWidth - margin
  let offsetY : ℤ := (imgHeight : ℤ) - maskHeight - margin
  if offsetX < 0 ∨ offsetY < 0 then some ({ result := false, logged := none }, 0)
  else
    (watermarkSumsChecked imgPixels maskPixels maskWidth maskHeight imgWidth imgHeight offsetX
      offsetY).bind (fun wmc =>
    (surroundingSumsChecked imgPixels maskWidth maskHeight imgWidth imgHeight offsetX
      offsetY).bind (fun sr =>
      let wm := wmc.1
      let avgWatermarkBrightness := if gt wm.2 (int 0) then div wm.1 wm.2 else int 0
      let avgSurroundingBrightness := if gt sr.2 (int 0) then div sr.1 sr.2 else int 128
      let brightnessDiff := sub avgWatermarkBrightness avgSurroundingBrightness
      let threshold := int 10
      some ({ result := gt brightnessDiff threshold
              logged := some { avgWatermarkBrightness, avgSurroundingBrightness,
                               brightnessDiff } }, wmc.2)))

end App

namespace Worker

/-- The loop body of the worker's `processImage` with every array access checked. -/
def blendStepChecked (maskPixels : List ℕ) (maskWidth imgWidth imgHeight : ℕ)
    (offsetX offsetY : ℤ) (imgPixels : List ℕ) (my mx : ℕ) : Option (List ℕ) :=
  let imgX : ℤ := offsetX + mx
  let imgY : ℤ := offsetY + my
  if imgX < 0 ∨ imgY < 0 ∨ imgX ≥ imgWidth ∨ imgY ≥ imgHeight then some imgPixels
  else
    let imgIdx := ((imgY * imgWidth + imgX) * 4).toNat
    let maskIdx := (my * maskWidth + mx) * 4
    (readChecked maskPixels (maskIdx + 3)).bind (fun a =>
      let alpha := div a (int 255)
      if gt alpha (lit 0.001) then
        let invAlpha := sub (int 1) alpha
        if gt invAlpha (lit 0.001) then
          let wmR := int 255
          let wmG := int 255
          let wmB := int 255
          (readChecked imgPixels imgIdx).bind (fun compR =>
          (readChecked imgPixels (imgIdx + 1)).bind (fun compG =>
          (readChecked imgPixels (imgIdx + 2)).bind (fun compB =>
            let r := div (sub compR (mul wmR alpha)) invAlpha
            let g := div (sub compG (mul wmG alpha)) invAlpha
            let b := div (sub compB (mul wmB alpha)) invAlpha
            (writeChecked imgPixels imgIdx
              (mathMax (int 0) (mathMin (int 255) (mathRound r)))).bind (fun imgPixels =>
            (writeChecked imgPixels (imgIdx + 1)
              (mathMax (int 0) (mathMin (int 255) (mathRound g)))).bind (fun imgPixels =>
            writeChecked imgPixels (imgIdx + 2)
              (mathMax (int 0) (mathMin (int 255) (mathRound b))))))))
        else some imgPixels
      else some imgPixels)

/-- The worker's `processImage(data)` with every array access checked. -/
def processImageChecked (data : Request) : Option (List ℕ) :=
  let imgPixels := data.imageData
  let maskPixels := data.maskData
  let offsetX : ℤ := (data.imgWidth : ℤ) - data.maskWidth - data.margin
  let offsetY : ℤ := (data.imgHeight : ℤ) - data.maskHeight - data.margin
  (List.range data.maskHeight).foldlM
    (fun imgPixels my =>
      (List.range data.maskWidth).foldlM
        (fun imgPixels mx =>
          blendStepChecked maskPixels data.maskWidth data.imgWidth data.imgHeight offsetX
            offsetY imgPixels my mx)
        imgPixels)
    imgPixels

/-- The worker's `detectWatermark(data)` with every array access checked: the message it
posts and the number of footprint positions its bounds test skipped.  Its three loop nests
are those of `app.js`, statement for statement. -/
def detectWatermarkChecked (data : Request) : Option (DetectResult × ℕ) :=
  let imgPixels := data.imageData
  let maskPixels := data.maskData
  let offsetX : ℤ := (data.imgWidth : ℤ) - data.maskWidth - data.margin
  let offsetY : ℤ := (data.imgHeight : ℤ) - data.maskHeight - data.margin
  if offsetX < 0 ∨ offsetY < 0 then some ({ hasWatermark := false, debug := none }, 0)
  else
    (App.watermarkSumsChecked imgPixels maskPixels data.maskWidth data.maskHeight
      data.imgWidth data.imgHeight offsetX offsetY).bind (fun wmc =>
    (App.surroundingSumsChecked imgPixels data.maskWidth data.maskHeight data.imgWidth
      data.imgHeight offsetX offsetY).bind (fun sr =>
      let wm := wmc.1
      let avgWatermarkBrightness := if gt wm.2 (int 0) then div wm.1 wm.2 else int 0
      let avgSurroundingBrightness := if gt sr.2 (int 0) then div sr.1 sr.2 else int 128
      let brightnessDiff := sub avgWatermarkBrightness avgSurroundingBrightness
      let threshold := int 10
      some ({ hasWatermark := gt brightnessDiff threshold
              debug := some { avgWatermarkBrightness, avgSurroundingBrightness,
                              brightnessDiff } }, wmc.2)))

end Worker

theorem JS.twoPow_eq (e : ℤ) : twoPow e = (2 : ℚ) ^ e := by
  unfold twoPow
  split_ifs with h
  · obtain ⟨n, rfl⟩ := Int.eq_ofNat_of_zero_le h
    simp
  · have h' : 0 ≤ -e := by omega
    obtain ⟨n, hn⟩ := Int.eq_ofNat_of_zero_le h'
    have : e = -(n : ℤ) := by omega
    subst this
    simp

theorem JS.binade_spec {a : ℚ} (ha : 0 < a) :
    (2 : ℚ) ^ binade a ≤ a ∧ a < (2 : ℚ) ^ (binade a + 1) := by
  unfold binade
  simp only [twoPow_eq]
  split_ifs with h1 h2
  · exact h1
  · simpa using h2
  · exact ⟨by simpa using Int.zpow_log_le_self (b := 2) (by norm_num) ha,
      by simpa using Int.lt_zpow_succ_log_self (b := 2) (by norm_num) a⟩

theorem JS.roundHalfEven_err (x : ℚ) : |(roundHalfEven x : ℚ) - x| ≤ 1 / 2 := by
  unfold roundHalfEven
  have h1 := Int.floor_le x
  have h2 := Int.lt_floor_add_one x
  simp only
  split_ifs with a b c
  · rw [abs_le]; constructor <;> linarith
  · rw [abs_le]; push_cast; constructor <;> linarith
  · rw [abs_le]; constructor <;> linarith
  · rw [abs_le]; push_cast; constructor <;> linarith

theorem JS.f64_err (q : ℚ) : |f64 q - q| ≤ |q| / 2 ^ 53 := by
  unfold f64
  split_ifs with h
  · simp [h]
  · have hq : 0 < |q| := abs_pos.mpr h
    obtain ⟨hb, -⟩ := binade_spec hq
    simp only [twoPow_eq]
    set e := binade |q|
    have hu : (0 : ℚ) < 2 ^ (e - 52) := by positivity
    have key : (roundHalfEven (q / 2 ^ (e - 52)) : ℚ) * 2 ^ (e - 52) - q
        = ((roundHalfEven (q / 2 ^ (e - 52)) : ℚ) - q / 2 ^ (e - 52)) * 2 ^ (e - 52) := by
      field_simp
    rw [key, abs_mul, abs_of_pos hu]
    have hr := roundHalfEven_err (q / 2 ^ (e - 52))
    have h53 : (2 : ℚ) ^ (e - 52) = 2 ^ e / 2 ^ 52 := by
      rw [zpow_sub₀ (by norm_num)]; norm_num
    calc |(roundHalfEven (q / 2 ^ (e - 52)) : ℚ) - q / 2 ^ (e - 52)| * 2 ^ (e - 52)
        ≤ 1 / 2 * 2 ^ (e - 52) := by gcongr
      _ = 2 ^ e / 2 ^ 53 := by rw [h53]; ring
      _ ≤ |q| / 2 ^ 53 := by gcongr

theorem JS.f64_within {q B : ℚ} (hB : |q| ≤ B) : |f64 q - q| ≤ B / 2 ^ 53 :=
  (f64_err q).trans (by gcongr)

theorem JS.f64_zero : f64 0 = 0 := by simp [f64]

theorem JS.f64_nonneg {q : ℚ} (h : 0 ≤ q) : 0 ≤ f64 q := by
  have h1 := f64_err q
  rw [abs_of_nonneg h, abs_le] at h1
  have : q / 2 ^ 53 ≤ q := div_le_self h (by norm_num)
  linarith [h1.1]

theorem JS.abs_mul_le {a b A B : ℚ} (ha : |a| ≤ A) (hb : |b| ≤ B) : |a * b| ≤ A * B := by
  rw [abs_mul]
  exact mul_le_mul ha hb (abs_nonneg _) ((abs_nonneg _).trans ha)

/-- The arithmetic heart of unblending a white overlay: with mask alpha byte `k ≤ 254` and
composite byte `c ≤ 255`, the double computed by `(c - 255 * alpha) / invAlpha` rounds to an
integer `m` within one half of the exact quotient `255 (c - k) / (255 - k)`. -/
theorem JS.white_core (k c : ℕ) (hk : k ≤ 254) (hc : c ≤ 255) :
    0 < f64 (1 - f64 ((k : ℚ) / 255)) ∧
    |2 * ⌊f64 (f64 ((c : ℚ) - f64 (255 * f64 ((k : ℚ) / 255))) / f64 (1 - f64 ((k : ℚ) / 255)))
        + 1 / 2⌋ * (255 - (k : ℤ)) - 510 * ((c : ℤ) - k)| ≤ 255 - (k : ℤ) := by
  have hK0 : (0 : ℚ) ≤ k := Nat.cast_nonneg k
  have hK1 : (k : ℚ) ≤ 254 := by exact_mod_cast hk
  have hC0 : (0 : ℚ) ≤ c := Nat.cast_nonneg c
  have hC1 : (c : ℚ) ≤ 255 := by exact_mod_cast hc
  set α := f64 ((k : ℚ) / 255) with hα
  set ι := f64 (1 - α) with hι
  set t := f64 (255 * α) with ht
  set d := f64 ((c : ℚ) - t) with hd
  set r := f64 (d / ι) with hr
  -- alpha
  have a1 : |α - (k : ℚ) / 255| ≤ 1 / 2 ^ 53 :=
    f64_within (by rw [abs_of_nonneg (by positivity)]; linarith)
  rw [abs_le] at a1
  -- invAlpha
  have b1 : |ι - (1 - α)| ≤ 2 / 2 ^ 53 :=
    f64_within (by rw [abs_le]; constructor <;> norm_num at a1 ⊢ <;> linarith [a1.1, a1.2])
  rw [abs_le] at b1
  norm_num at a1 b1
  have i1 : (1 : ℚ) / 256 ≤ ι := by linarith [a1.2, b1.1]
  have i2 : ι ≤ 2 := by linarith [a1.1, b1.2]
  have ipos : 0 < ι := by linarith
  -- wm * alpha
  have c1 : |t - 255 * α| ≤ 256 / 2 ^ 53 :=
    f64_within (by rw [abs_le]; constructor <;> linarith [a1.1, a1.2])
  rw [abs_le] at c1
  norm_num at c1
  -- comp - wm * alpha
  have d1 : |d - ((c : ℚ) - t)| ≤ 511 / 2 ^ 53 :=
    f64_within (by rw [abs_le]; constructor <;> linarith [a1.1, a1.2, c1.1, c1.2])
  rw [abs_le] at d1
  norm_num at d1
  have d2 : |d| ≤ 256 := by
    rw [abs_le]; constructor <;> linarith [a1.1, a1.2, c1.1, c1.2, d1.1, d1.2]
  -- the quotient
  have q1 : |d / ι| ≤ 65536 := by
    rw [abs_div, abs_of_pos ipos, div_le_iff₀ ipos]
    linarith
  have r1 : |r - d / ι| ≤ 65536 / 2 ^ 53 := f64_within q1
  have r2 : |r| ≤ 65537 := by
    rw [abs_le] at r1 q1 ⊢
    norm_num at r1
    constructor <;> linarith [r1.1, r1.2, q1.1, q1.2]
  have e1 : r * ι - d = (r - d / ι) * ι := by field_simp
  have e2 : |r * ι - d| ≤ 65536 / 2 ^ 53 * 2 := by
    rw [e1]
    exact abs_mul_le r1 (by rw [abs_of_pos ipos]; exact i2)
  have e3 : |r * ((255 - (k : ℚ)) / 255 - ι)| ≤ 65537 * (3 / 2 ^ 53) :=
    abs_mul_le r2 (by rw [abs_le]; constructor <;> norm_num <;> linarith [a1.1, a1.2, b1.1, b1.2])
  rw [abs_le] at e2 e3
  norm_num at e2 e3
  have hD : (1 : ℚ) ≤ 255 - k := by linarith
  have key1 : r * (255 - (k : ℚ)) - 255 * ((c : ℚ) - k) ≤ 1 / 4 := by
    have : r * (255 - (k : ℚ)) - 255 * ((c : ℚ) - k)
        = 255 * (r * ((255 - (k : ℚ)) / 255 - ι) + (r * ι - d) + (d - ((c : ℚ) - t)) + (k - t)) := by
      ring
    rw [this]
    linarith [e2.2, e3.2, d1.2, c1.1, a1.1]
  have key2 : -(1 / 4) ≤ r * (255 - (k : ℚ)) - 255 * ((c : ℚ) - k) := by
    have : r * (255 - (k : ℚ)) - 255 * ((c : ℚ) - k)
        = 255 * (r * ((255 - (k : ℚ)) / 255 - ι) + (r * ι - d) + (d - ((c : ℚ) - t)) + (k - t)) := by
      ring
    rw [this]
    linarith [e2.1, e3.1, d1.1, c1.2, a1.2]
  refine ⟨ipos, ?_⟩
  set m := ⌊r + 1 / 2⌋ with hm
  have m1 : (m : ℚ) ≤ r + 1 / 2 := Int.floor_le _
  have m2 : r + 1 / 2 < (m : ℚ) + 1 := Int.lt_floor_add_one _
  have m3 : (m : ℚ) * (255 - k) ≤ (r + 1 / 2) * (255 - k) :=
    mul_le_mul_of_nonneg_right m1 (by linarith)
  have m4 : (r + 1 / 2) * (255 - (k : ℚ)) < ((m : ℚ) + 1) * (255 - k) :=
    mul_lt_mul_of_pos_right m2 (by linarith)
  rw [abs_le]
  constructor
  · have : ((-(255 - (k : ℤ)) - 1 : ℤ) : ℚ) < ((2 * m * (255 - (k : ℤ)) - 510 * ((c : ℤ) - k) : ℤ) : ℚ) := by
      push_cast
      linarith
    have := Int.cast_lt.mp this
    omega
  · have : ((2 * m * (255 - (k : ℤ)) - 510 * ((c : ℤ) - k) : ℤ) : ℚ) < ((255 - (k : ℤ) + 1 : ℤ) : ℚ) := by
      push_cast
      linarith
    have := Int.cast_lt.mp this
    omega

theorem JS.getElem?_putByte (buf : List ℕ) (i j : ℕ) (v : Number) :
    (putByte buf i v)[j]? = if i = j then (buf[j]?).map (fun _ => toUint8Clamp v) else buf[j]? := by
  unfold putByte
  rw [List.getElem?_set']
  rfl

theorem JS.map_const_getByte (buf : List ℕ) (j : ℕ) (F : Number → ℕ) :
    (buf[j]?).map (fun _ => F (getByte buf j)) = (buf[j]?).map (fun b : ℕ => F (some (b : ℚ))) := by
  unfold getByte
  cases buf[j]? <;> simp

/-- Three consecutive stores, seen from byte `j`. -/
theorem JS.getElem?_putByte3 (buf : List ℕ) (i j : ℕ) (v0 v1 v2 : Number) :
    (putByte (putByte (putByte buf i v0) (i + 1) v1) (i + 2) v2)[j]? =
      if j = i then (buf[j]?).map (fun _ => toUint8Clamp v0)
      else if j = i + 1 then (buf[j]?).map (fun _ => toUint8Clamp v1)
      else if j = i + 2 then (buf[j]?).map (fun _ => toUint8Clamp v2)
      else buf[j]? := by
  simp only [getElem?_putByte]
  by_cases h0 : j = i
  · subst h0; simp
  · by_cases h1 : j = i + 1
    · subst h1; simp
    · by_cases h2 : j = i + 2
      · subst h2; simp
      · have a0 : ¬ i = j := fun h => h0 h.symm
        have a1 : ¬ i + 1 = j := fun h => h1 h.symm
        have a2 : ¬ i + 2 = j := fun h => h2 h.symm
        simp [h0, h1, h2, a0, a1, a2]

theorem App.reverseAlphaBlend_step_getElem? (maskPixels : List ℕ) (maskWidth imgWidth imgHeight : ℕ)
    (offsetX offsetY : ℤ) (buf : List ℕ) (my mx j : ℕ) :
    (App.blendStep maskPixels maskWidth imgWidth imgHeight offsetX offsetY buf my mx)[j]? =
      (buf[j]?).map (App.byteMap maskPixels maskWidth imgWidth imgHeight offsetX offsetY my mx j) := by
  unfold App.blendStep App.byteMap
  simp only
  generalize (((offsetY + ↑my) * ↑imgWidth + (offsetX + ↑mx)) * 4).toNat = i
  split_ifs with h1 h2 h3 h4 h5 h6 <;> try simp
  · rw [getElem?_putByte3, if_pos h4]; subst h4
    exact map_const_getByte buf _ (fun c => toUint8Clamp (mathMax (int 0) (mathMin (int 255)
      (mathRound (div (sub c (mul _ _)) _)))))
  · rw [getElem?_putByte3, if_neg h4, if_pos h5]; subst h5
    exact map_const_getByte buf _ (fun c => toUint8Clamp (mathMax (int 0) (mathMin (int 255)
      (mathRound (div (sub c (mul _ _)) _)))))
  · rw [getElem?_putByte3, if_neg h4, if_neg h5, if_pos h6]; subst h6
    exact map_const_getByte buf _ (fun c => toUint8Clamp (mathMax (int 0) (mathMin (int 255)
      (mathRound (div (sub c (mul _ _)) _)))))
  · rw [getElem?_putByte3, if_neg h4, if_neg h5, if_neg h6]

theorem Worker.processImage_step_getElem? (maskPixels : List ℕ) (maskWidth imgWidth imgHeight : ℕ)
    (offsetX offsetY : ℤ) (buf : List ℕ) (my mx j : ℕ) :
    (Worker.blendStep maskPixels maskWidth imgWidth imgHeight offsetX offsetY buf my mx)[j]? =
      (buf[j]?).map (Worker.byteMap maskPixels maskWidth imgWidth imgHeight offsetX offsetY my mx j) := by
  unfold Worker.blendStep Worker.byteMap
  simp only
  generalize (((offsetY + ↑my) * ↑imgWidth + (offsetX + ↑mx)) * 4).toNat = i
  split_ifs with h1 h2 h3 h4 <;> try simp
  · rw [getElem?_putByte3]
    rcases h4 with h4 | h4 | h4
    · rw [if_pos h4]; subst h4
      exact map_const_getByte buf _ (fun c => toUint8Clamp (mathMax (int 0) (mathMin (int 255)
        (mathRound (div (sub c (mul _ _)) _)))))
    · have : ¬ j = i := by omega
      rw [if_neg this, if_pos h4]; subst h4
      exact map_const_getByte buf _ (fun c => toUint8Clamp (mathMax (int 0) (mathMin (int 255)
        (mathRound (div (sub c (mul _ _)) _)))))
    · have : ¬ j = i := by omega
      have : ¬ j = i + 1 := by omega
      rw [if_neg ‹¬ j = i›, if_neg this, if_pos h4]; subst h4
      exact map_const_getByte buf _ (fun c => toUint8Clamp (mathMax (int 0) (mathMin (int 255)
        (mathRound (div (sub c (mul _ _)) _)))))
  · rw [getElem?_putByte3]
    have a0 : ¬ j = i := fun h => h4 (Or.inl h)
    have a1 : ¬ j = i + 1 := fun h => h4 (Or.inr (Or.inl h))
    have a2 : ¬ j = i + 2 := fun h => h4 (Or.inr (Or.inr h))
    rw [if_neg a0, if_neg a1, if_neg a2]

/-- A fold of byte-local steps acts on each byte by the fold of the byte maps. -/
theorem JS.foldl_getElem? {ι : Type} (step : List ℕ → ι → List ℕ) (g : ι → ℕ → ℕ → ℕ)
    (h : ∀ buf i j, (step buf i)[j]? = (buf[j]?).map (g i j)) (l : List ι) (buf : List ℕ) (j : ℕ) :
    (l.foldl step buf)[j]? = (buf[j]?).map (fun b => l.foldl (fun b i => g i j b) b) := by
  induction l generalizing buf with
  | nil => simp
  | cons i l ih =>
    rw [List.foldl_cons, ih, h, Option.map_map]
    rfl

theorem JS.foldl_fixed {ι β : Type} (f : β → ι → β) (l : List ι) (b : β)
    (h : ∀ i ∈ l, ∀ b, f b i = b) : l.foldl f b = b := by
  induction l generalizing b with
  | nil => rfl
  | cons i l ih =>
    rw [List.foldl_cons, h i (List.mem_cons_self _ _)]
    exact ih b (fun i hi => h i (List.mem_cons_of_mem _ hi))

theorem JS.foldl_range_single {β : Type} (f : β → ℕ → β) (n i0 : ℕ) (b : β) (hi : i0 < n)
    (h : ∀ i, i < n → i ≠ i0 → ∀ b, f b i = b) : (List.range n).foldl f b = f b i0 := by
  induction n with
  | zero => omega
  | succ n ih =>
    rw [List.range_succ, List.foldl_append, List.foldl_cons, List.foldl_nil]
    by_cases hn : i0 = n
    · subst hn
      rw [foldl_fixed f (List.range i0) b]
      intro i hi' b'
      have := List.mem_range.mp hi'
      exact h i (by omega) (by omega) b'
    · rw [ih (by omega) (fun i hi' hne => h i (by omega) hne)]
      exact h n (by omega) (fun h' => hn h'.symm) _

/-- The nested loop over the mask acts on each byte by the nested fold of the byte maps. -/
theorem JS.nested_getElem? (step : List ℕ → ℕ → ℕ → List ℕ) (g : ℕ → ℕ → ℕ → ℕ → ℕ)
    (h : ∀ buf my mx j, (step buf my mx)[j]? = (buf[j]?).map (g my mx j))
    (mh mw : ℕ) (buf : List ℕ) (j : ℕ) :
    ((List.range mh).foldl
        (fun buf my => (List.range mw).foldl (fun buf mx => step buf my mx) buf) buf)[j]? =
      (buf[j]?).map (fun b => (List.range mh).foldl
        (fun b my => (List.range mw).foldl (fun b mx => g my mx j b) b) b) := by
  exact foldl_getElem?
    (fun buf my => (List.range mw).foldl (fun buf mx => step buf my mx) buf)
    (fun my j b => (List.range mw).foldl (fun b mx => g my mx j b) b)
    (fun buf my j => foldl_getElem? (fun buf mx => step buf my mx) (fun mx j b => g my mx j b)
      (fun buf mx j => h buf my mx j) (List.range mw) buf j)
    (List.range mh) buf j

/-- A byte no pass of the body touches is left as it was. -/
theorem JS.nested_unchanged (step : List ℕ → ℕ → ℕ → List ℕ) (g : ℕ → ℕ → ℕ → ℕ → ℕ)
    (h : ∀ buf my mx j, (step buf my mx)[j]? = (buf[j]?).map (g my mx j))
    (mh mw : ℕ) (buf : List ℕ) (j : ℕ)
    (hid : ∀ my, my < mh → ∀ mx, mx < mw → ∀ b, g my mx j b = b) :
    ((List.range mh).foldl
        (fun buf my => (List.range mw).foldl (fun buf mx => step buf my mx) buf) buf)[j]? =
      buf[j]? := by
  rw [nested_getElem? step g h]
  have : (fun b => (List.range mh).foldl
      (fun b my => (List.range mw).foldl (fun b mx => g my mx j b) b) b) = id := by
    funext b
    apply foldl_fixed
    intro my hmy b'
    apply foldl_fixed
    intro mx hmx b''
    exact hid my (List.mem_range.mp hmy) mx (List.mem_range.mp hmx) b''
  rw [this, Option.map_id]
  rfl

/-- A byte only the pass for `(mx0, my0)` touches ends up as that pass leaves it. -/
theorem JS.nested_single (step : List ℕ → ℕ → ℕ → List ℕ) (g : ℕ → ℕ → ℕ → ℕ → ℕ)
    (h : ∀ buf my mx j, (step buf my mx)[j]? = (buf[j]?).map (g my mx j))
    (mh mw : ℕ) (buf : List ℕ) (j my0 mx0 : ℕ) (hmy : my0 < mh) (hmx : mx0 < mw)
    (hid : ∀ my, my < mh → ∀ mx, mx < mw → (my ≠ my0 ∨ mx ≠ mx0) → ∀ b, g my mx j b = b) :
    ((List.range mh).foldl
        (fun buf my => (List.range mw).foldl (fun buf mx => step buf my mx) buf) buf)[j]? =
      (buf[j]?).map (g my0 mx0 j) := by
  rw [nested_getElem? step g h]
  congr 1
  funext b
  rw [foldl_range_single (fun b my => (List.range mw).foldl (fun b mx => g my mx j b) b) mh my0 b hmy]
  · exact foldl_range_single (fun b mx => g my0 mx j b) mw mx0 b hmx
      (fun mx hmx' hne b' => hid my0 hmy mx hmx' (Or.inr hne) b')
  · intro my hmy' hne b'
    apply foldl_fixed
    intro mx hmx' b''
    exact hid my hmy' mx (List.mem_range.mp hmx') (Or.inl hne) b''

theorem JS.length_eq_of_getElem?_map (l1 l2 : List ℕ) (f : ℕ → ℕ → ℕ)
    (h : ∀ j, l1[j]? = (l2[j]?).map (f j)) : l1.length = l2.length := by
  have key : ∀ j, l1.length ≤ j ↔ l2.length ≤ j := by
    intro j
    rw [← List.getElem?_eq_none_iff, ← List.getElem?_eq_none_iff, h j, Option.map_eq_none']
  have h1 := (key l1.length).mp le_rfl
  have h2 := (key l2.length).mpr le_rfl
  omega

/-- A mask pixel is determined by any image byte it targets. -/
theorem JS.targets_unique {imgWidth imgHeight : ℕ} {offsetX offsetY : ℤ} {my mx my' mx' j : ℕ}
    (h : targets imgWidth imgHeight offsetX offsetY my mx j)
    (h' : targets imgWidth imgHeight offsetX offsetY my' mx' j) : my = my' ∧ mx = mx' := by
  obtain ⟨a1, a2, a3, a4, ch, hch, hj⟩ := h
  obtain ⟨b1, b2, b3, b4, ch', hch', hj'⟩ := h'
  have hW : (0 : ℤ) ≤ imgWidth := Int.natCast_nonneg _
  have p1 : 0 ≤ ((offsetY + my) * imgWidth + (offsetX + mx)) * 4 := by positivity
  have p2 : 0 ≤ ((offsetY + my') * imgWidth + (offsetX + mx')) * 4 := by positivity
  have e : (((offsetY + my) * imgWidth + (offsetX + mx)) * 4 : ℤ) + ch
      = ((offsetY + my') * imgWidth + (offsetX + mx')) * 4 + ch' := by
    have := hj.symm.trans hj'
    zify at this
    rwa [Int.toNat_of_nonneg p1, Int.toNat_of_nonneg p2] at this
  have e2 : (offsetY + my) * imgWidth + (offsetX + mx) = (offsetY + my') * imgWidth + (offsetX + mx') := by
    omega
  have hy : (offsetY + my : ℤ) = offsetY + my' := by
    rcases lt_trichotomy (offsetY + my : ℤ) (offsetY + my') with hlt | heq | hgt
    · exfalso
      have : (offsetY + my + 1) * (imgWidth : ℤ) ≤ (offsetY + my') * imgWidth :=
        Int.mul_le_mul_of_nonneg_right (by omega) hW
      rw [add_mul, one_mul] at this
      linarith
    · exact heq
    · exfalso
      have : (offsetY + my' + 1) * (imgWidth : ℤ) ≤ (offsetY + my) * imgWidth :=
        Int.mul_le_mul_of_nonneg_right (by omega) hW
      rw [add_mul, one_mul] at this
      linarith
  rw [hy] at e2
  constructor <;> omega

theorem App.reverseAlphaBlend_byteMap_of_not_targets (maskPixels : List ℕ) (maskWidth imgWidth imgHeight : ℕ)
    (offsetX offsetY : ℤ) (my mx j b : ℕ)
    (h : ¬ targets imgWidth imgHeight offsetX offsetY my mx j) :
    App.byteMap maskPixels maskWidth imgWidth imgHeight offsetX offsetY my mx j b = b := by
  unfold App.byteMap
  simp only
  split_ifs with h1 h2 h3 h4 h5 h6 <;> try rfl
  · exact absurd ⟨by omega, by omega, by omega, by omega, 0, by omega, by omega⟩ h
  · exact absurd ⟨by omega, by omega, by omega, by omega, 1, by omega, by omega⟩ h
  · exact absurd ⟨by omega, by omega, by omega, by omega, 2, by omega, by omega⟩ h

theorem Worker.processImage_byteMap_of_not_targets (maskPixels : List ℕ) (maskWidth imgWidth imgHeight : ℕ)
    (offsetX offsetY : ℤ) (my mx j b : ℕ)
    (h : ¬ targets imgWidth imgHeight offsetX offsetY my mx j) :
    Worker.byteMap maskPixels maskWidth imgWidth imgHeight offsetX offsetY my mx j b = b := by
  unfold Worker.byteMap
  simp only
  split_ifs with h1 h2 h3 h4 <;> try rfl
  rcases h4 with h4 | h4 | h4
  · exact absurd ⟨by omega, by omega, by omega, by omega, 0, by omega, by omega⟩ h
  · exact absurd ⟨by omega, by omega, by omega, by omega, 1, by omega, by omega⟩ h
  · exact absurd ⟨by omega, by omega, by omega, by omega, 2, by omega, by omega⟩ h

/-- What `reverseAlphaBlend` leaves in a byte that the pass for `(mx, my)` targets. -/
theorem App.reverseAlphaBlend_getElem?_of_targets (imageData : App.ImageData) (mask : App.Mask)
    (imgWidth imgHeight my mx j : ℕ) (hmy : my < mask.height) (hmx : mx < mask.width)
    (ht : targets imgWidth imgHeight ((imgWidth : ℤ) - mask.width - mask.margin)
      ((imgHeight : ℤ) - mask.height - mask.margin) my mx j) :
    (App.reverseAlphaBlend imageData mask imgWidth imgHeight)[j]? =
      (imageData.data[j]?).map (App.byteMap mask.imageData.data mask.width imgWidth imgHeight
        ((imgWidth : ℤ) - mask.width - mask.margin) ((imgHeight : ℤ) - mask.height - mask.margin)
        my mx j) := by
  unfold App.reverseAlphaBlend
  exact nested_single _ _ (App.reverseAlphaBlend_step_getElem? _ _ _ _ _ _) _ _ _ j my mx hmy hmx
    (fun my' _ mx' _ hne b => App.reverseAlphaBlend_byteMap_of_not_targets _ _ _ _ _ _ _ _ _ _ (fun ht' => by
      have := targets_unique ht' ht
      omega))

/-- A byte that no pass targets is left as it was by `reverseAlphaBlend`. -/
theorem App.reverseAlphaBlend_getElem?_of_not_targets (imageData : App.ImageData)
    (mask : App.Mask) (imgWidth imgHeight j : ℕ)
    (hn : ∀ my, my < mask.height → ∀ mx, mx < mask.width →
      ¬ targets imgWidth imgHeight ((imgWidth : ℤ) - mask.width - mask.margin)
        ((imgHeight : ℤ) - mask.height - mask.margin) my mx j) :
    (App.reverseAlphaBlend imageData mask imgWidth imgHeight)[j]? = imageData.data[j]? := by
  unfold App.reverseAlphaBlend
  exact nested_unchanged _ _ (App.reverseAlphaBlend_step_getElem? _ _ _ _ _ _) _ _ _ j
    (fun my hmy mx hmx b => App.reverseAlphaBlend_byteMap_of_not_targets _ _ _ _ _ _ _ _ _ _ (hn my hmy mx hmx))

theorem App.reverseAlphaBlend_length (imageData : App.ImageData) (mask : App.Mask)
    (imgWidth imgHeight : ℕ) :
    (App.reverseAlphaBlend imageData mask imgWidth imgHeight).length = imageData.data.length := by
  unfold App.reverseAlphaBlend
  exact length_eq_of_getElem?_map _ _ _
    (fun j => nested_getElem? _ _ (App.reverseAlphaBlend_step_getElem? _ _ _ _ _ _) _ _ _ j)

/-- What the worker's `processImage` leaves in a byte that the pass for `(mx, my)` targets. -/
theorem Worker.processImage_getElem?_of_targets (data : Worker.Request)
    (my mx j : ℕ) (hmy : my < data.maskHeight) (hmx : mx < data.maskWidth)
    (ht : targets data.imgWidth data.imgHeight ((data.imgWidth : ℤ) - data.maskWidth - data.margin)
      ((data.imgHeight : ℤ) - data.maskHeight - data.margin) my mx j) :
    (Worker.processImage data)[j]? =
      (data.imageData[j]?).map (Worker.byteMap data.maskData data.maskWidth data.imgWidth
        data.imgHeight ((data.imgWidth : ℤ) - data.maskWidth - data.margin)
        ((data.imgHeight : ℤ) - data.maskHeight - data.margin) my mx j) := by
  unfold Worker.processImage
  exact nested_single _ _ (Worker.processImage_step_getElem? _ _ _ _ _ _) _ _ _ j my mx hmy hmx
    (fun my' _ mx' _ hne b => Worker.processImage_byteMap_of_not_targets _ _ _ _ _ _ _ _ _ _ (fun ht' => by
      have := targets_unique ht' ht
      omega))

/-- A byte that no pass targets is left as it was by the worker's `processImage`. -/
theorem Worker.processImage_getElem?_of_not_targets (data : Worker.Request) (j : ℕ)
    (hn : ∀ my, my < data.maskHeight → ∀ mx, mx < data.maskWidth →
      ¬ targets data.imgWidth data.imgHeight ((data.imgWidth : ℤ) - data.maskWidth - data.margin)
        ((data.imgHeight : ℤ) - data.maskHeight - data.margin) my mx j) :
    (Worker.processImage data)[j]? = data.imageData[j]? := by
  unfold Worker.processImage
  exact nested_unchanged _ _ (Worker.processImage_step_getElem? _ _ _ _ _ _) _ _ _ j
    (fun my hmy mx hmx b => Worker.processImage_byteMap_of_not_targets _ _ _ _ _ _ _ _ _ _ (hn my hmy mx hmx))

theorem Worker.processImage_length (data : Worker.Request) :
    (Worker.processImage data).length = data.imageData.length := by
  unfold Worker.processImage
  exact length_eq_of_getElem?_map _ _ _
    (fun j => nested_getElem? _ _ (Worker.processImage_step_getElem? _ _ _ _ _ _) _ _ _ j)

theorem JS.f64_bounds {q : ℚ} (h : 0 ≤ q) : q - q / 2 ^ 53 ≤ f64 q ∧ f64 q ≤ q + q / 2 ^ 53 := by
  have h1 := f64_err q
  rw [abs_of_nonneg h, abs_le] at h1
  constructor <;> linarith [h1.1, h1.2]

theorem JS.div_byte (k : ℕ) : div (some (k : ℚ)) (int 255) = some (f64 ((k : ℚ) / 255)) := by
  simp [div, int]

theorem JS.lit_001_bounds : (99 : ℚ) / 10000 ≤ f64 0.01 ∧ f64 0.01 ≤ 101 / 10000 := by
  have := f64_bounds (q := 0.01) (by norm_num)
  norm_num at this ⊢
  constructor <;> linarith [this.1, this.2]

theorem JS.lit_0001_bounds : (99 : ℚ) / 100000 ≤ f64 0.001 ∧ f64 0.001 ≤ 101 / 100000 := by
  have := f64_bounds (q := 0.001) (by norm_num)
  norm_num at this ⊢
  constructor <;> linarith [this.1, this.2]

/-- The double `alpha = k / 255` lies within a hair of the exact quotient. -/
theorem JS.alpha_bounds (k : ℕ) :
    (k : ℚ) / 255 * (1 - 1 / 2 ^ 53) ≤ f64 ((k : ℚ) / 255) ∧
      f64 ((k : ℚ) / 255) ≤ (k : ℚ) / 255 * (1 + 1 / 2 ^ 53) := by
  have := f64_bounds (q := (k : ℚ) / 255) (by positivity)
  constructor <;> linarith [this.1, this.2]

/-- The test `alpha < 0.01` holds exactly for the alpha bytes 0, 1 and 2. -/
theorem JS.lt_alpha_001 (k : ℕ) :
    lt (div (some (k : ℚ)) (int 255)) (lit 0.01) = decide (k ≤ 2) := by
  rw [div_byte]
  have ha := alpha_bounds k
  have hl := lit_001_bounds
  norm_num at ha
  by_cases h : k ≤ 2
  · have hk : (k : ℚ) ≤ 2 := by exact_mod_cast h
    simp only [lt, lit, h, decide_True, decide_eq_true_eq]
    linarith [ha.2, hl.1]
  · have hk : (3 : ℚ) ≤ k := by exact_mod_cast (by omega : 3 ≤ k)
    simp only [lt, lit, h, decide_False, decide_eq_false_iff_not, not_lt]
    linarith [ha.1, hl.2]

/-- The test `alpha > 0.001` holds exactly for the alpha bytes from 1 on. -/
theorem JS.gt_alpha_0001 (k : ℕ) :
    gt (div (some (k : ℚ)) (int 255)) (lit 0.001) = decide (1 ≤ k) := by
  rw [div_byte]
  have ha := alpha_bounds k
  have hl := lit_0001_bounds
  norm_num at ha
  by_cases h : 1 ≤ k
  · have hk : (1 : ℚ) ≤ k := by exact_mod_cast h
    simp only [gt, lt, lit, h, decide_True, decide_eq_true_eq]
    linarith [ha.1, hl.2]
  · have hk : k = 0 := by omega
    subst hk
    simp only [gt, lt, lit, h, decide_False, decide_eq_false_iff_not, not_lt]
    simp [f64_zero]
    linarith [hl.1]

/-- Bounds on `invAlpha = 1 - alpha` as a double. -/
theorem JS.invAlpha_bounds (k : ℕ) (hk : k ≤ 255) :
    (255 - (k : ℚ)) / 255 - 3 / 2 ^ 53 ≤ f64 (1 - f64 ((k : ℚ) / 255)) ∧
      f64 (1 - f64 ((k : ℚ) / 255)) ≤ (255 - (k : ℚ)) / 255 + 3 / 2 ^ 53 := by
  have hK0 : (0 : ℚ) ≤ k := Nat.cast_nonneg k
  have hK1 : (k : ℚ) ≤ 255 := by exact_mod_cast hk
  have a1 : |f64 ((k : ℚ) / 255) - (k : ℚ) / 255| ≤ 1 / 2 ^ 53 :=
    f64_within (by rw [abs_of_nonneg (by positivity)]; linarith)
  rw [abs_le] at a1
  have b1 : |f64 (1 - f64 ((k : ℚ) / 255)) - (1 - f64 ((k : ℚ) / 255))| ≤ 2 / 2 ^ 53 :=
    f64_within (by rw [abs_le]; constructor <;> norm_num at a1 ⊢ <;> linarith [a1.1, a1.2])
  rw [abs_le] at b1
  constructor <;> linarith [a1.1, a1.2, b1.1, b1.2]

/-- The test `invAlpha < 0.01` holds exactly for the alpha bytes from 253 on. -/
theorem JS.lt_invAlpha_001 (k : ℕ) :
    lt (sub (int 1) (div (some (k : ℚ)) (int 255))) (lit 0.01) = decide (253 ≤ k) := by
  rw [div_byte]
  have hl := lit_001_bounds
  simp only [sub, int, lt, lit, Int.cast_one]
  by_cases h : 253 ≤ k
  · simp only [h, decide_True, decide_eq_true_eq]
    have hk : (253 : ℚ) ≤ k := by exact_mod_cast h
    have ha := alpha_bounds k
    norm_num at ha
    have hs : 1 - f64 ((k : ℚ) / 255) ≤ 1 / 127 := by linarith [ha.1]
    have he := f64_err (1 - f64 ((k : ℚ) / 255))
    rw [abs_le] at he
    rcases le_total 0 (1 - f64 ((k : ℚ) / 255)) with hp | hn
    · rw [abs_of_nonneg hp] at he
      have : (1 - f64 ((k : ℚ) / 255)) / 2 ^ 53 ≤ 1 / 127 := (div_le_self hp (by norm_num)).trans hs
      linarith [he.2, hl.1]
    · rw [abs_of_nonpos hn] at he
      have : -(1 - f64 ((k : ℚ) / 255)) / 2 ^ 53 ≤ -(1 - f64 ((k : ℚ) / 255)) :=
        div_le_self (by linarith) (by norm_num)
      linarith [he.2, hl.1]
  · simp only [h, decide_False, decide_eq_false_iff_not, not_lt]
    have hk : (k : ℚ) ≤ 252 := by exact_mod_cast (by omega : k ≤ 252)
    have hb := invAlpha_bounds k (by omega)
    norm_num at hb
    linarith [hb.1, hl.2]

/-- The test `invAlpha > 0.001` holds exactly for the alpha bytes up to 254. -/
theorem JS.gt_invAlpha_0001 (k : ℕ) :
    gt (sub (int 1) (div (some (k : ℚ)) (int 255))) (lit 0.001) = decide (k ≤ 254) := by
  rw [div_byte]
  have hl := lit_0001_bounds
  simp only [sub, int, gt, lt, lit, Int.cast_one]
  by_cases h : k ≤ 254
  · simp only [h, decide_True, decide_eq_true_eq]
    have hk : (k : ℚ) ≤ 254 := by exact_mod_cast h
    have hb := invAlpha_bounds k (by omega)
    norm_num at hb
    linarith [hb.1, hl.2]
  · simp only [h, decide_False, decide_eq_false_iff_not, not_lt]
    have hk : (255 : ℚ) ≤ k := by exact_mod_cast (by omega : 255 ≤ k)
    have ha := alpha_bounds k
    norm_num at ha
    have hs : 1 - f64 ((k : ℚ) / 255) ≤ 1 / 2 ^ 52 := by norm_num; linarith [ha.1]
    have he := f64_err (1 - f64 ((k : ℚ) / 255))
    rw [abs_le] at he
    rcases le_total 0 (1 - f64 ((k : ℚ) / 255)) with hp | hn
    · rw [abs_of_nonneg hp] at he
      have : (1 - f64 ((k : ℚ) / 255)) / 2 ^ 53 ≤ 1 / 2 ^ 52 := (div_le_self hp (by norm_num)).trans hs
      norm_num at hs this
      linarith [he.2, hl.1]
    · rw [abs_of_nonpos hn] at he
      have : -(1 - f64 ((k : ℚ) / 255)) / 2 ^ 53 ≤ -(1 - f64 ((k : ℚ) / 255)) :=
        div_le_self (by linarith) (by norm_num)
      linarith [he.2, hl.1]

theorem JS.lit_01_bounds : (99 : ℚ) / 1000 ≤ f64 0.1 ∧ f64 0.1 ≤ 101 / 1000 := by
  have := f64_bounds (q := 0.1) (by norm_num)
  norm_num at this ⊢
  constructor <;> linarith [this.1, this.2]

/-- The test `alpha > 0.1` holds exactly for the alpha bytes from 26 on. -/
theorem JS.gt_alpha_01 (k : ℕ) :
    gt (div (some (k : ℚ)) (int 255)) (lit 0.1) = decide (26 ≤ k) := by
  rw [div_byte]
  have ha := alpha_bounds k
  have hl := lit_01_bounds
  norm_num at ha
  by_cases h : 26 ≤ k
  · have hk : (26 : ℚ) ≤ k := by exact_mod_cast h
    simp only [gt, lt, lit, h, decide_True, decide_eq_true_eq]
    linarith [ha.1, hl.2]
  · have hk : (k : ℚ) ≤ 25 := by exact_mod_cast (by omega : k ≤ 25)
    simp only [gt, lt, lit, h, decide_False, decide_eq_false_iff_not, not_lt]
    linarith [ha.2, hl.1]

theorem JS.getByte_of_getElem? {buf : List ℕ} {i b : ℕ} (h : buf[i]? = some b) :
    getByte buf i = some (b : ℚ) := by
  simp [getByte, h]

theorem JS.toUint8Clamp_int (z : ℤ) (h0 : 0 ≤ z) (h1 : z ≤ 255) :
    toUint8Clamp (some (z : ℚ)) = z.toNat := by
  unfold toUint8Clamp
  simp only
  split_ifs with a b
  · have : z ≤ 0 := by exact_mod_cast a
    have : z = 0 := by omega
    subst this; rfl
  · have : (255 : ℤ) ≤ z := by exact_mod_cast b
    have : z = 255 := by omega
    subst this; rfl
  · unfold roundHalfEven
    simp

theorem JS.clamp_round (x : ℚ) :
    toUint8Clamp (mathMax (int 0) (mathMin (int 255) (mathRound (some x)))) =
      (max 0 (min 255 ⌊x + 1 / 2⌋)).toNat := by
  have : mathMax (int 0) (mathMin (int 255) (mathRound (some x))) =
      some (((max 0 (min 255 ⌊x + 1 / 2⌋) : ℤ)) : ℚ) := by
    simp [mathMax, mathMin, mathRound, int]
  rw [this]
  exact toUint8Clamp_int _ (le_max_left _ _) (max_le (by norm_num) (min_le_left _ _))

/-- The byte both paths store for a channel under a white overlay, for alpha bytes up to 254:
the clamp of an integer `m` within one half of `255 (c - k) / (255 - k)`. -/
theorem JS.restored_white (k c : ℕ) (hk : k ≤ 254) (hc : c ≤ 255) :
    ∃ m : ℤ, |2 * m * (255 - (k : ℤ)) - 510 * ((c : ℤ) - k)| ≤ 255 - (k : ℤ) ∧
      restored (some 255) (div (some (k : ℚ)) (int 255))
        (sub (int 1) (div (some (k : ℚ)) (int 255))) c = (max 0 (min 255 m)).toNat := by
  obtain ⟨hpos, hm⟩ := white_core k c hk hc
  refine ⟨_, hm, ?_⟩
  unfold restored
  rw [div_byte]
  have hne : f64 (1 - f64 ((k : ℚ) / 255)) ≠ 0 := ne_of_gt hpos
  have : div (sub (some (c : ℚ)) (mul (some 255) (some (f64 ((k : ℚ) / 255)))))
      (sub (int 1) (some (f64 ((k : ℚ) / 255)))) =
      some (f64 (f64 ((c : ℚ) - f64 (255 * f64 ((k : ℚ) / 255))) / f64 (1 - f64 ((k : ℚ) / 255)))) := by
    simp [div, sub, mul, int, hne]
  rw [this, clamp_round]

theorem JS.compositeByte_spec (o k : ℕ) (ho : o ≤ 255) (hk : k ≤ 255) :
    compositeByte o k ≤ 255 ∧
      |510 * ((compositeByte o k : ℤ) - k) - 2 * ((o : ℤ) * (255 - (k : ℤ)))| ≤ 254 := by
  have hO0 : (0 : ℚ) ≤ o := Nat.cast_nonneg o
  have hO1 : (o : ℚ) ≤ 255 := by exact_mod_cast ho
  have hK0 : (0 : ℚ) ≤ k := Nat.cast_nonneg k
  have hK1 : (k : ℚ) ≤ 255 := by exact_mod_cast hk
  unfold compositeByte
  set F := ⌊(o : ℚ) * (1 - (k : ℚ) / 255) + 255 * ((k : ℚ) / 255) + 1 / 2⌋ with hF
  have f1 : (F : ℚ) ≤ (o : ℚ) * (1 - (k : ℚ) / 255) + 255 * ((k : ℚ) / 255) + 1 / 2 := Int.floor_le _
  have f2 : (o : ℚ) * (1 - (k : ℚ) / 255) + 255 * ((k : ℚ) / 255) + 1 / 2 < (F : ℚ) + 1 :=
    Int.lt_floor_add_one _
  have e : (o : ℚ) * (1 - (k : ℚ) / 255) + 255 * ((k : ℚ) / 255) =
      ((o : ℚ) * (255 - k) + 255 * k) / 255 := by ring
  rw [e] at f1 f2
  clear_value F
  have p0 : (0 : ℚ) ≤ (o : ℚ) * (255 - k) := mul_nonneg hO0 (by linarith)
  have p1 : (o : ℚ) * (255 - k) ≤ 255 * (255 - k) := mul_le_mul_of_nonneg_right hO1 (by linarith)
  have g1 : ((510 * F : ℤ) : ℚ) ≤ ((2 * ((o : ℤ) * (255 - (k : ℤ))) + 510 * k + 255 : ℤ) : ℚ) := by
    push_cast; linarith
  have g2 : ((2 * ((o : ℤ) * (255 - (k : ℤ))) + 510 * k + 255 : ℤ) : ℚ) < ((510 * F + 510 : ℤ) : ℚ) := by
    push_cast; linarith
  have g3 : ((-1 : ℤ) : ℚ) < (F : ℚ) := by push_cast; linarith
  have g4 : (F : ℚ) < ((256 : ℤ) : ℚ) := by push_cast; linarith
  have g1' := Int.cast_le.mp g1
  have g2' := Int.cast_lt.mp g2
  have g3' := Int.cast_lt.mp g3
  have g4' := Int.cast_lt.mp g4
  have hFn : ((F.toNat : ℕ) : ℤ) = F := Int.toNat_of_nonneg (by omega)
  have hle : F.toNat ≤ 255 := by omega
  rw [hFn]
  refine ⟨hle, ?_⟩
  rw [abs_le]
  generalize (o : ℤ) * (255 - (k : ℤ)) = P at g1' g2' ⊢
  constructor <;> omega

/-- Integer form of the round trip: if `m` is within one half of the exact inverse at the
composite of `o`, and the alpha byte is at most 170, then the clamp of `m` is within 1 of `o`. -/
theorem JS.clamp_near (o k c : ℕ) (m : ℤ) (ho : o ≤ 255) (hk : k ≤ 170)
    (hc : |510 * ((c : ℤ) - k) - 2 * ((o : ℤ) * (255 - (k : ℤ)))| ≤ 254)
    (hm : |2 * m * (255 - (k : ℤ)) - 510 * ((c : ℤ) - k)| ≤ 255 - (k : ℤ)) :
    ((max 0 (min 255 m)).toNat : ℤ) - o ≤ 1 ∧ (o : ℤ) - (max 0 (min 255 m)).toNat ≤ 1 := by
  rw [abs_le] at hc hm
  have hD : (85 : ℤ) ≤ 255 - (k : ℤ) := by omega
  have h1 : m - o ≤ 1 := by
    by_contra hcon
    have : 2 * (255 - (k : ℤ)) ≤ (m - o) * (255 - (k : ℤ)) :=
      Int.mul_le_mul_of_nonneg_right (by omega) (by omega)
    linarith [hc.1, hc.2, hm.1, hm.2]
  have h2 : (o : ℤ) - m ≤ 1 := by
    by_contra hcon
    have : 2 * (255 - (k : ℤ)) ≤ (o - m) * (255 - (k : ℤ)) :=
      Int.mul_le_mul_of_nonneg_right (by omega) (by omega)
    linarith [hc.1, hc.2, hm.1, hm.2]
  have hcl : ((max 0 (min 255 m)).toNat : ℤ) = max 0 (min 255 m) :=
    Int.toNat_of_nonneg (le_max_left _ _)
  rw [hcl]
  have ho' : (o : ℤ) ≤ 255 := by exact_mod_cast ho
  omega

/-- The byte map of `reverseAlphaBlend` at a targeted byte, for a white mask pixel of alpha
byte `k`: untouched for `k ≤ 2` and `k ≥ 253`, recomputed otherwise. -/
theorem App.byteMap_white {maskPixels : List ℕ} {maskWidth imgWidth imgHeight : ℕ}
    {offsetX offsetY : ℤ} {my mx j k : ℕ} (b : ℕ)
    (ht : targets imgWidth imgHeight offsetX offsetY my mx j)
    (hk : maskPixels[(my * maskWidth + mx) * 4 + 3]? = some k)
    (hw : ∀ c, c < 3 → maskPixels[(my * maskWidth + mx) * 4 + c]? = some 255) :
    App.byteMap maskPixels maskWidth imgWidth imgHeight offsetX offsetY my mx j b =
      if k ≤ 2 ∨ 253 ≤ k then b
      else restored (some 255) (div (some (k : ℚ)) (int 255))
        (sub (int 1) (div (some (k : ℚ)) (int 255))) b := by
  obtain ⟨a1, a2, a3, a4, ch, hch, hj⟩ := ht
  unfold App.byteMap
  simp only
  rw [if_neg (by omega), getByte_of_getElem? hk, lt_alpha_001, lt_invAlpha_001]
  have w0 := getByte_of_getElem? (hw 0 (by omega))
  have w1 := getByte_of_getElem? (hw 1 (by omega))
  have w2 := getByte_of_getElem? (hw 2 (by omega))
  simp only [Nat.add_zero, Nat.cast_ofNat] at w0 w1 w2
  rw [w0, w1, w2]
  by_cases h1 : k ≤ 2
  · simp [h1]
  · by_cases h2 : 253 ≤ k
    · simp [h1, h2]
    · simp only [h1, h2, decide_False, Bool.false_eq_true, if_false, or_self]
      generalize (((offsetY + ↑my) * ↑imgWidth + (offsetX + ↑mx)) * 4).toNat = i at hj
      subst hj
      have : ch = 0 ∨ ch = 1 ∨ ch = 2 := by omega
      rcases this with rfl | rfl | rfl <;> simp

/-- The byte map of the worker's `processImage` at a targeted byte, for a mask pixel of alpha
byte `k`: recomputed for `1 ≤ k ≤ 254`, untouched otherwise. -/
theorem Worker.byteMap_alpha {maskPixels : List ℕ} {maskWidth imgWidth imgHeight : ℕ}
    {offsetX offsetY : ℤ} {my mx j k : ℕ} (b : ℕ)
    (ht : targets imgWidth imgHeight offsetX offsetY my mx j)
    (hk : maskPixels[(my * maskWidth + mx) * 4 + 3]? = some k) :
    Worker.byteMap maskPixels maskWidth imgWidth imgHeight offsetX offsetY my mx j b =
      if 1 ≤ k ∧ k ≤ 254 then
        restored (some 255) (div (some (k : ℚ)) (int 255))
          (sub (int 1) (div (some (k : ℚ)) (int 255))) b
      else b := by
  obtain ⟨a1, a2, a3, a4, ch, hch, hj⟩ := ht
  unfold Worker.byteMap
  simp only
  rw [if_neg (by omega), getByte_of_getElem? hk, gt_alpha_0001, gt_invAlpha_0001]
  have e255 : int 255 = some (255 : ℚ) := by simp [int]
  by_cases h1 : 1 ≤ k
  · by_cases h2 : k ≤ 254
    · simp only [h1, h2, decide_True, if_true, and_self]
      generalize (((offsetY + ↑my) * ↑imgWidth + (offsetX + ↑mx)) * 4).toNat = i at hj
      rw [if_pos (by omega), e255]
    · simp [h1, h2]
  · simp [h1]

/-- The image-buffer index of channel `ch` of the pixel under mask pixel `(mx, my)`, when the
footprint fits into the image. -/
theorem JS.targets_of_fit {imgWidth imgHeight maskWidth maskHeight margin my mx ch : ℕ}
    (hx : maskWidth + margin ≤ imgWidth) (hy : maskHeight + margin ≤ imgHeight)
    (hmy : my < maskHeight) (hmx : mx < maskWidth) (hch : ch < 3) :
    targets imgWidth imgHeight ((imgWidth : ℤ) - maskWidth - margin)
      ((imgHeight : ℤ) - maskHeight - margin) my mx
      (((imgHeight - maskHeight - margin + my) * imgWidth
        + (imgWidth - maskWidth - margin + mx)) * 4 + ch) := by
  refine ⟨by omega, by omega, by omega, by omega, ch, hch, ?_⟩
  have e1 : ((imgWidth : ℤ) - maskWidth - margin + mx) = ((imgWidth - maskWidth - margin + mx : ℕ) : ℤ) := by
    omega
  have e2 : ((imgHeight : ℤ) - maskHeight - margin + my) = ((imgHeight - maskHeight - margin + my : ℕ) : ℤ) := by
    omega
  rw [e1, e2]
  have : (((imgHeight - maskHeight - margin + my : ℕ) : ℤ) * (imgWidth : ℤ)
      + ((imgWidth - maskWidth - margin + mx : ℕ) : ℤ)) * 4
      = (((imgHeight - maskHeight - margin + my) * imgWidth
        + (imgWidth - maskWidth - margin + mx)) * 4 : ℕ) := by
    push_cast; ring
  rw [this, Int.toNat_ofNat]

/-- Round trip at one byte, direct path: composite of `o` under a white mask pixel of alpha
byte `k ≤ 170`, `k ≠ 2`, comes back within 1 of `o`. -/
theorem App.reverseAlphaBlend_byteMap_roundtrip {maskPixels : List ℕ} {maskWidth imgWidth imgHeight : ℕ}
    {offsetX offsetY : ℤ} {my mx j k : ℕ} (o : ℕ)
    (ht : targets imgWidth imgHeight offsetX offsetY my mx j)
    (hk : maskPixels[(my * maskWidth + mx) * 4 + 3]? = some k)
    (hw : ∀ c, c < 3 → maskPixels[(my * maskWidth + mx) * 4 + c]? = some 255)
    (ho : o ≤ 255) (hk170 : k ≤ 170) (hk2 : k ≠ 2) :
    App.byteMap maskPixels maskWidth imgWidth imgHeight offsetX offsetY my mx j
        (compositeByte o k) ≤ o + 1 ∧
      o ≤ App.byteMap maskPixels maskWidth imgWidth imgHeight offsetX offsetY my mx j
        (compositeByte o k) + 1 := by
  rw [App.byteMap_white _ ht hk hw]
  obtain ⟨hc255, hc⟩ := compositeByte_spec o k ho (by omega)
  by_cases h : k ≤ 2 ∨ 253 ≤ k
  · rw [if_pos h]
    have hk01 : k = 0 ∨ k = 1 := by omega
    rw [abs_le] at hc
    rcases hk01 with rfl | rfl <;> (push_cast at hc; constructor <;> omega)
  · rw [if_neg h]
    obtain ⟨m, hm, hr⟩ := restored_white k (compositeByte o k) (by omega) hc255
    rw [hr]
    have := clamp_near o k (compositeByte o k) m ho hk170 hc hm
    omega

/-- Round trip at one byte, worker path: composite of `o` under a mask pixel of alpha byte
`k ≤ 170` comes back within 1 of `o`. -/
theorem Worker.processImage_byteMap_roundtrip {maskPixels : List ℕ} {maskWidth imgWidth imgHeight : ℕ}
    {offsetX offsetY : ℤ} {my mx j k : ℕ} (o : ℕ)
    (ht : targets imgWidth imgHeight offsetX offsetY my mx j)
    (hk : maskPixels[(my * maskWidth + mx) * 4 + 3]? = some k)
    (ho : o ≤ 255) (hk170 : k ≤ 170) :
    Worker.byteMap maskPixels maskWidth imgWidth imgHeight offsetX offsetY my mx j
        (compositeByte o k) ≤ o + 1 ∧
      o ≤ Worker.byteMap maskPixels maskWidth imgWidth imgHeight offsetX offsetY my mx j
        (compositeByte o k) + 1 := by
  rw [Worker.byteMap_alpha _ ht hk]
  obtain ⟨hc255, hc⟩ := compositeByte_spec o k ho (by omega)
  by_cases h : 1 ≤ k ∧ k ≤ 254
  · rw [if_pos h]
    obtain ⟨m, hm, hr⟩ := restored_white k (compositeByte o k) (by omega) hc255
    rw [hr]
    have := clamp_near o k (compositeByte o k) m ho hk170 hc hm
    omega
  · rw [if_neg h]
    have hk0 : k = 0 := by omega
    subst hk0
    rw [abs_le] at hc
    push_cast at hc
    constructor <;> omega

/-! ## Claims about unblending -/

/-- C1 (code evaluated at the failing input): on a 1×1 image `(100, 100, 100, 255)` under a
white 1×1 mask of alpha byte 254, margin 0, the worker's `processImage` returns
`(0, 0, 0, 255)` while `reverseAlphaBlend` leaves `(100, 100, 100, 255)`: the two paths do
not produce identical buffers. -/
theorem C1_paths_differ_at_alpha_254 :
    Worker.processImage (Worker.requestOf ⟨[100, 100, 100, 255], 1, 1⟩
        ⟨⟨[255, 255, 255, 254], 1, 1⟩, 1, 1, 0⟩ 1 1) = [0, 0, 0, 255] ∧
      App.reverseAlphaBlend ⟨[100, 100, 100, 255], 1, 1⟩
        ⟨⟨[255, 255, 255, 254], 1, 1⟩, 1, 1, 0⟩ 1 1 = [100, 100, 100, 255] := by
  decide!

/-- C3 (counterexample): the original byte 42 under a white mask pixel of alpha byte 252
(opacity `252 / 255 < 1`) composites to 252, and both `reverseAlphaBlend` and the worker's
`processImage` turn 252 back into 0, which is 42 away from the original. -/
theorem C3_roundtrip_fails_at_alpha_252 :
    (252 : ℚ) / 255 < 1 ∧ compositeByte 42 252 = 252 ∧
      App.reverseAlphaBlend ⟨[252, 252, 252, 255], 1, 1⟩
        ⟨⟨[255, 255, 255, 252], 1, 1⟩, 1, 1, 0⟩ 1 1 = [0, 0, 0, 255] ∧
      Worker.processImage (Worker.requestOf ⟨[252, 252, 252, 255], 1, 1⟩
        ⟨⟨[255, 255, 255, 252], 1, 1⟩, 1, 1, 0⟩ 1 1) = [0, 0, 0, 255] ∧
      ¬ (42 ≤ 0 + 1) := by
  decide!

/-- C3 (amended): let the footprint fit into the image and let `(mx, my)` be a mask pixel that
is white with alpha byte `k ≤ 170` (opacity at most 2/3).  If the colour byte under that pixel
holds `compositeByte o k`, the composite of an original byte `o ≤ 255`, then after unblending
that byte is within 1 of `o`: for `reverseAlphaBlend` provided `k ≠ 2`, and for the worker's
`processImage` for every such `k`. -/
theorem C3_roundtrip_within_one (comp : List ℕ) (mask : App.Mask)
    (imgWidth imgHeight my mx ch k o : ℕ)
    (hx : mask.width + mask.margin ≤ imgWidth) (hy : mask.height + mask.margin ≤ imgHeight)
    (hmy : my < mask.height) (hmx : mx < mask.width) (hch : ch < 3)
    (hw : ∀ c, c < 3 → mask.imageData.data[(my * mask.width + mx) * 4 + c]? = some 255)
    (hk : mask.imageData.data[(my * mask.width + mx) * 4 + 3]? = some k)
    (hk170 : k ≤ 170)
    (ho255 : o ≤ 255)
    (hcomp : comp[((imgHeight - mask.height - mask.margin + my) * imgWidth
        + (imgWidth - mask.width - mask.margin + mx)) * 4 + ch]? = some (compositeByte o k)) :
    (k ≠ 2 → ∃ n, (App.reverseAlphaBlend ⟨comp, imgWidth, imgHeight⟩ mask imgWidth imgHeight)[
        ((imgHeight - mask.height - mask.margin + my) * imgWidth
          + (imgWidth - mask.width - mask.margin + mx)) * 4 + ch]? = some n ∧
        n ≤ o + 1 ∧ o ≤ n + 1) ∧
    (∃ n, (Worker.processImage
        (Worker.requestOf ⟨comp, imgWidth, imgHeight⟩ mask imgWidth imgHeight))[
        ((imgHeight - mask.height - mask.margin + my) * imgWidth
          + (imgWidth - mask.width - mask.margin + mx)) * 4 + ch]? = some n ∧
        n ≤ o + 1 ∧ o ≤ n + 1) := by
  have ht := targets_of_fit hx hy hmy hmx hch
  constructor
  · intro hk2
    refine ⟨_, ?_, App.reverseAlphaBlend_byteMap_roundtrip o ht hk hw ho255 hk170 hk2⟩
    rw [App.reverseAlphaBlend_getElem?_of_targets _ _ _ _ my mx _ hmy hmx ht]
    show Option.map _ comp[_]? = _
    rw [hcomp]
    rfl
  · refine ⟨_, ?_, Worker.processImage_byteMap_roundtrip o ht hk ho255 hk170⟩
    rw [Worker.processImage_getElem?_of_targets _ my mx _ hmy hmx ht]
    show Option.map _ comp[_]? = _
    rw [hcomp]
    rfl

/-- C3 (witness): a 1×1 image of original colour 42 under a white mask pixel of alpha byte
100, composited to 126. -/
theorem C3_roundtrip_within_one_witness :
    (100 ≠ 2 → ∃ n, (App.reverseAlphaBlend ⟨[126, 126, 126, 255], 1, 1⟩
        ⟨⟨[255, 255, 255, 100], 1, 1⟩, 1, 1, 0⟩ 1 1)[
        ((1 - 1 - 0 + 0) * 1 + (1 - 1 - 0 + 0)) * 4 + 0]? = some n ∧ n ≤ 42 + 1 ∧ 42 ≤ n + 1) ∧
    (∃ n, (Worker.processImage (Worker.requestOf ⟨[126, 126, 126, 255], 1, 1⟩
        ⟨⟨[255, 255, 255, 100], 1, 1⟩, 1, 1, 0⟩ 1 1))[
        ((1 - 1 - 0 + 0) * 1 + (1 - 1 - 0 + 0)) * 4 + 0]? = some n ∧ n ≤ 42 + 1 ∧ 42 ≤ n + 1) :=
  C3_roundtrip_within_one [126, 126, 126, 255]
    ⟨⟨[255, 255, 255, 100], 1, 1⟩, 1, 1, 0⟩ 1 1 0 0 0 100 42
    (by decide) (by decide) (by decide) (by decide) (by decide) (by decide) (by decide)
    (by decide) (by decide) (by decide!)

/-- C4: `reverseAlphaBlend` and the worker's `processImage` leave every byte of every pixel
outside the footprint rectangle `[offsetX, offsetX + maskWidth) × [offsetY, offsetY +
maskHeight)` unchanged, leave the alpha byte of every pixel unchanged, and return a buffer
of the same length. -/
theorem C4_unblend_frame (imageData : App.ImageData) (mask : App.Mask) (imgWidth imgHeight : ℕ) :
    (∀ x y ch : ℕ, x < imgWidth → ch < 4 →
      ¬ ((imgWidth : ℤ) - mask.width - mask.margin ≤ x ∧
          (x : ℤ) < (imgWidth : ℤ) - mask.width - mask.margin + mask.width ∧
          (imgHeight : ℤ) - mask.height - mask.margin ≤ y ∧
          (y : ℤ) < (imgHeight : ℤ) - mask.height - mask.margin + mask.height) →
      (App.reverseAlphaBlend imageData mask imgWidth imgHeight)[(y * imgWidth + x) * 4 + ch]? =
          imageData.data[(y * imgWidth + x) * 4 + ch]? ∧
        (Worker.processImage (Worker.requestOf imageData mask imgWidth imgHeight))[
          (y * imgWidth + x) * 4 + ch]? = imageData.data[(y * imgWidth + x) * 4 + ch]?) ∧
    (∀ p : ℕ,
      (App.reverseAlphaBlend imageData mask imgWidth imgHeight)[p * 4 + 3]? =
          imageData.data[p * 4 + 3]? ∧
        (Worker.processImage (Worker.requestOf imageData mask imgWidth imgHeight))[p * 4 + 3]? =
          imageData.data[p * 4 + 3]?) ∧
    (App.reverseAlphaBlend imageData mask imgWidth imgHeight).length = imageData.data.length ∧
    (Worker.processImage (Worker.requestOf imageData mask imgWidth imgHeight)).length =
      imageData.data.length := by
  refine ⟨?_, ?_, App.reverseAlphaBlend_length _ _ _ _, Worker.processImage_length _⟩
  · intro x y ch hx hch hout
    have hn : ∀ my, my < mask.height → ∀ mx, mx < mask.width →
        ¬ targets imgWidth imgHeight ((imgWidth : ℤ) - mask.width - mask.margin)
          ((imgHeight : ℤ) - mask.height - mask.margin) my mx ((y * imgWidth + x) * 4 + ch) := by
      intro my hmy mx hmx ht
      obtain ⟨a1, a2, a3, a4, ch', hch', hj⟩ := ht
      apply hout
      have p1 : 0 ≤ (((imgHeight : ℤ) - mask.height - mask.margin + my) * imgWidth
          + ((imgWidth : ℤ) - mask.width - mask.margin + mx)) * 4 := by positivity
      have e : (((y : ℤ) * imgWidth + x) * 4 : ℤ) + ch
          = (((imgHeight : ℤ) - mask.height - mask.margin + my) * imgWidth
            + ((imgWidth : ℤ) - mask.width - mask.margin + mx)) * 4 + ch' := by
        have := hj
        zify at this
        rwa [Int.toNat_of_nonneg p1] at this
      have e2 : (y : ℤ) * imgWidth + x = ((imgHeight : ℤ) - mask.height - mask.margin + my) * imgWidth
          + ((imgWidth : ℤ) - mask.width - mask.margin + mx) := by omega
      have hW : (0 : ℤ) ≤ imgWidth := Int.natCast_nonneg _
      have hy : (y : ℤ) = (imgHeight : ℤ) - mask.height - mask.margin + my := by
        rcases lt_trichotomy (y : ℤ) ((imgHeight : ℤ) - mask.height - mask.margin + my)
          with hlt | heq | hgt
        · exfalso
          have : ((y : ℤ) + 1) * (imgWidth : ℤ)
              ≤ ((imgHeight : ℤ) - mask.height - mask.margin + my) * imgWidth :=
            Int.mul_le_mul_of_nonneg_right (by omega) hW
          rw [add_mul, one_mul] at this
          linarith
        · exact heq
        · exfalso
          have : (((imgHeight : ℤ) - mask.height - mask.margin + my) + 1) * (imgWidth : ℤ)
              ≤ (y : ℤ) * imgWidth :=
            Int.mul_le_mul_of_nonneg_right (by omega) hW
          rw [add_mul, one_mul] at this
          linarith
      rw [hy] at e2
      refine ⟨by omega, by omega, by omega, by omega⟩
    exact ⟨App.reverseAlphaBlend_getElem?_of_not_targets _ _ _ _ _ hn,
      Worker.processImage_getElem?_of_not_targets _ _ hn⟩
  · intro p
    have hn : ∀ my, my < mask.height → ∀ mx, mx < mask.width →
        ¬ targets imgWidth imgHeight ((imgWidth : ℤ) - mask.width - mask.margin)
          ((imgHeight : ℤ) - mask.height - mask.margin) my mx (p * 4 + 3) := by
      intro my hmy mx hmx ht
      obtain ⟨a1, a2, a3, a4, ch', hch', hj⟩ := ht
      have p1 : 0 ≤ (((imgHeight : ℤ) - mask.height - mask.margin + my) * imgWidth
          + ((imgWidth : ℤ) - mask.width - mask.margin + mx)) * 4 := by positivity
      have := hj
      zify at this
      rw [Int.toNat_of_nonneg p1] at this
      omega
    exact ⟨App.reverseAlphaBlend_getElem?_of_not_targets _ _ _ _ _ hn,
      Worker.processImage_getElem?_of_not_targets _ _ hn⟩

/-- C5: if the mask pixel `(mx, my)` has alpha byte `k` with `k / 255 ≥ 0.99`, then
`reverseAlphaBlend` leaves the three colour bytes of the image pixel under it (every byte
that pass targets) equal to what they were on input. -/
theorem C5_saturation_passthrough (imageData : App.ImageData) (mask : App.Mask)
    (imgWidth imgHeight my mx j k : ℕ) (hmy : my < mask.height) (hmx : mx < mask.width)
    (hk : mask.imageData.data[(my * mask.width + mx) * 4 + 3]? = some k)
    (hsat : (99 : ℚ) / 100 ≤ (k : ℚ) / 255)
    (ht : targets imgWidth imgHeight ((imgWidth : ℤ) - mask.width - mask.margin)
      ((imgHeight : ℤ) - mask.height - mask.margin) my mx j) :
    (App.reverseAlphaBlend imageData mask imgWidth imgHeight)[j]? = imageData.data[j]? := by
  have hk253 : 253 ≤ k := by
    have h1 : (99 : ℚ) * 255 ≤ 100 * k := by
      rw [div_le_div_iff₀ (by norm_num) (by norm_num)] at hsat
      linarith
    have h2 : (99 * 255 : ℤ) ≤ 100 * (k : ℤ) := by exact_mod_cast h1
    omega
  rw [App.reverseAlphaBlend_getElem?_of_targets _ _ _ _ my mx _ hmy hmx ht]
  have hid : App.byteMap mask.imageData.data mask.width imgWidth imgHeight
      ((imgWidth : ℤ) - mask.width - mask.margin) ((imgHeight : ℤ) - mask.height - mask.margin)
      my mx j = id := by
    funext b
    obtain ⟨a1, a2, a3, a4, -⟩ := ht
    unfold App.byteMap
    simp only
    rw [if_neg (by omega), getByte_of_getElem? hk, lt_alpha_001, lt_invAlpha_001]
    simp [hk253, show ¬ k ≤ 2 by omega]
  rw [hid, Option.map_id]
  rfl

/-- C5 (witness): a 1×1 image under a white mask pixel of alpha byte 253. -/
theorem C5_saturation_passthrough_witness :
    (App.reverseAlphaBlend ⟨[10, 20, 30, 255], 1, 1⟩ ⟨⟨[255, 255, 255, 253], 1, 1⟩, 1, 1, 0⟩ 1 1)[1]?
      = ([10, 20, 30, 255] : List ℕ)[1]? :=
  C5_saturation_passthrough ⟨[10, 20, 30, 255], 1, 1⟩ ⟨⟨[255, 255, 255, 253], 1, 1⟩, 1, 1, 0⟩
    1 1 0 0 1 253 (by decide) (by decide) (by decide) (by norm_num)
    ⟨by decide, by decide, by decide, by decide, 1, by decide, by decide⟩

/-- C7: when the alpha byte of every mask pixel is 0, `reverseAlphaBlend` and the worker's
`processImage` return the image buffer byte for byte as it was given. -/
theorem C7_unblend_identity_on_empty_overlay (imageData : App.ImageData) (mask : App.Mask)
    (imgWidth imgHeight : ℕ)
    (hzero : ∀ my, my < mask.height → ∀ mx, mx < mask.width →
      mask.imageData.data[(my * mask.width + mx) * 4 + 3]? = some 0) :
    App.reverseAlphaBlend imageData mask imgWidth imgHeight = imageData.data ∧
      Worker.processImage (Worker.requestOf imageData mask imgWidth imgHeight) =
        imageData.data := by
  constructor
  · apply List.ext_getElem?
    intro j
    unfold App.reverseAlphaBlend
    apply nested_unchanged _ _ (App.reverseAlphaBlend_step_getElem? _ _ _ _ _ _)
    intro my hmy mx hmx b
    unfold App.byteMap
    simp only
    have h0 := getByte_of_getElem? (hzero my hmy mx hmx)
    rw [h0, lt_alpha_001]
    simp
  · apply List.ext_getElem?
    intro j
    unfold Worker.processImage
    apply nested_unchanged _ _ (Worker.processImage_step_getElem? _ _ _ _ _ _)
    intro my hmy mx hmx b
    unfold Worker.byteMap
    simp only
    have h0 := getByte_of_getElem? (hzero my hmy mx hmx)
    simp only [Worker.requestOf]
    rw [h0, gt_alpha_0001]
    simp

/-- C7 (witness): a 1×1 image under a 1×1 mask of alpha byte 0. -/
theorem C7_unblend_identity_on_empty_overlay_witness :
    App.reverseAlphaBlend ⟨[10, 20, 30, 255], 1, 1⟩ ⟨⟨[255, 255, 255, 0], 1, 1⟩, 1, 1, 0⟩ 1 1
        = [10, 20, 30, 255] ∧
      Worker.processImage (Worker.requestOf ⟨[10, 20, 30, 255], 1, 1⟩
        ⟨⟨[255, 255, 255, 0], 1, 1⟩, 1, 1, 0⟩ 1 1) = [10, 20, 30, 255] :=
  C7_unblend_identity_on_empty_overlay ⟨[10, 20, 30, 255], 1, 1⟩
    ⟨⟨[255, 255, 255, 0], 1, 1⟩, 1, 1, 0⟩ 1 1 (by decide)

/-! ## Detection -/

theorem JS.f64_nonpos {q : ℚ} (h : q ≤ 0) : f64 q ≤ 0 := by
  have h1 := f64_err q
  rw [abs_of_nonpos h, abs_le] at h1
  have : -q / 2 ^ 53 ≤ -q := div_le_self (by linarith) (by norm_num)
  linarith [h1.2]

theorem JS.foldl_invariant {β ι : Type} (I : β → Prop) (f : β → ι → β) (l : List ι) (b : β)
    (hb : I b) (hf : ∀ b i, I b → I (f b i)) : I (l.foldl f b) := by
  induction l generalizing b with
  | nil => exact hb
  | cons i l ih => exact ih (f b i) (hf b i hb)

theorem JS.nonneg_lit {q : ℚ} (h : 0 ≤ q) : ∀ x, lit q = some x → 0 ≤ x := by
  intro x hx
  simp only [lit, Option.some.injEq] at hx
  exact hx ▸ f64_nonneg h

theorem JS.nonneg_getByte (buf : List ℕ) (i : ℕ) : ∀ x, getByte buf i = some x → 0 ≤ x := by
  intro x hx
  unfold getByte at hx
  cases h : buf[i]? with
  | none => simp [h] at hx
  | some b =>
    simp only [h, Option.map_some', Option.some.injEq] at hx
    exact hx ▸ Nat.cast_nonneg b

theorem JS.nonneg_add {a b : Number} (ha : ∀ x, a = some x → 0 ≤ x) (hb : ∀ x, b = some x → 0 ≤ x) :
    ∀ x, add a b = some x → 0 ≤ x := by
  intro x hx
  cases a with
  | none => simp [add] at hx
  | some p =>
    cases b with
    | none => simp [add] at hx
    | some q =>
      simp only [add, Option.some.injEq] at hx
      exact hx ▸ f64_nonneg (add_nonneg (ha p rfl) (hb q rfl))

theorem JS.nonneg_mul {a b : Number} (ha : ∀ x, a = some x → 0 ≤ x) (hb : ∀ x, b = some x → 0 ≤ x) :
    ∀ x, mul a b = some x → 0 ≤ x := by
  intro x hx
  cases a with
  | none => simp [mul] at hx
  | some p =>
    cases b with
    | none => simp [mul] at hx
    | some q =>
      simp only [mul, Option.some.injEq] at hx
      exact hx ▸ f64_nonneg (mul_nonneg (ha p rfl) (hb q rfl))

theorem JS.nonneg_div {a b : Number} (ha : ∀ x, a = some x → 0 ≤ x) (hb : ∀ x, b = some x → 0 ≤ x) :
    ∀ x, div a b = some x → 0 ≤ x := by
  intro x hx
  cases a with
  | none => simp [div] at hx
  | some p =>
    cases b with
    | none => simp [div] at hx
    | some q =>
      simp only [div] at hx
      split_ifs at hx with hq
      simp only [Option.some.injEq] at hx
      exact hx ▸ f64_nonneg (div_nonneg (ha p rfl) (hb q rfl))

theorem JS.gt_int_iff (a : Number) (z : ℤ) : gt a (int z) = true ↔ ∃ d, a = some d ∧ (z : ℚ) < d := by
  cases a with
  | none => simp [gt, lt, int]
  | some p => simp [gt, lt, int]

theorem Worker.watermarkSums_eq : Worker.watermarkSums = App.watermarkSums := rfl

theorem Worker.surroundingSums_eq : Worker.surroundingSums = App.surroundingSums := rfl

/-- The running sum of reference brightness is never negative. -/
theorem App.surroundingSums_nonneg (imgPixels : List ℕ) (maskWidth maskHeight imgWidth imgHeight : ℕ)
    (offsetX offsetY : ℤ) :
    ∀ x, (App.surroundingSums imgPixels maskWidth maskHeight imgWidth imgHeight offsetX offsetY).1
      = some x → 0 ≤ x := by
  have hstep : ∀ (acc : Number × Number) (x y : ℤ), (∀ v, acc.1 = some v → 0 ≤ v) →
      ∀ v, (App.surroundingStep imgPixels imgWidth acc x y).1 = some v → 0 ≤ v := by
    intro acc x y hacc
    unfold App.surroundingStep
    simp only
    exact nonneg_add hacc (nonneg_add (nonneg_add
      (nonneg_mul (nonneg_lit (by norm_num)) (nonneg_getByte _ _))
      (nonneg_mul (nonneg_lit (by norm_num)) (nonneg_getByte _ _)))
      (nonneg_mul (nonneg_lit (by norm_num)) (nonneg_getByte _ _)))
  unfold App.surroundingSums
  simp only
  apply foldl_invariant (fun acc : Number × Number => ∀ v, acc.1 = some v → 0 ≤ v)
  · apply foldl_invariant (fun acc : Number × Number => ∀ v, acc.1 = some v → 0 ≤ v)
    · intro v hv
      simp only [int, Option.some.injEq] at hv
      exact hv ▸ (by norm_num)
    · intro acc y hacc
      exact foldl_invariant (fun acc : Number × Number => ∀ v, acc.1 = some v → 0 ≤ v) _ _ _ hacc
        (fun acc x h => hstep acc x y h)
  · intro acc y hacc
    exact foldl_invariant (fun acc : Number × Number => ∀ v, acc.1 = some v → 0 ≤ v) _ _ _ hacc
      (fun acc x h => hstep acc x y h)

/-- With alpha 0 everywhere no footprint pixel is weighted. -/
theorem App.watermarkSums_of_zero_alpha (imgPixels maskPixels : List ℕ)
    (maskWidth maskHeight imgWidth imgHeight : ℕ) (offsetX offsetY : ℤ)
    (hzero : ∀ my, my < maskHeight → ∀ mx, mx < maskWidth →
      maskPixels[(my * maskWidth + mx) * 4 + 3]? = some 0) :
    App.watermarkSums imgPixels maskPixels maskWidth maskHeight imgWidth imgHeight offsetX offsetY
      = (int 0, int 0) := by
  unfold App.watermarkSums
  apply foldl_fixed
  intro my hmy acc
  apply foldl_fixed
  intro mx hmx acc'
  simp only
  have h0 := getByte_of_getElem? (hzero my (List.mem_range.mp hmy) mx (List.mem_range.mp hmx))
  rw [h0, gt_alpha_01]
  simp

/-- The decision of `detectWatermark` once the overlay average is 0. -/
theorem JS.not_gt_ten_of_zero_minus (s : Number) (hs : ∀ x, s = some x → 0 ≤ x) :
    gt (sub (int 0) s) (int 10) = false := by
  cases s with
  | none => simp [gt, lt, sub, int]
  | some p =>
    have hp := hs p rfl
    have : f64 (0 - p) ≤ 0 := f64_nonpos (by linarith)
    simp only [gt, lt, sub, int, Int.cast_zero, Int.cast_ofNat, decide_eq_false_iff_not, not_lt]
    linarith

theorem App.avgSurrounding_nonneg (sr : Number × Number) (h : ∀ x, sr.1 = some x → 0 ≤ x) :
    ∀ x, (if gt sr.2 (int 0) then div sr.1 sr.2 else int 128) = some x → 0 ≤ x := by
  intro x hx
  split_ifs at hx with hg
  · obtain ⟨d, hd, hpos⟩ := (gt_int_iff _ _).mp hg
    refine nonneg_div h ?_ x hx
    intro y hy
    rw [hd] at hy
    simp only [Option.some.injEq] at hy
    rw [← hy]
    exact le_of_lt (by simpa using hpos)
  · simp only [int, Option.some.injEq] at hx
    exact hx ▸ (by norm_num)

/-! ## Claims about detection and selection -/

/-- C2: for every image, mask and image size, the worker's `detectWatermark` (field
`hasWatermark`) and the direct `detectWatermark` return the same boolean, and the three
brightness values the worker reports in `debug` are the ones the direct path logs. -/
theorem C2_detectors_agree (imageData : App.ImageData) (mask : App.Mask) (imgWidth imgHeight : ℕ) :
    (Worker.detectWatermark (Worker.requestOf imageData mask imgWidth imgHeight)).hasWatermark =
      (App.detectWatermark imageData mask imgWidth imgHeight).result ∧
    (Worker.detectWatermark (Worker.requestOf imageData mask imgWidth imgHeight)).debug.map
        (fun d => (d.avgWatermarkBrightness, d.avgSurroundingBrightness, d.brightnessDiff)) =
      (App.detectWatermark imageData mask imgWidth imgHeight).logged.map
        (fun b => (b.avgWatermarkBrightness, b.avgSurroundingBrightness, b.brightnessDiff)) := by
  unfold Worker.detectWatermark App.detectWatermark Worker.requestOf
  simp only [Worker.watermarkSums_eq, Worker.surroundingSums_eq]
  split_ifs <;> exact ⟨rfl, rfl⟩

/-- C6: when the alpha byte of every mask pixel is 0, `detectWatermark` answers `false` on
every image, on the direct path and in the worker. -/
theorem C6_no_detection_on_empty_overlay (imageData : App.ImageData) (mask : App.Mask)
    (imgWidth imgHeight : ℕ)
    (hzero : ∀ my, my < mask.height → ∀ mx, mx < mask.width →
      mask.imageData.data[(my * mask.width + mx) * 4 + 3]? = some 0) :
    (App.detectWatermark imageData mask imgWidth imgHeight).result = false ∧
      (Worker.detectWatermark (Worker.requestOf imageData mask imgWidth imgHeight)).hasWatermark
        = false := by
  have key : (App.detectWatermark imageData mask imgWidth imgHeight).result = false := by
    unfold App.detectWatermark
    simp only
    by_cases hoff : (imgWidth : ℤ) - mask.width - mask.margin < 0 ∨
        (imgHeight : ℤ) - mask.height - mask.margin < 0
    · rw [if_pos hoff]
    · rw [if_neg hoff, App.watermarkSums_of_zero_alpha _ _ _ _ _ _ _ _ hzero]
      have h00 : gt (int 0) (int 0) = false := by simp [gt, lt, int]
      simp only [h00, Bool.false_eq_true, if_false]
      exact not_gt_ten_of_zero_minus _
        (App.avgSurrounding_nonneg _ (App.surroundingSums_nonneg _ _ _ _ _ _ _))
  exact ⟨key, by
    have h := (show (Worker.detectWatermark (Worker.requestOf imageData mask imgWidth imgHeight)).hasWatermark
      = (App.detectWatermark imageData mask imgWidth imgHeight).result by
        unfold Worker.detectWatermark App.detectWatermark Worker.requestOf
        simp only [Worker.watermarkSums_eq, Worker.surroundingSums_eq]
        split_ifs <;> rfl)
    rw [h, key]⟩

/-- C6 (witness): a bright 2×1 image under a 1×1 mask of alpha byte 0. -/
theorem C6_no_detection_on_empty_overlay_witness :
    (App.detectWatermark ⟨[0, 0, 0, 255, 255, 255, 255, 255], 2, 1⟩
        ⟨⟨[255, 255, 255, 0], 1, 1⟩, 1, 1, 0⟩ 2 1).result = false ∧
      (Worker.detectWatermark (Worker.requestOf ⟨[0, 0, 0, 255, 255, 255, 255, 255], 2, 1⟩
        ⟨⟨[255, 255, 255, 0], 1, 1⟩, 1, 1, 0⟩ 2 1)).hasWatermark = false :=
  C6_no_detection_on_empty_overlay ⟨[0, 0, 0, 255, 255, 255, 255, 255], 2, 1⟩
    ⟨⟨[255, 255, 255, 0], 1, 1⟩, 1, 1, 0⟩ 2 1 (by decide)

/-- C8: when the footprint fits, both detectors compute an overlay brightness `wb` and a
reference brightness `sb`, report `diff = wb - sb`, and answer `true` exactly when `diff` is a
number strictly greater than 10; a `diff` of exactly 10 gives `false`. -/
theorem C8_threshold_is_strict (imageData : App.ImageData) (mask : App.Mask)
    (imgWidth imgHeight : ℕ)
    (hx : mask.width + mask.margin ≤ imgWidth) (hy : mask.height + mask.margin ≤ imgHeight) :
    ∃ wb sb : Number,
      (App.detectWatermark imageData mask imgWidth imgHeight).logged = some ⟨wb, sb, sub wb sb⟩ ∧
      (Worker.detectWatermark (Worker.requestOf imageData mask imgWidth imgHeight)).debug
        = some ⟨wb, sb, sub wb sb⟩ ∧
      ((App.detectWatermark imageData mask imgWidth imgHeight).result = true ↔
        ∃ d, sub wb sb = some d ∧ 10 < d) ∧
      ((Worker.detectWatermark (Worker.requestOf imageData mask imgWidth imgHeight)).hasWatermark
        = true ↔ ∃ d, sub wb sb = some d ∧ 10 < d) ∧
      (sub wb sb = some 10 →
        (App.detectWatermark imageData mask imgWidth imgHeight).result = false ∧
        (Worker.detectWatermark (Worker.requestOf imageData mask imgWidth imgHeight)).hasWatermark
          = false) := by
  have hoff : ¬ ((imgWidth : ℤ) - mask.width - mask.margin < 0 ∨
      (imgHeight : ℤ) - mask.height - mask.margin < 0) := by omega
  unfold Worker.detectWatermark App.detectWatermark Worker.requestOf
  simp only [Worker.watermarkSums_eq, Worker.surroundingSums_eq, if_neg hoff]
  refine ⟨_, _, rfl, rfl, ?_, ?_, ?_⟩
  · simpa using gt_int_iff _ 10
  · simpa using gt_int_iff _ 10
  · intro h10
    rw [h10]
    simp [gt, lt, int]

/-- C8 (witness): a 2×1 image, black then `(10, 10, 10)`, under a 1×1 mask of alpha byte 255
and margin 0: the overlay brightness is 10, the reference brightness 0, `diff` is exactly 10
and both detectors answer `false`. -/
theorem C8_threshold_is_strict_witness :
    App.detectWatermark ⟨[0, 0, 0, 255, 10, 10, 10, 255], 2, 1⟩
        ⟨⟨[255, 255, 255, 255], 1, 1⟩, 1, 1, 0⟩ 2 1
      = ⟨false, some ⟨some 10, some 0, some 10⟩⟩ ∧
    ∃ wb sb : Number,
      (App.detectWatermark ⟨[0, 0, 0, 255, 10, 10, 10, 255], 2, 1⟩
        ⟨⟨[255, 255, 255, 255], 1, 1⟩, 1, 1, 0⟩ 2 1).logged = some ⟨wb, sb, sub wb sb⟩ ∧
      (Worker.detectWatermark (Worker.requestOf ⟨[0, 0, 0, 255, 10, 10, 10, 255], 2, 1⟩
        ⟨⟨[255, 255, 255, 255], 1, 1⟩, 1, 1, 0⟩ 2 1)).debug = some ⟨wb, sb, sub wb sb⟩ ∧
      ((App.detectWatermark ⟨[0, 0, 0, 255, 10, 10, 10, 255], 2, 1⟩
        ⟨⟨[255, 255, 255, 255], 1, 1⟩, 1, 1, 0⟩ 2 1).result = true ↔
        ∃ d, sub wb sb = some d ∧ 10 < d) ∧
      ((Worker.detectWatermark (Worker.requestOf ⟨[0, 0, 0, 255, 10, 10, 10, 255], 2, 1⟩
        ⟨⟨[255, 255, 255, 255], 1, 1⟩, 1, 1, 0⟩ 2 1)).hasWatermark = true ↔
        ∃ d, sub wb sb = some d ∧ 10 < d) ∧
      (sub wb sb = some 10 →
        (App.detectWatermark ⟨[0, 0, 0, 255, 10, 10, 10, 255], 2, 1⟩
          ⟨⟨[255, 255, 255, 255], 1, 1⟩, 1, 1, 0⟩ 2 1).result = false ∧
        (Worker.detectWatermark (Worker.requestOf ⟨[0, 0, 0, 255, 10, 10, 10, 255], 2, 1⟩
          ⟨⟨[255, 255, 255, 255], 1, 1⟩, 1, 1, 0⟩ 2 1)).hasWatermark = false) :=
  ⟨by decide!,
    C8_threshold_is_strict ⟨[0, 0, 0, 255, 10, 10, 10, 255], 2, 1⟩
      ⟨⟨[255, 255, 255, 255], 1, 1⟩, 1, 1, 0⟩ 2 1 (by decide) (by decide)⟩

theorem App.loadMasks_get_96 (loadImage : String → Option App.ImageData) :
    (App.loadMasks loadImage).get 96 =
      (loadImage "assets/mask_96.png").map (fun raw =>
        { imageData := App.preprocessMask raw, width := raw.width, height := raw.height,
          margin := 64 }) := by
  unfold App.loadMasks App.MASK_CONFIGS
  simp only [List.foldl_cons, List.foldl_nil]
  cases h96 : loadImage "assets/mask_96.png" <;> cases h48 : loadImage "assets/mask_48.png" <;>
    simp [App.Masks.get, App.Masks.set]

theorem App.loadMasks_get_48 (loadImage : String → Option App.ImageData) :
    (App.loadMasks loadImage).get 48 =
      (loadImage "assets/mask_48.png").map (fun raw =>
        { imageData := App.preprocessMask raw, width := raw.width, height := raw.height,
          margin := 32 }) := by
  unfold App.loadMasks App.MASK_CONFIGS
  simp only [List.foldl_cons, List.foldl_nil]
  cases h96 : loadImage "assets/mask_96.png" <;> cases h48 : loadImage "assets/mask_48.png" <;>
    simp [App.Masks.get, App.Masks.set]

/-- C9: after `loadMasks` has loaded both bitmaps, `selectMask(w, h)` is the mask stored
under key 96 (margin 64) when `w > 1024` and `h > 1024`, and the mask stored under key 48
(margin 32) otherwise; so it has margin 64 exactly when both dimensions exceed 1024, and
`selectMask(1024, 1024)`, `selectMask(2000, 500)` are the small mask, `selectMask(1025, 1025)`
the large one. -/
theorem C9_selector_policy (loadImage : String → Option App.ImageData) (raw96 raw48 : App.ImageData)
    (h96 : loadImage "assets/mask_96.png" = some raw96)
    (h48 : loadImage "assets/mask_48.png" = some raw48) (w h : ℕ) :
    (1024 < w ∧ 1024 < h →
      App.selectMask (App.loadMasks loadImage) w h = (App.loadMasks loadImage).get 96 ∧
      App.selectMask (App.loadMasks loadImage) w h =
        some ⟨App.preprocessMask raw96, raw96.width, raw96.height, 64⟩) ∧
    (¬ (1024 < w ∧ 1024 < h) →
      App.selectMask (App.loadMasks loadImage) w h = (App.loadMasks loadImage).get 48 ∧
      App.selectMask (App.loadMasks loadImage) w h =
        some ⟨App.preprocessMask raw48, raw48.width, raw48.height, 32⟩) ∧
    ((App.selectMask (App.loadMasks loadImage) w h).map (fun m => m.margin) = some 64 ↔
      1024 < w ∧ 1024 < h) ∧
    ((App.selectMask (App.loadMasks loadImage) w h).map (fun m => m.margin) = some 32 ↔
      ¬ (1024 < w ∧ 1024 < h)) ∧
    App.selectMask (App.loadMasks loadImage) 1024 1024 =
      some ⟨App.preprocessMask raw48, raw48.width, raw48.height, 32⟩ ∧
    App.selectMask (App.loadMasks loadImage) 1025 1025 =
      some ⟨App.preprocessMask raw96, raw96.width, raw96.height, 64⟩ ∧
    App.selectMask (App.loadMasks loadImage) 2000 500 =
      some ⟨App.preprocessMask raw48, raw48.width, raw48.height, 32⟩ := by
  have g96 := App.loadMasks_get_96 loadImage
  have g48 := App.loadMasks_get_48 loadImage
  rw [h96] at g96
  rw [h48] at g48
  simp only [Option.map_some'] at g96 g48
  unfold App.selectMask
  refine ⟨?_, ?_, ?_, ?_, ?_, ?_, ?_⟩
  · intro hb
    rw [if_pos hb]
    exact ⟨rfl, g96⟩
  · intro hb
    rw [if_neg hb]
    exact ⟨rfl, g48⟩
  · by_cases hb : 1024 < w ∧ 1024 < h
    · simp [hb, g96]
    · simp only [gt_iff_lt, hb, if_false, g48, Option.map_some', Option.some.injEq]
      simp
  · by_cases hb : 1024 < w ∧ 1024 < h
    · simp only [gt_iff_lt, hb, if_true, g96, Option.map_some', Option.some.injEq]
      simp
    · simp [hb, g48]
  · simpa using g48
  · simpa using g96
  · simpa using g48

/-- C9 (witness): both bitmaps decode to a one-pixel image. -/
theorem C9_selector_policy_witness :
    App.selectMask (App.loadMasks (fun _ => some ⟨[255, 255, 255, 255], 1, 1⟩)) 1025 1025 =
      some ⟨App.preprocessMask ⟨[255, 255, 255, 255], 1, 1⟩, 1, 1, 64⟩ :=
  (C9_selector_policy (fun _ => some ⟨[255, 255, 255, 255], 1, 1⟩) ⟨[255, 255, 255, 255], 1, 1⟩
    ⟨[255, 255, 255, 255], 1, 1⟩ rfl rfl 0 0).2.2.2.2.2.1

/-- C10 (counterexample): when only the 96-pixel bitmap decodes, `state.masks` is not empty,
yet `selectMask(100, 100)` returns nothing. -/
theorem C10_none_although_a_mask_is_loaded :
    App.loadMasks (fun path =>
        if path = "assets/mask_96.png" then some ⟨[255, 255, 255, 255], 1, 1⟩ else none) ≠ [] ∧
      App.selectMask (App.loadMasks (fun path =>
        if path = "assets/mask_96.png" then some ⟨[255, 255, 255, 255], 1, 1⟩ else none))
        100 100 = none := by
  decide!

/-- C10 (amended): `selectMask(w, h)` returns nothing exactly when the bitmap of the image's
own size class failed to load: `assets/mask_96.png` when both dimensions exceed 1024,
`assets/mask_48.png` otherwise. -/
theorem C10_none_iff_bucket_not_loaded (loadImage : String → Option App.ImageData) (w h : ℕ) :
    App.selectMask (App.loadMasks loadImage) w h = none ↔
      loadImage (if 1024 < w ∧ 1024 < h then "assets/mask_96.png" else "assets/mask_48.png")
        = none := by
  unfold App.selectMask
  by_cases hb : 1024 < w ∧ 1024 < h
  · simp only [gt_iff_lt, hb, and_self, if_true, App.loadMasks_get_96, Option.map_eq_none']
  · simp only [gt_iff_lt, hb, if_false, App.loadMasks_get_48, Option.map_eq_none']

/-! ## Claims about the selector's failure mode, the fit test and the dispatcher -/

/-- C11: if the bitmap of an image's own size class (`assets/mask_96.png` when both
dimensions exceed 1024, `assets/mask_48.png` otherwise) failed to load, `selectMask`
returns nothing for that image, whatever else is loaded, and `processImage` ends in an
error on both paths; and whenever `selectMask` does return a mask, it is the one stored
under the key of the image's own size class, with that class's margin. -/
theorem C11_selector_fails_closed (loadImage : String → Option App.ImageData)
    (image : App.ImageData) (worker : Bool) :
    (loadImage (if 1024 < image.width ∧ 1024 < image.height then "assets/mask_96.png"
        else "assets/mask_48.png") = none →
      App.selectMask (App.loadMasks loadImage) image.width image.height = none ∧
      App.processImage (App.loadMasks loadImage) worker image
        = Except.error "找不到合適的 mask") ∧
    (∀ mask, App.selectMask (App.loadMasks loadImage) image.width image.height = some mask →
      (App.loadMasks loadImage).get
          (if 1024 < image.width ∧ 1024 < image.height then 96 else 48) = some mask ∧
        mask.margin = (if 1024 < image.width ∧ 1024 < image.height then 64 else 32)) := by
  constructor
  · intro hnone
    have hsel : App.selectMask (App.loadMasks loadImage) image.width image.height = none := by
      unfold App.selectMask
      by_cases hb : 1024 < image.width ∧ 1024 < image.height
      · rw [if_pos hb] at hnone
        simp only [gt_iff_lt, hb, and_self, if_true, App.loadMasks_get_96, hnone, Option.map_none']
      · rw [if_neg hb] at hnone
        simp only [gt_iff_lt, hb, if_false, App.loadMasks_get_48, hnone, Option.map_none']
    refine ⟨hsel, ?_⟩
    unfold App.processImage
    rw [hsel]
  · intro mask hsel
    unfold App.selectMask at hsel
    by_cases hb : 1024 < image.width ∧ 1024 < image.height
    · simp only [gt_iff_lt, hb, and_self, if_true] at hsel ⊢
      refine ⟨hsel, ?_⟩
      rw [App.loadMasks_get_96] at hsel
      cases h : loadImage "assets/mask_96.png" with
      | none => simp [h] at hsel
      | some raw =>
        simp only [h, Option.map_some', Option.some.injEq] at hsel
        rw [← hsel]
    · simp only [gt_iff_lt, hb, if_false] at hsel ⊢
      refine ⟨hsel, ?_⟩
      rw [App.loadMasks_get_48] at hsel
      cases h : loadImage "assets/mask_48.png" with
      | none => simp [h] at hsel
      | some raw =>
        simp only [h, Option.map_some', Option.some.injEq] at hsel
        rw [← hsel]

/-- C12: when `imgWidth - maskWidth - margin < 0` or `imgHeight - maskHeight - margin < 0`,
both detectors answer `false` at once, with nothing logged or reported, and the answer is
the same for every content of the image buffer: no pixel is consulted. -/
theorem C12_no_fit_no_detection (imageData other : App.ImageData) (mask : App.Mask)
    (imgWidth imgHeight : ℕ)
    (hneg : (imgWidth : ℤ) - mask.width - mask.margin < 0 ∨
      (imgHeight : ℤ) - mask.height - mask.margin < 0) :
    App.detectWatermark imageData mask imgWidth imgHeight = ⟨false, none⟩ ∧
      Worker.detectWatermark (Worker.requestOf imageData mask imgWidth imgHeight)
        = ⟨false, none⟩ ∧
      App.detectWatermark imageData mask imgWidth imgHeight
        = App.detectWatermark other mask imgWidth imgHeight ∧
      Worker.detectWatermark (Worker.requestOf imageData mask imgWidth imgHeight)
        = Worker.detectWatermark (Worker.requestOf other mask imgWidth imgHeight) := by
  unfold App.detectWatermark Worker.detectWatermark Worker.requestOf
  simp only [if_pos hneg, and_self]

/-- C12 (witness): a 40×40 image against a 48×48 mask of margin 32. -/
theorem C12_no_fit_no_detection_witness :
    App.detectWatermark ⟨List.replicate 6400 7, 40, 40⟩
        ⟨⟨List.replicate 9216 255, 48, 48⟩, 48, 48, 32⟩ 40 40 = ⟨false, none⟩ ∧
      Worker.detectWatermark (Worker.requestOf ⟨List.replicate 6400 7, 40, 40⟩
        ⟨⟨List.replicate 9216 255, 48, 48⟩, 48, 48, 32⟩ 40 40) = ⟨false, none⟩ ∧
      App.detectWatermark ⟨List.replicate 6400 7, 40, 40⟩
          ⟨⟨List.replicate 9216 255, 48, 48⟩, 48, 48, 32⟩ 40 40
        = App.detectWatermark ⟨[], 40, 40⟩ ⟨⟨List.replicate 9216 255, 48, 48⟩, 48, 48, 32⟩ 40 40 ∧
      Worker.detectWatermark (Worker.requestOf ⟨List.replicate 6400 7, 40, 40⟩
          ⟨⟨List.replicate 9216 255, 48, 48⟩, 48, 48, 32⟩ 40 40)
        = Worker.detectWatermark (Worker.requestOf ⟨[], 40, 40⟩
          ⟨⟨List.replicate 9216 255, 48, 48⟩, 48, 48, 32⟩ 40 40) :=
  C12_no_fit_no_detection ⟨List.replicate 6400 7, 40, 40⟩ ⟨[], 40, 40⟩
    ⟨⟨List.replicate 9216 255, 48, 48⟩, 48, 48, 32⟩ 40 40 (by decide)

/-- C18: for a selected mask, `processImage` returns the input buffer itself with
`noWatermark = true` when detection answers `false`, and the unblended buffer with
`noWatermark = false` when it answers `true`: with the worker, detection and unblending are
the worker's `detectWatermark` and `processImage`; without it, `detectWatermark` and
`reverseAlphaBlend`. -/
theorem C18_dispatcher (masks : App.Masks) (image : App.ImageData) (mask : App.Mask)
    (hsel : App.selectMask masks image.width image.height = some mask) :
    (∀ r, App.processImage masks true image = Except.ok r →
      r.success = true ∧ r.originalBlob = image.data ∧
      r.noWatermark
        = !(Worker.detectWatermark
            (Worker.requestOf image mask image.width image.height)).hasWatermark ∧
      r.blob =
        if (Worker.detectWatermark
            (Worker.requestOf image mask image.width image.height)).hasWatermark
        then Worker.processImage (Worker.requestOf image mask image.width image.height)
        else image.data) ∧
    (∀ r, App.processImage masks false image = Except.ok r →
      r.success = true ∧ r.originalBlob = image.data ∧
      r.noWatermark = !(App.detectWatermark image mask image.width image.height).result ∧
      r.blob =
        if (App.detectWatermark image mask image.width image.height).result
        then App.reverseAlphaBlend image mask image.width image.height
        else image.data) ∧
    (∃ r, App.processImage masks true image = Except.ok r) ∧
    (∃ r, App.processImage masks false image = Except.ok r) := by
  unfold App.processImage
  rw [hsel]
  simp only [if_true, Bool.false_eq_true, if_false]
  refine ⟨?_, ?_, ?_, ?_⟩
  · intro r hr
    cases hd : (Worker.detectWatermark
        (Worker.requestOf image mask image.width image.height)).hasWatermark <;>
      simp only [hd, Bool.not_false, Bool.not_true, if_true, Bool.false_eq_true, if_false,
        Except.ok.injEq] at hr <;> subst hr <;> simp
  · intro r hr
    cases hd : (App.detectWatermark image mask image.width image.height).result <;>
      simp only [hd, Bool.not_false, Bool.not_true, if_true, Bool.false_eq_true, if_false,
        Except.ok.injEq] at hr <;> subst hr <;> simp
  · cases hd : (Worker.detectWatermark
        (Worker.requestOf image mask image.width image.height)).hasWatermark <;>
      simp
  · cases hd : (App.detectWatermark image mask image.width image.height).result <;> simp

/-- C18 (witness): one black pixel, both one-pixel bitmaps loaded. -/
theorem C18_dispatcher_witness :
    ∃ r, App.processImage (App.loadMasks (fun _ => some ⟨[255, 255, 255, 255], 1, 1⟩)) false
      ⟨[0, 0, 0, 255], 1, 1⟩ = Except.ok r :=
  (C18_dispatcher (App.loadMasks (fun _ => some ⟨[255, 255, 255, 255], 1, 1⟩))
    ⟨[0, 0, 0, 255], 1, 1⟩ ⟨App.preprocessMask ⟨[255, 255, 255, 255], 1, 1⟩, 1, 1, 32⟩
    (by decide!)).2.2.2

/-- C19 (counterexample): for a 40×40 image against the 48×48 mask of margin 32 the worker's
response to `detect` carries `hasWatermark = false` and no `debug` field at all. -/
theorem C19_no_diagnostics_when_no_fit :
    (Worker.detectWatermark (Worker.requestOf ⟨List.replicate 6400 7, 40, 40⟩
      ⟨⟨List.replicate 9216 255, 48, 48⟩, 48, 48, 32⟩ 40 40)).debug = none := by
  decide!

/-- C19 (amended): every response of the worker to `detect` is a `detectResult` with the
flag `hasWatermark`; it carries the diagnostics, with `brightnessDiff` the difference of the
two averages, exactly when the footprint fits (neither offset is negative), and no
diagnostics otherwise. -/
theorem C19_diagnostics_iff_fit (data : Worker.Request) :
    ((data.imgWidth : ℤ) - data.maskWidth - data.margin < 0 ∨
        (data.imgHeight : ℤ) - data.maskHeight - data.margin < 0 →
      Worker.detectWatermark data = ⟨false, none⟩) ∧
    (¬ ((data.imgWidth : ℤ) - data.maskWidth - data.margin < 0 ∨
        (data.imgHeight : ℤ) - data.maskHeight - data.margin < 0) →
      ∃ wb sb : Number,
        (Worker.detectWatermark data).debug = some ⟨wb, sb, sub wb sb⟩ ∧
        (Worker.detectWatermark data).hasWatermark = gt (sub wb sb) (int 10)) := by
  unfold Worker.detectWatermark
  constructor
  · intro h
    simp only [if_pos h]
  · intro h
    simp only [if_neg h]
    exact ⟨_, _, rfl, rfl⟩

/-! ## The unblending formula for an arbitrary overlay colour, and index safety -/

set_option maxHeartbeats 1000000 in
/-- The arithmetic heart of unblending for any overlay colour byte `w`: with mask alpha byte
`k ≤ 254` and composite byte `c ≤ 255`, the double computed by `(c - w * alpha) / invAlpha`
rounds to an integer `m` within one half of the exact quotient `(255 c - w k) / (255 - k)`. -/
theorem JS.unblend_core (k w c : ℕ) (hk : k ≤ 254) (hw : w ≤ 255) (hc : c ≤ 255) :
    0 < f64 (1 - f64 ((k : ℚ) / 255)) ∧
    |2 * ⌊f64 (f64 ((c : ℚ) - f64 ((w : ℚ) * f64 ((k : ℚ) / 255))) / f64 (1 - f64 ((k : ℚ) / 255)))
        + 1 / 2⌋ * (255 - (k : ℤ)) - 2 * (255 * (c : ℤ) - (w : ℤ) * k)| ≤ 255 - (k : ℤ) := by
  have hK0 : (0 : ℚ) ≤ k := Nat.cast_nonneg k
  have hK1 : (k : ℚ) ≤ 254 := by exact_mod_cast hk
  have hC0 : (0 : ℚ) ≤ c := Nat.cast_nonneg c
  have hC1 : (c : ℚ) ≤ 255 := by exact_mod_cast hc
  have hW0 : (0 : ℚ) ≤ w := Nat.cast_nonneg w
  have hW1 : (w : ℚ) ≤ 255 := by exact_mod_cast hw
  set α := f64 ((k : ℚ) / 255) with hα
  set ι := f64 (1 - α) with hι
  set t := f64 ((w : ℚ) * α) with ht
  set d := f64 ((c : ℚ) - t) with hd
  set r := f64 (d / ι) with hr
  have a1 : |α - (k : ℚ) / 255| ≤ 1 / 2 ^ 53 :=
    f64_within (by rw [abs_of_nonneg (by positivity)]; linarith)
  rw [abs_le] at a1
  have b1 : |ι - (1 - α)| ≤ 2 / 2 ^ 53 :=
    f64_within (by rw [abs_le]; constructor <;> norm_num at a1 ⊢ <;> linarith [a1.1, a1.2])
  rw [abs_le] at b1
  norm_num at a1 b1
  have i1 : (1 : ℚ) / 256 ≤ ι := by linarith [a1.2, b1.1]
  have i2 : ι ≤ 2 := by linarith [a1.1, b1.2]
  have ipos : 0 < ι := by linarith
  have α0 : -(1 / 9007199254740992) ≤ α := by linarith [a1.1, div_nonneg hK0 (by norm_num : (0:ℚ) ≤ 255)]
  have α1 : α ≤ 1 + 1 / 9007199254740992 := by linarith [a1.2]
  -- the product w * alpha
  have wa1 : (w : ℚ) * α ≤ 256 := by
    have := mul_le_mul_of_nonneg_left α1 hW0
    linarith
  have wa0 : -1 ≤ (w : ℚ) * α := by
    have := mul_le_mul_of_nonneg_left α0 hW0
    linarith
  have c1 : |t - (w : ℚ) * α| ≤ 256 / 2 ^ 53 :=
    f64_within (by rw [abs_le]; constructor <;> linarith)
  rw [abs_le] at c1
  norm_num at c1
  have wk : |(w : ℚ) * α - (w : ℚ) * k / 255| ≤ 255 * (1 / 9007199254740992) := by
    have : (w : ℚ) * α - (w : ℚ) * k / 255 = (w : ℚ) * (α - (k : ℚ) / 255) := by ring
    rw [this]
    exact abs_mul_le (by rw [abs_of_nonneg hW0]; exact hW1) (by rw [abs_le]; constructor <;> linarith [a1.1, a1.2])
  rw [abs_le] at wk
  norm_num at wk
  have wk0 : (0 : ℚ) ≤ (w : ℚ) * k / 255 := by positivity
  have wk1 : (w : ℚ) * k / 255 ≤ 255 := by
    have : (w : ℚ) * k ≤ 255 * 255 := mul_le_mul hW1 (by linarith) hK0 (by norm_num)
    linarith
  have d1 : |d - ((c : ℚ) - t)| ≤ 512 / 2 ^ 53 :=
    f64_within (by rw [abs_le]; constructor <;> linarith [c1.1, c1.2, wk.1, wk.2])
  rw [abs_le] at d1
  norm_num at d1
  have d2 : |d| ≤ 256 := by
    rw [abs_le]; constructor <;> linarith [c1.1, c1.2, d1.1, d1.2, wk.1, wk.2]
  have q1 : |d / ι| ≤ 65536 := by
    rw [abs_div, abs_of_pos ipos, div_le_iff₀ ipos]
    linarith
  have r1 : |r - d / ι| ≤ 65536 / 2 ^ 53 := f64_within q1
  have r2 : |r| ≤ 65537 := by
    rw [abs_le] at r1 q1 ⊢
    norm_num at r1
    constructor <;> linarith [r1.1, r1.2, q1.1, q1.2]
  have e1 : r * ι - d = (r - d / ι) * ι := by
    rw [sub_mul, div_mul_cancel₀ d (ne_of_gt ipos)]
  have e2 : |r * ι - d| ≤ 65536 / 2 ^ 53 * 2 := by
    rw [e1]
    exact abs_mul_le r1 (by rw [abs_of_pos ipos]; exact i2)
  have e3 : |r * ((255 - (k : ℚ)) / 255 - ι)| ≤ 65537 * (3 / 2 ^ 53) :=
    abs_mul_le r2 (by rw [abs_le]; constructor <;> norm_num <;> linarith [a1.1, a1.2, b1.1, b1.2])
  rw [abs_le] at e2 e3
  norm_num at e2 e3
  have hD : (1 : ℚ) ≤ 255 - k := by linarith
  have split : r * (255 - (k : ℚ)) - (255 * (c : ℚ) - (w : ℚ) * k)
      = 255 * (r * ((255 - (k : ℚ)) / 255 - ι) + (r * ι - d) + (d - ((c : ℚ) - t))
        + ((w : ℚ) * α - t) + ((w : ℚ) * k / 255 - (w : ℚ) * α)) := by
    ring
  have key1 : r * (255 - (k : ℚ)) - (255 * (c : ℚ) - (w : ℚ) * k) ≤ 1 / 4 := by
    rw [split]
    linarith [e2.2, e3.2, d1.2, c1.1, wk.1]
  have key2 : -(1 / 4) ≤ r * (255 - (k : ℚ)) - (255 * (c : ℚ) - (w : ℚ) * k) := by
    rw [split]
    linarith [e2.1, e3.1, d1.1, c1.2, wk.2]
  refine ⟨ipos, ?_⟩
  set m := ⌊r + 1 / 2⌋ with hm
  have m1 : (m : ℚ) ≤ r + 1 / 2 := Int.floor_le _
  have m2 : r + 1 / 2 < (m : ℚ) + 1 := Int.lt_floor_add_one _
  have m3 : (m : ℚ) * (255 - k) ≤ (r + 1 / 2) * (255 - k) :=
    mul_le_mul_of_nonneg_right m1 (by linarith)
  have m4 : (r + 1 / 2) * (255 - (k : ℚ)) < ((m : ℚ) + 1) * (255 - k) :=
    mul_lt_mul_of_pos_right m2 (by linarith)
  rw [abs_le]
  constructor
  · have : ((-(255 - (k : ℤ)) - 1 : ℤ) : ℚ)
        < ((2 * m * (255 - (k : ℤ)) - 2 * (255 * (c : ℤ) - (w : ℤ) * k) : ℤ) : ℚ) := by
      push_cast
      linarith
    have := Int.cast_lt.mp this
    omega
  · have : ((2 * m * (255 - (k : ℤ)) - 2 * (255 * (c : ℤ) - (w : ℤ) * k) : ℤ) : ℚ)
        < ((255 - (k : ℤ) + 1 : ℤ) : ℚ) := by
      push_cast
      linarith
    have := Int.cast_lt.mp this
    omega

/-- The byte stored for a channel with overlay colour byte `w`: the clamp of an integer
within one half of the exact quotient; in particular a byte. -/
theorem JS.restored_general (k w c : ℕ) (hk : k ≤ 254) (hw : w ≤ 255) (hc : c ≤ 255) :
    ∃ m : ℤ, |2 * m * (255 - (k : ℤ)) - 2 * (255 * (c : ℤ) - (w : ℤ) * k)| ≤ 255 - (k : ℤ) ∧
      restored (some (w : ℚ)) (div (some (k : ℚ)) (int 255))
        (sub (int 1) (div (some (k : ℚ)) (int 255))) c = (max 0 (min 255 m)).toNat := by
  obtain ⟨hpos, hm⟩ := unblend_core k w c hk hw hc
  refine ⟨_, hm, ?_⟩
  unfold restored
  rw [div_byte]
  have hne : f64 (1 - f64 ((k : ℚ) / 255)) ≠ 0 := ne_of_gt hpos
  have : div (sub (some (c : ℚ)) (mul (some (w : ℚ)) (some (f64 ((k : ℚ) / 255)))))
      (sub (int 1) (some (f64 ((k : ℚ) / 255)))) =
      some (f64 (f64 ((c : ℚ) - f64 ((w : ℚ) * f64 ((k : ℚ) / 255)))
        / f64 (1 - f64 ((k : ℚ) / 255)))) := by
    simp [div, sub, mul, int, hne]
  rw [this, clamp_round]

/-- The byte map of `reverseAlphaBlend` at channel `ch` of a targeted pixel, for a mask pixel
with colour byte `w` in that channel and alpha byte `k`. -/
theorem App.byteMap_channel {maskPixels : List ℕ} {maskWidth imgWidth imgHeight : ℕ}
    {offsetX offsetY : ℤ} {my mx ch k w : ℕ} (b : ℕ)
    (h1 : 0 ≤ offsetX + mx) (h2 : 0 ≤ offsetY + my) (h3 : offsetX + mx < imgWidth)
    (h4 : offsetY + my < imgHeight) (hch : ch < 3)
    (hk : maskPixels[(my * maskWidth + mx) * 4 + 3]? = some k)
    (hw : maskPixels[(my * maskWidth + mx) * 4 + ch]? = some w) :
    App.byteMap maskPixels maskWidth imgWidth imgHeight offsetX offsetY my mx
        ((((offsetY + my) * imgWidth + (offsetX + mx)) * 4).toNat + ch) b =
      if k ≤ 2 ∨ 253 ≤ k then b
      else restored (some (w : ℚ)) (div (some (k : ℚ)) (int 255))
        (sub (int 1) (div (some (k : ℚ)) (int 255))) b := by
  unfold App.byteMap
  simp only
  rw [if_neg (by omega), getByte_of_getElem? hk, lt_alpha_001, lt_invAlpha_001]
  by_cases c1 : k ≤ 2
  · simp [c1]
  · by_cases c2 : 253 ≤ k
    · simp [c1, c2]
    · simp only [c1, c2, decide_False, Bool.false_eq_true, if_false, or_self]
      generalize (((offsetY + ↑my) * ↑imgWidth + (offsetX + ↑mx)) * 4).toNat = i
      have : ch = 0 ∨ ch = 1 ∨ ch = 2 := by omega
      rcases this with rfl | rfl | rfl
      · simp only [Nat.add_zero] at hw
        simp [getByte_of_getElem? hw]
      · simp [getByte_of_getElem? hw]
      · simp [getByte_of_getElem? hw]

theorem JS.pixel_index_lt {y x H W : ℕ} (hy : y < H) (hx : x < W) :
    (y * W + x) * 4 + 3 < W * H * 4 := by
  have h1 : (y + 1) * W ≤ H * W := Nat.mul_le_mul_right W hy
  have h2 : y * W + x < (y + 1) * W := by rw [Nat.add_mul]; omega
  have h3 : W * H = H * W := Nat.mul_comm W H
  omega

theorem JS.mem_intRange {lo hi z : ℤ} : z ∈ intRange lo hi ↔ lo ≤ z ∧ z < hi := by
  unfold intRange
  simp only [List.mem_map, List.mem_range]
  constructor
  · rintro ⟨i, hi', rfl⟩
    omega
  · intro h
    exact ⟨(z - lo).toNat, by omega, by omega⟩

/-- The image index of the pixel `(x, y)` as the loops compute it. -/
theorem JS.image_index_lt {x y : ℤ} {H W : ℕ} (hx0 : 0 ≤ x) (hy0 : 0 ≤ y) (hx : x < W)
    (hy : y < H) : ((y * W + x) * 4).toNat + 3 < W * H * 4 := by
  obtain ⟨xn, rfl⟩ := Int.eq_ofNat_of_zero_le hx0
  obtain ⟨yn, rfl⟩ := Int.eq_ofNat_of_zero_le hy0
  have : (((yn : ℤ) * W + xn) * 4) = (((yn * W + xn) * 4 : ℕ) : ℤ) := by push_cast; ring
  rw [this, Int.toNat_ofNat]
  exact pixel_index_lt (by exact_mod_cast hy) (by exact_mod_cast hx)

/-! ## The checked loops never leave their arrays -/

namespace JS

/-- A checked read at an index of the array is the plain read. -/
theorem readChecked_of_lt {buf : List ℕ} {i : ℕ} (h : i < buf.length) :
    readChecked buf i = some (getByte buf i) := by
  unfold readChecked
  rw [if_pos h]

/-- A checked store at an index of the array is the plain store. -/
theorem writeChecked_of_lt {buf : List ℕ} {i : ℕ} (v : Number) (h : i < buf.length) :
    writeChecked buf i v = some (putByte buf i v) := by
  unfold writeChecked
  rw [if_pos h]

/-- A store keeps the length of the array. -/
theorem length_putByte (buf : List ℕ) (i : ℕ) (v : Number) :
    (putByte buf i v).length = buf.length := by
  unfold putByte
  rw [List.length_set]

/-- A checked loop whose every pass succeeds with the result of the plain pass, as long as
an invariant of the plain loop holds, succeeds with the result of the plain loop.  The
checked state is the image `g b` of the plain state `b`. -/
theorem foldlM_eq_some {γ β ι : Type} (g : β → γ) (I : β → Prop) (fC : γ → ι → Option γ)
    (f : β → ι → β) :
    ∀ (l : List ι) (b : β), I b →
      (∀ b, I b → ∀ i ∈ l, fC (g b) i = some (g (f b i)) ∧ I (f b i)) →
      l.foldlM fC (g b) = some (g (l.foldl f b)) ∧ I (l.foldl f b) := by
  intro l
  induction l with
  | nil =>
    intro b hb _
    exact ⟨rfl, hb⟩
  | cons x xs ih =>
    intro b hb h
    obtain ⟨h1, h2⟩ := h b hb x (List.mem_cons_self _ _)
    have := ih (f b x) h2 (fun b hb i hi => h b hb i (List.mem_cons_of_mem _ hi))
    rw [List.foldlM_cons, h1, List.foldl_cons]
    exact this

end JS

namespace App

/-- One pass of `blendStep` keeps the length of the image buffer. -/
theorem reverseAlphaBlend_step_length (maskPixels : List ℕ) (maskWidth imgWidth imgHeight : ℕ)
    (offsetX offsetY : ℤ) (buf : List ℕ) (my mx : ℕ) :
    (blendStep maskPixels maskWidth imgWidth imgHeight offsetX offsetY buf my mx).length
      = buf.length :=
  length_eq_of_getElem?_map _ _ _
    (fun j => reverseAlphaBlend_step_getElem? maskPixels maskWidth imgWidth imgHeight offsetX
      offsetY buf my mx j)

/-- One checked pass of the loop body of `reverseAlphaBlend`, for a mask pixel of the mask
and buffers of the stated lengths, succeeds with the result of the plain pass. -/
theorem reverseAlphaBlend_stepChecked_eq (maskPixels : List ℕ) (maskWidth maskHeight imgWidth imgHeight : ℕ)
    (offsetX offsetY : ℤ) (buf : List ℕ) (my mx : ℕ) (hmy : my < maskHeight)
    (hmx : mx < maskWidth) (hlenI : buf.length = imgWidth * imgHeight * 4)
    (hlenM : maskPixels.length = maskWidth * maskHeight * 4) :
    blendStepChecked maskPixels maskWidth imgWidth imgHeight offsetX offsetY buf my mx
      = some (blendStep maskPixels maskWidth imgWidth imgHeight offsetX offsetY buf my mx) := by
  unfold blendStepChecked blendStep
  by_cases hout : offsetX + (mx : ℤ) < 0 ∨ offsetY + (my : ℤ) < 0 ∨
      offsetX + (mx : ℤ) ≥ imgWidth ∨ offsetY + (my : ℤ) ≥ imgHeight
  · simp only [if_pos hout]
  · simp only [if_neg hout]
    have hI := image_index_lt (x := offsetX + mx) (y := offsetY + my) (H := imgHeight)
      (W := imgWidth) (by omega) (by omega) (by omega) (by omega)
    have hM : (my * maskWidth + mx) * 4 + 3 < maskWidth * maskHeight * 4 :=
      pixel_index_lt hmy hmx
    have m3 : (my * maskWidth + mx) * 4 + 3 < maskPixels.length := by omega
    have m2 : (my * maskWidth + mx) * 4 + 2 < maskPixels.length := by omega
    have m1 : (my * maskWidth + mx) * 4 + 1 < maskPixels.length := by omega
    have m0 : (my * maskWidth + mx) * 4 < maskPixels.length := by omega
    have i0 : (((offsetY + my) * imgWidth + (offsetX + mx)) * 4).toNat < buf.length := by omega
    have i1 : (((offsetY + my) * imgWidth + (offsetX + mx)) * 4).toNat + 1 < buf.length := by
      omega
    have i2 : (((offsetY + my) * imgWidth + (offsetX + mx)) * 4).toNat + 2 < buf.length := by
      omega
    simp only [readChecked_of_lt m3, readChecked_of_lt m2, readChecked_of_lt m1,
      readChecked_of_lt m0, readChecked_of_lt i0, readChecked_of_lt i1, readChecked_of_lt i2,
      Option.some_bind]
    split_ifs
    · rfl
    · rfl
    · rw [writeChecked_of_lt _ i0, Option.some_bind,
        writeChecked_of_lt _ (by rw [length_putByte]; exact i1), Option.some_bind,
        writeChecked_of_lt _ (by rw [length_putByte, length_putByte]; exact i2)]

/-- The checked `reverseAlphaBlend` succeeds with the result of `reverseAlphaBlend`. -/
theorem reverseAlphaBlendChecked_eq (imageData : ImageData) (mask : Mask)
    (imgWidth imgHeight : ℕ)
    (hlenI : imageData.data.length = imgWidth * imgHeight * 4)
    (hlenM : mask.imageData.data.length = mask.width * mask.height * 4) :
    reverseAlphaBlendChecked imageData mask imgWidth imgHeight
      = some (reverseAlphaBlend imageData mask imgWidth imgHeight) := by
  unfold reverseAlphaBlendChecked reverseAlphaBlend
  refine (foldlM_eq_some (fun b : List ℕ => b)
    (fun b : List ℕ => b.length = imgWidth * imgHeight * 4) _ _ _ _ hlenI ?_).1
  intro b hb my hmy
  refine foldlM_eq_some (fun b : List ℕ => b)
    (fun b : List ℕ => b.length = imgWidth * imgHeight * 4) _ _ _ _ hb ?_
  intro b hb mx hmx
  exact ⟨reverseAlphaBlend_stepChecked_eq _ _ mask.height _ _ _ _ _ _ _ (List.mem_range.mp hmy)
    (List.mem_range.mp hmx) hb hlenM, (reverseAlphaBlend_step_length _ _ _ _ _ _ _ _ _).trans hb⟩

/-- One checked pass of the footprint loop of `detectWatermark`, when the footprint fits
and the buffers have the stated lengths, succeeds with the sums of the plain pass and skips
nothing. -/
theorem watermarkStepChecked_eq (imgPixels maskPixels : List ℕ)
    (maskWidth maskHeight margin imgWidth imgHeight : ℕ)
    (hx : maskWidth + margin ≤ imgWidth) (hy : maskHeight + margin ≤ imgHeight)
    (hlenI : imgPixels.length = imgWidth * imgHeight * 4)
    (hlenM : maskPixels.length = maskWidth * maskHeight * 4)
    (acc : Number × Number) (my mx : ℕ) (hmy : my < maskHeight) (hmx : mx < maskWidth) :
    watermarkStepChecked imgPixels maskPixels maskWidth imgWidth imgHeight
        ((imgWidth : ℤ) - maskWidth - margin) ((imgHeight : ℤ) - maskHeight - margin)
        (acc, 0) my mx
      = some ((fun (acc : Number × Number) (mx : ℕ) =>
          let imgX : ℤ := (imgWidth : ℤ) - maskWidth - margin + mx
          let imgY : ℤ := (imgHeight : ℤ) - maskHeight - margin + my
          if imgX < 0 ∨ imgY < 0 ∨ imgX ≥ imgWidth ∨ imgY ≥ imgHeight then acc
          else
            let imgIdx := ((imgY * imgWidth + imgX) * 4).toNat
            let maskIdx : ℕ := (my * maskWidth + mx) * 4
            let alpha := div (getByte maskPixels (maskIdx + 3)) (int 255)
            if gt alpha (lit 0.1) then
              let r := getByte imgPixels imgIdx
              let g := getByte imgPixels (imgIdx + 1)
              let b := getByte imgPixels (imgIdx + 2)
              let brightness :=
                add (add (mul (lit 0.299) r) (mul (lit 0.587) g)) (mul (lit 0.114) b)
              (add acc.1 (mul brightness alpha), add acc.2 alpha)
            else acc) acc mx, 0) := by
  unfold watermarkStepChecked
  have hout : ¬ ((imgWidth : ℤ) - maskWidth - margin + mx < 0 ∨
      (imgHeight : ℤ) - maskHeight - margin + my < 0 ∨
      (imgWidth : ℤ) - maskWidth - margin + mx ≥ imgWidth ∨
      (imgHeight : ℤ) - maskHeight - margin + my ≥ imgHeight) := by omega
  have hI := image_index_lt (x := (imgWidth : ℤ) - maskWidth - margin + mx)
    (y := (imgHeight : ℤ) - maskHeight - margin + my) (H := imgHeight) (W := imgWidth)
    (by omega) (by omega) (by omega) (by omega)
  have hM : (my * maskWidth + mx) * 4 + 3 < maskWidth * maskHeight * 4 :=
    pixel_index_lt hmy hmx
  have m3 : (my * maskWidth + mx) * 4 + 3 < maskPixels.length := by omega
  have i0 : ((((imgHeight : ℤ) - maskHeight - margin + my) * imgWidth
      + ((imgWidth : ℤ) - maskWidth - margin + mx)) * 4).toNat < imgPixels.length := by omega
  have i1 : ((((imgHeight : ℤ) - maskHeight - margin + my) * imgWidth
      + ((imgWidth : ℤ) - maskWidth - margin + mx)) * 4).toNat + 1 < imgPixels.length := by
    omega
  have i2 : ((((imgHeight : ℤ) - maskHeight - margin + my) * imgWidth
      + ((imgWidth : ℤ) - maskWidth - margin + mx)) * 4).toNat + 2 < imgPixels.length := by
    omega
  simp only [if_neg hout, readChecked_of_lt m3, readChecked_of_lt i0, readChecked_of_lt i1,
    readChecked_of_lt i2, Option.some_bind]
  split_ifs <;> rfl

/-- The checked footprint loop nest of `detectWatermark` succeeds with the sums of
`watermarkSums` and with no position skipped. -/
theorem watermarkSumsChecked_eq (imgPixels maskPixels : List ℕ)
    (maskWidth maskHeight margin imgWidth imgHeight : ℕ)
    (hx : maskWidth + margin ≤ imgWidth) (hy : maskHeight + margin ≤ imgHeight)
    (hlenI : imgPixels.length = imgWidth * imgHeight * 4)
    (hlenM : maskPixels.length = maskWidth * maskHeight * 4) :
    watermarkSumsChecked imgPixels maskPixels maskWidth maskHeight imgWidth imgHeight
        ((imgWidth : ℤ) - maskWidth - margin) ((imgHeight : ℤ) - maskHeight - margin)
      = some (watermarkSums imgPixels maskPixels maskWidth maskHeight imgWidth imgHeight
          ((imgWidth : ℤ) - maskWidth - margin) ((imgHeight : ℤ) - maskHeight - margin), 0) := by
  unfold watermarkSumsChecked watermarkSums
  refine (foldlM_eq_some (fun acc : Number × Number => (acc, 0)) (fun _ => True) _ _ _ _
    trivial ?_).1
  intro acc _ my hmy
  refine foldlM_eq_some (fun acc : Number × Number => (acc, 0)) (fun _ => True) _ _ _ _
    trivial ?_
  intro acc _ mx hmx
  exact ⟨watermarkStepChecked_eq imgPixels maskPixels maskWidth maskHeight margin imgWidth
    imgHeight hx hy hlenI hlenM acc my mx (List.mem_range.mp hmy) (List.mem_range.mp hmx),
    trivial⟩

/-- One checked pass of a reference loop of `detectWatermark` at a pixel of the image
succeeds with the result of the plain pass. -/
theorem surroundingStepChecked_eq (imgPixels : List ℕ) (imgWidth imgHeight : ℕ)
    (hlenI : imgPixels.length = imgWidth * imgHeight * 4) (acc : Number × Number) (x y : ℤ)
    (hx0 : 0 ≤ x) (hx1 : x < imgWidth) (hy0 : 0 ≤ y) (hy1 : y < imgHeight) :
    surroundingStepChecked imgPixels imgWidth acc x y
      = some (surroundingStep imgPixels imgWidth acc x y) := by
  unfold surroundingStepChecked surroundingStep
  have hI := image_index_lt (x := x) (y := y) (H := imgHeight) (W := imgWidth) hx0 hy0 hx1 hy1
  have i0 : ((y * imgWidth + x) * 4).toNat < imgPixels.length := by omega
  have i1 : ((y * imgWidth + x) * 4).toNat + 1 < imgPixels.length := by omega
  have i2 : ((y * imgWidth + x) * 4).toNat + 2 < imgPixels.length := by omega
  simp only [readChecked_of_lt i0, readChecked_of_lt i1, readChecked_of_lt i2,
    Option.some_bind]

/-- The checked reference loop nests of `detectWatermark` succeed with the sums of
`surroundingSums`. -/
theorem surroundingSumsChecked_eq (imgPixels : List ℕ)
    (maskWidth maskHeight margin imgWidth imgHeight : ℕ)
    (hx : maskWidth + margin ≤ imgWidth) (hy : maskHeight + margin ≤ imgHeight)
    (hlenI : imgPixels.length = imgWidth * imgHeight * 4) :
    surroundingSumsChecked imgPixels maskWidth maskHeight imgWidth imgHeight
        ((imgWidth : ℤ) - maskWidth - margin) ((imgHeight : ℤ) - maskHeight - margin)
      = some (surroundingSums imgPixels maskWidth maskHeight imgWidth imgHeight
          ((imgWidth : ℤ) - maskWidth - margin) ((imgHeight : ℤ) - maskHeight - margin)) := by
  unfold surroundingSumsChecked surroundingSums
  have hleft := (foldlM_eq_some (fun acc : Number × Number => acc) (fun _ => True)
    (fun acc y =>
      (intRange (max 0 ((imgWidth : ℤ) - maskWidth - margin - min (maskWidth : ℤ) maskHeight))
        ((imgWidth : ℤ) - maskWidth - margin)).foldlM
        (fun acc x => surroundingStepChecked imgPixels imgWidth acc x y) acc)
    (fun acc y =>
      (intRange (max 0 ((imgWidth : ℤ) - maskWidth - margin - min (maskWidth : ℤ) maskHeight))
        ((imgWidth : ℤ) - maskWidth - margin)).foldl
        (fun acc x => surroundingStep imgPixels imgWidth acc x y) acc)
    (intRange ((imgHeight : ℤ) - maskHeight - margin)
      (min ((imgHeight : ℤ) - maskHeight - margin + maskHeight) imgHeight))
    (int 0, int 0) trivial (by
      intro acc _ y hyr
      refine foldlM_eq_some (fun acc : Number × Number => acc) (fun _ => True) _ _ _ _
        trivial ?_
      intro acc _ x hxr
      rw [mem_intRange] at hyr hxr
      exact ⟨surroundingStepChecked_eq imgPixels imgWidth imgHeight hlenI acc x y
        (by omega) (by omega) (by omega) (by omega), trivial⟩)).1
  simp only at hleft ⊢
  rw [hleft, Option.some_bind]
  refine (foldlM_eq_some (fun acc : Number × Number => acc) (fun _ => True) _ _ _ _
    trivial ?_).1
  intro acc _ y hyr
  refine foldlM_eq_some (fun acc : Number × Number => acc) (fun _ => True) _ _ _ _
    trivial ?_
  intro acc _ x hxr
  rw [mem_intRange] at hyr hxr
  exact ⟨surroundingStepChecked_eq imgPixels imgWidth imgHeight hlenI acc x y
    (by omega) (by omega) (by omega) (by omega), trivial⟩

end App

namespace Worker

/-- One pass of the worker's `blendStep` keeps the length of the image buffer. -/
theorem processImage_step_length (maskPixels : List ℕ) (maskWidth imgWidth imgHeight : ℕ)
    (offsetX offsetY : ℤ) (buf : List ℕ) (my mx : ℕ) :
    (blendStep maskPixels maskWidth imgWidth imgHeight offsetX offsetY buf my mx).length
      = buf.length :=
  length_eq_of_getElem?_map _ _ _
    (fun j => processImage_step_getElem? maskPixels maskWidth imgWidth imgHeight offsetX
      offsetY buf my mx j)

/-- One checked pass of the loop body of the worker's `processImage`, for a mask pixel of
the mask and buffers of the stated lengths, succeeds with the result of the plain pass. -/
theorem processImage_stepChecked_eq (maskPixels : List ℕ) (maskWidth maskHeight imgWidth imgHeight : ℕ)
    (offsetX offsetY : ℤ) (buf : List ℕ) (my mx : ℕ) (hmy : my < maskHeight)
    (hmx : mx < maskWidth) (hlenI : buf.length = imgWidth * imgHeight * 4)
    (hlenM : maskPixels.length = maskWidth * maskHeight * 4) :
    blendStepChecked maskPixels maskWidth imgWidth imgHeight offsetX offsetY buf my mx
      = some (blendStep maskPixels maskWidth imgWidth imgHeight offsetX offsetY buf my mx) := by
  unfold blendStepChecked blendStep
  by_cases hout : offsetX + (mx : ℤ) < 0 ∨ offsetY + (my : ℤ) < 0 ∨
      offsetX + (mx : ℤ) ≥ imgWidth ∨ offsetY + (my : ℤ) ≥ imgHeight
  · simp only [if_pos hout]
  · simp only [if_neg hout]
    have hI := image_index_lt (x := offsetX + mx) (y := offsetY + my) (H := imgHeight)
      (W := imgWidth) (by omega) (by omega) (by omega) (by omega)
    have hM : (my * maskWidth + mx) * 4 + 3 < maskWidth * maskHeight * 4 :=
      pixel_index_lt hmy hmx
    have m3 : (my * maskWidth + mx) * 4 + 3 < maskPixels.length := by omega
    have i0 : (((offsetY + my) * imgWidth + (offsetX + mx)) * 4).toNat < buf.length := by omega
    have i1 : (((offsetY + my) * imgWidth + (offsetX + mx)) * 4).toNat + 1 < buf.length := by
      omega
    have i2 : (((offsetY + my) * imgWidth + (offsetX + mx)) * 4).toNat + 2 < buf.length := by
      omega
    simp only [readChecked_of_lt m3, readChecked_of_lt i0, readChecked_of_lt i1,
      readChecked_of_lt i2, Option.some_bind]
    split_ifs
    · rw [writeChecked_of_lt _ i0, Option.some_bind,
        writeChecked_of_lt _ (by rw [length_putByte]; exact i1), Option.some_bind,
        writeChecked_of_lt _ (by rw [length_putByte, length_putByte]; exact i2)]
    · rfl
    · rfl

/-- The checked `processImage` of the worker succeeds with the result of `processImage`. -/
theorem processImageChecked_eq (data : Request)
    (hlenI : data.imageData.length = data.imgWidth * data.imgHeight * 4)
    (hlenM : data.maskData.length = data.maskWidth * data.maskHeight * 4) :
    processImageChecked data = some (processImage data) := by
  unfold processImageChecked processImage
  refine (foldlM_eq_some (fun b : List ℕ => b)
    (fun b : List ℕ => b.length = data.imgWidth * data.imgHeight * 4) _ _ _ _ hlenI ?_).1
  intro b hb my hmy
  refine foldlM_eq_some (fun b : List ℕ => b)
    (fun b : List ℕ => b.length = data.imgWidth * data.imgHeight * 4) _ _ _ _ hb ?_
  intro b hb mx hmx
  exact ⟨processImage_stepChecked_eq _ _ data.maskHeight _ _ _ _ _ _ _ (List.mem_range.mp hmy)
    (List.mem_range.mp hmx) hb hlenM, (processImage_step_length _ _ _ _ _ _ _ _ _).trans hb⟩

end Worker

/-- C13: for a footprint pixel inside the image whose mask alpha byte `k` has
`k / 255 ≥ 0.01` and `1 - k / 255 ≥ 0.01`, `reverseAlphaBlend` replaces the byte `c` of
channel `ch` by `clamp(round((c - w * a) / (1 - a)), 0, 255)` evaluated in double
arithmetic, where `w` is the byte of that channel in the mask pixel itself; the stored value
is the clamp to `[0, 255]` of an integer within one half of the exact quotient
`(255 c - w k) / (255 - k)`, hence a byte. -/
theorem C13_unblend_formula (imageData : App.ImageData) (mask : App.Mask)
    (imgWidth imgHeight my mx ch k w c : ℕ) (hmy : my < mask.height) (hmx : mx < mask.width)
    (hch : ch < 3)
    (h1 : 0 ≤ (imgWidth : ℤ) - mask.width - mask.margin + mx)
    (h2 : 0 ≤ (imgHeight : ℤ) - mask.height - mask.margin + my)
    (h3 : (imgWidth : ℤ) - mask.width - mask.margin + mx < imgWidth)
    (h4 : (imgHeight : ℤ) - mask.height - mask.margin + my < imgHeight)
    (hk : mask.imageData.data[(my * mask.width + mx) * 4 + 3]? = some k)
    (hw : mask.imageData.data[(my * mask.width + mx) * 4 + ch]? = some w)
    (hwb : w ≤ 255)
    (hlo : (1 : ℚ) / 100 ≤ (k : ℚ) / 255) (hhi : (1 : ℚ) / 100 ≤ 1 - (k : ℚ) / 255)
    (hc : imageData.data[((((imgHeight : ℤ) - mask.height - mask.margin + my) * imgWidth
      + ((imgWidth : ℤ) - mask.width - mask.margin + mx)) * 4).toNat + ch]? = some c)
    (hcb : c ≤ 255) :
    (App.reverseAlphaBlend imageData mask imgWidth imgHeight)[
        ((((imgHeight : ℤ) - mask.height - mask.margin + my) * imgWidth
          + ((imgWidth : ℤ) - mask.width - mask.margin + mx)) * 4).toNat + ch]? =
      some (toUint8Clamp (mathMax (int 0) (mathMin (int 255) (mathRound
        (div (sub (some (c : ℚ)) (mul (some (w : ℚ)) (div (some (k : ℚ)) (int 255))))
          (sub (int 1) (div (some (k : ℚ)) (int 255)))))))) ∧
    ∃ m : ℤ, |2 * m * (255 - (k : ℤ)) - 2 * (255 * (c : ℤ) - (w : ℤ) * k)| ≤ 255 - (k : ℤ) ∧
      toUint8Clamp (mathMax (int 0) (mathMin (int 255) (mathRound
        (div (sub (some (c : ℚ)) (mul (some (w : ℚ)) (div (some (k : ℚ)) (int 255))))
          (sub (int 1) (div (some (k : ℚ)) (int 255))))))) = (max 0 (min 255 m)).toNat ∧
      (max 0 (min 255 m)).toNat ≤ 255 := by
  have hk3 : 3 ≤ k := by
    have e : (255 : ℚ) ≤ 100 * k := by
      rw [div_le_div_iff₀ (by norm_num) (by norm_num)] at hlo
      linarith
    have : (255 : ℤ) ≤ 100 * (k : ℤ) := by exact_mod_cast e
    omega
  have hk252 : k ≤ 252 := by
    have e : (100 : ℚ) * k ≤ 25245 := by
      have := mul_le_mul_of_nonneg_left hhi (by norm_num : (0 : ℚ) ≤ 25500)
      linarith
    have : (100 : ℤ) * (k : ℤ) ≤ 25245 := by exact_mod_cast e
    omega
  have ht : targets imgWidth imgHeight ((imgWidth : ℤ) - mask.width - mask.margin)
      ((imgHeight : ℤ) - mask.height - mask.margin) my mx
      (((((imgHeight : ℤ) - mask.height - mask.margin + my) * imgWidth
        + ((imgWidth : ℤ) - mask.width - mask.margin + mx)) * 4).toNat + ch) :=
    ⟨h1, h2, h3, h4, ch, hch, rfl⟩
  constructor
  · rw [App.reverseAlphaBlend_getElem?_of_targets _ _ _ _ my mx _ hmy hmx ht, hc,
      Option.map_some', App.byteMap_channel c h1 h2 h3 h4 hch hk hw,
      if_neg (by omega)]
    rfl
  · obtain ⟨m, hm, hr⟩ := restored_general k w c (by omega) hwb hcb
    refine ⟨m, hm, hr, ?_⟩
    have : max 0 (min 255 m) ≤ 255 := max_le (by norm_num) (min_le_left _ _)
    omega

/-- C13 (witness): a 1×1 image `(200, 100, 50, 255)` under a mask pixel of colour
`(250, 128, 0)` and alpha byte 100; the blue channel. -/
theorem C13_unblend_formula_witness :
    (App.reverseAlphaBlend ⟨[200, 100, 50, 255], 1, 1⟩ ⟨⟨[250, 128, 0, 100], 1, 1⟩, 1, 1, 0⟩ 1 1)[2]? =
      some (toUint8Clamp (mathMax (int 0) (mathMin (int 255) (mathRound
        (div (sub (some ((50 : ℕ) : ℚ)) (mul (some ((0 : ℕ) : ℚ)) (div (some ((100 : ℕ) : ℚ)) (int 255))))
          (sub (int 1) (div (some ((100 : ℕ) : ℚ)) (int 255)))))))) :=
  (C13_unblend_formula ⟨[200, 100, 50, 255], 1, 1⟩ ⟨⟨[250, 128, 0, 100], 1, 1⟩, 1, 1, 0⟩
    1 1 0 0 2 100 0 50 (by decide) (by decide) (by decide) (by decide) (by decide) (by decide)
    (by decide) (by decide) (by decide) (by decide) (by norm_num) (by norm_num) (by decide)
    (by decide)).1

/-- C14: `reverseAlphaBlend` and the worker's `processImage` never fail.  For every image
size, template size and margin, negative offsets and footprints partly off the image
included, with an image buffer of `imgWidth * imgHeight * 4` bytes and a mask buffer of
`maskWidth * maskHeight * 4` bytes, the run in which every array access is checked against
the length of its array succeeds and returns the buffer the function returns: every index
read or written lies inside its array.  A footprint position outside the image is skipped,
the buffer left as it is, and the returned buffer has the length of the input. -/
theorem C14_unblend_never_fails (imageData : App.ImageData) (mask : App.Mask)
    (imgWidth imgHeight : ℕ)
    (hlenI : imageData.data.length = imgWidth * imgHeight * 4)
    (hlenM : mask.imageData.data.length = mask.width * mask.height * 4) :
    App.reverseAlphaBlendChecked imageData mask imgWidth imgHeight
      = some (App.reverseAlphaBlend imageData mask imgWidth imgHeight) ∧
    Worker.processImageChecked (Worker.requestOf imageData mask imgWidth imgHeight)
      = some (Worker.processImage (Worker.requestOf imageData mask imgWidth imgHeight)) ∧
    (∀ (buf : List ℕ) (my mx : ℕ),
      ((imgWidth : ℤ) - mask.width - mask.margin + mx < 0 ∨
          (imgHeight : ℤ) - mask.height - mask.margin + my < 0 ∨
          (imgWidth : ℤ) - mask.width - mask.margin + mx ≥ imgWidth ∨
          (imgHeight : ℤ) - mask.height - mask.margin + my ≥ imgHeight) →
      App.blendStepChecked mask.imageData.data mask.width imgWidth imgHeight
          ((imgWidth : ℤ) - mask.width - mask.margin)
          ((imgHeight : ℤ) - mask.height - mask.margin) buf my mx = some buf ∧
        App.blendStep mask.imageData.data mask.width imgWidth imgHeight
          ((imgWidth : ℤ) - mask.width - mask.margin)
          ((imgHeight : ℤ) - mask.height - mask.margin) buf my mx = buf ∧
        Worker.blendStepChecked mask.imageData.data mask.width imgWidth imgHeight
          ((imgWidth : ℤ) - mask.width - mask.margin)
          ((imgHeight : ℤ) - mask.height - mask.margin) buf my mx = some buf ∧
        Worker.blendStep mask.imageData.data mask.width imgWidth imgHeight
          ((imgWidth : ℤ) - mask.width - mask.margin)
          ((imgHeight : ℤ) - mask.height - mask.margin) buf my mx = buf) ∧
    (App.reverseAlphaBlend imageData mask imgWidth imgHeight).length
      = imgWidth * imgHeight * 4 ∧
    (Worker.processImage (Worker.requestOf imageData mask imgWidth imgHeight)).length
      = imgWidth * imgHeight * 4 := by
  refine ⟨App.reverseAlphaBlendChecked_eq imageData mask imgWidth imgHeight hlenI hlenM,
    Worker.processImageChecked_eq _ hlenI hlenM, ?_, ?_, ?_⟩
  · intro buf my mx hout
    refine ⟨?_, ?_, ?_, ?_⟩
    · unfold App.blendStepChecked
      simp only [if_pos hout]
    · unfold App.blendStep
      simp only [if_pos hout]
    · unfold Worker.blendStepChecked
      simp only [if_pos hout]
    · unfold Worker.blendStep
      simp only [if_pos hout]
  · rw [App.reverseAlphaBlend_length, hlenI]
  · rw [Worker.processImage_length]
    exact hlenI

/-- C14 (witness): a 1×1 image against a 2×2 mask, whose footprint is partly off-image. -/
theorem C14_unblend_never_fails_witness :
    App.reverseAlphaBlendChecked ⟨[9, 9, 9, 255], 1, 1⟩
        ⟨⟨List.replicate 16 255, 2, 2⟩, 2, 2, 0⟩ 1 1
      = some (App.reverseAlphaBlend ⟨[9, 9, 9, 255], 1, 1⟩
        ⟨⟨List.replicate 16 255, 2, 2⟩, 2, 2, 0⟩ 1 1) ∧
    Worker.processImageChecked (Worker.requestOf ⟨[9, 9, 9, 255], 1, 1⟩
        ⟨⟨List.replicate 16 255, 2, 2⟩, 2, 2, 0⟩ 1 1)
      = some (Worker.processImage (Worker.requestOf ⟨[9, 9, 9, 255], 1, 1⟩
        ⟨⟨List.replicate 16 255, 2, 2⟩, 2, 2, 0⟩ 1 1)) :=
  ⟨(C14_unblend_never_fails ⟨[9, 9, 9, 255], 1, 1⟩ ⟨⟨List.replicate 16 255, 2, 2⟩, 2, 2, 0⟩ 1 1
    (by decide) (by decide)).1,
   (C14_unblend_never_fails ⟨[9, 9, 9, 255], 1, 1⟩ ⟨⟨List.replicate 16 255, 2, 2⟩, 2, 2, 0⟩ 1 1
    (by decide) (by decide)).2.1⟩

/-- C26: detector index safety.  With both offsets non-negative, an image buffer of
`imgWidth * imgHeight * 4` bytes and a mask buffer of `maskWidth * maskHeight * 4` bytes, the
run of `detectWatermark` in which every array access is checked against the length of its
array succeeds, in the footprint loop and in both reference-strip loops, and returns what
`detectWatermark` returns; the count of footprint positions skipped by the in-loop bounds
test is 0.  The same holds for the worker's detector. -/
theorem C26_detector_index_safety (imageData : App.ImageData) (mask : App.Mask)
    (imgWidth imgHeight : ℕ)
    (hx : mask.width + mask.margin ≤ imgWidth) (hy : mask.height + mask.margin ≤ imgHeight)
    (hlenI : imageData.data.length = imgWidth * imgHeight * 4)
    (hlenM : mask.imageData.data.length = mask.width * mask.height * 4) :
    App.watermarkSumsChecked imageData.data mask.imageData.data mask.width mask.height
        imgWidth imgHeight ((imgWidth : ℤ) - mask.width - mask.margin)
        ((imgHeight : ℤ) - mask.height - mask.margin)
      = some (App.watermarkSums imageData.data mask.imageData.data mask.width mask.height
        imgWidth imgHeight ((imgWidth : ℤ) - mask.width - mask.margin)
        ((imgHeight : ℤ) - mask.height - mask.margin), 0) ∧
    App.surroundingSumsChecked imageData.data mask.width mask.height imgWidth imgHeight
        ((imgWidth : ℤ) - mask.width - mask.margin)
        ((imgHeight : ℤ) - mask.height - mask.margin)
      = some (App.surroundingSums imageData.data mask.width mask.height imgWidth imgHeight
        ((imgWidth : ℤ) - mask.width - mask.margin)
        ((imgHeight : ℤ) - mask.height - mask.margin)) ∧
    App.detectWatermarkChecked imageData mask imgWidth imgHeight
      = some (App.detectWatermark imageData mask imgWidth imgHeight, 0) ∧
    Worker.detectWatermarkChecked (Worker.requestOf imageData mask imgWidth imgHeight)
      = some (Worker.detectWatermark (Worker.requestOf imageData mask imgWidth imgHeight), 0) := by
  have hoff : ¬ ((imgWidth : ℤ) - mask.width - mask.margin < 0 ∨
      (imgHeight : ℤ) - mask.height - mask.margin < 0) := by omega
  have hw := App.watermarkSumsChecked_eq imageData.data mask.imageData.data mask.width
    mask.height mask.margin imgWidth imgHeight hx hy hlenI hlenM
  have hs := App.surroundingSumsChecked_eq imageData.data mask.width mask.height mask.margin
    imgWidth imgHeight hx hy hlenI
  refine ⟨hw, hs, ?_, ?_⟩
  · unfold App.detectWatermarkChecked App.detectWatermark
    simp only [if_neg hoff, hw, hs, Option.some_bind]
  · unfold Worker.detectWatermarkChecked Worker.detectWatermark Worker.requestOf
    simp only [if_neg hoff, hw, hs, Option.some_bind, Worker.watermarkSums_eq,
      Worker.surroundingSums_eq]

/-- C26 (witness): a 3×3 image against a 1×1 mask of margin 1. -/
theorem C26_detector_index_safety_witness :
    App.detectWatermarkChecked ⟨List.replicate 36 7, 3, 3⟩ ⟨⟨[255, 255, 255, 9], 1, 1⟩, 1, 1, 1⟩
        3 3
      = some (App.detectWatermark ⟨List.replicate 36 7, 3, 3⟩
        ⟨⟨[255, 255, 255, 9], 1, 1⟩, 1, 1, 1⟩ 3 3, 0) ∧
    Worker.detectWatermarkChecked (Worker.requestOf ⟨List.replicate 36 7, 3, 3⟩
        ⟨⟨[255, 255, 255, 9], 1, 1⟩, 1, 1, 1⟩ 3 3)
      = some (Worker.detectWatermark (Worker.requestOf ⟨List.replicate 36 7, 3, 3⟩
        ⟨⟨[255, 255, 255, 9], 1, 1⟩, 1, 1, 1⟩ 3 3), 0) :=
  (C26_detector_index_safety ⟨List.replicate 36 7, 3, 3⟩ ⟨⟨[255, 255, 255, 9], 1, 1⟩, 1, 1, 1⟩
    3 3 (by decide) (by decide) (by decide) (by decide)).2.2

/-! ## Claims comparing the two unblending paths and bounding what they write -/

/-- Unblending a white overlay never raises a byte, and leaves 255 at 255. -/
theorem JS.restored_white_le (k c : ℕ) (hk : k ≤ 254) (hc : c ≤ 255) :
    restored (some 255) (div (some (k : ℚ)) (int 255))
        (sub (int 1) (div (some (k : ℚ)) (int 255))) c ≤ c ∧
      (c = 255 → restored (some 255) (div (some (k : ℚ)) (int 255))
        (sub (int 1) (div (some (k : ℚ)) (int 255))) c = 255) := by
  obtain ⟨m, hm, hr⟩ := restored_white k c hk hc
  rw [hr]
  rw [abs_le] at hm
  have hD : (1 : ℤ) ≤ 255 - (k : ℤ) := by omega
  have hc' : (c : ℤ) ≤ 255 := by exact_mod_cast hc
  have hk0 : (0 : ℤ) ≤ k := Int.natCast_nonneg k
  have hc0 : (0 : ℤ) ≤ c := Int.natCast_nonneg c
  have hmc : m ≤ c := by
    by_contra hcon
    have h1 : ((c : ℤ) + 1) * (255 - (k : ℤ)) ≤ m * (255 - (k : ℤ)) :=
      Int.mul_le_mul_of_nonneg_right (by omega) (by omega)
    have h2 : (0 : ℤ) ≤ (k : ℤ) * (255 - (c : ℤ)) := Int.mul_nonneg hk0 (by omega)
    linarith [hm.1, hm.2]
  constructor
  · have : ((max 0 (min 255 m)).toNat : ℤ) = max 0 (min 255 m) :=
      Int.toNat_of_nonneg (le_max_left _ _)
    have h3 : max 0 (min 255 m) ≤ (c : ℤ) := max_le hc0 ((min_le_right _ _).trans hmc)
    omega
  · intro h255
    subst h255
    have hm255 : m = 255 := by
      have hle : m ≤ 255 := by exact_mod_cast hmc
      by_contra hne
      have h1 : (m + 1) * (255 - (k : ℤ)) ≤ 255 * (255 - (k : ℤ)) :=
        Int.mul_le_mul_of_nonneg_right (by omega) (by omega)
      push_cast at hm
      linarith [hm.1, hm.2]
    subst hm255
    rfl

/-- C23: for a white mask none of whose alpha bytes is 1, 2, 253 or 254, the worker's
`processImage` and `reverseAlphaBlend` return the same buffer; and at any white mask pixel of
alpha byte `k` the direct path recomputes the colour bytes under it exactly when
`3 ≤ k ≤ 252`, the worker exactly when `1 ≤ k ≤ 254`. -/
theorem C23_paths_agree_off_the_cutoffs (imageData : App.ImageData) (mask : App.Mask)
    (imgWidth imgHeight : ℕ)
    (hw : ∀ my, my < mask.height → ∀ mx, mx < mask.width → ∀ c, c < 3 →
      mask.imageData.data[(my * mask.width + mx) * 4 + c]? = some 255)
    (ha : ∀ my, my < mask.height → ∀ mx, mx < mask.width →
      (my * mask.width + mx) * 4 + 3 < mask.imageData.data.length) :
    ((∀ my, my < mask.height → ∀ mx, mx < mask.width → ∀ k,
        mask.imageData.data[(my * mask.width + mx) * 4 + 3]? = some k →
        k ≠ 1 ∧ k ≠ 2 ∧ k ≠ 253 ∧ k ≠ 254) →
      Worker.processImage (Worker.requestOf imageData mask imgWidth imgHeight)
        = App.reverseAlphaBlend imageData mask imgWidth imgHeight) ∧
    (∀ my mx j k, my < mask.height → mx < mask.width →
      targets imgWidth imgHeight ((imgWidth : ℤ) - mask.width - mask.margin)
        ((imgHeight : ℤ) - mask.height - mask.margin) my mx j →
      mask.imageData.data[(my * mask.width + mx) * 4 + 3]? = some k →
      (App.reverseAlphaBlend imageData mask imgWidth imgHeight)[j]? =
          (imageData.data[j]?).map (fun b =>
            if 3 ≤ k ∧ k ≤ 252 then
              restored (some 255) (div (some (k : ℚ)) (int 255))
                (sub (int 1) (div (some (k : ℚ)) (int 255))) b
            else b) ∧
        (Worker.processImage (Worker.requestOf imageData mask imgWidth imgHeight))[j]? =
          (imageData.data[j]?).map (fun b =>
            if 1 ≤ k ∧ k ≤ 254 then
              restored (some 255) (div (some (k : ℚ)) (int 255))
                (sub (int 1) (div (some (k : ℚ)) (int 255))) b
            else b)) := by
  have hpix : ∀ my mx j k, my < mask.height → mx < mask.width →
      targets imgWidth imgHeight ((imgWidth : ℤ) - mask.width - mask.margin)
        ((imgHeight : ℤ) - mask.height - mask.margin) my mx j →
      mask.imageData.data[(my * mask.width + mx) * 4 + 3]? = some k →
      (App.reverseAlphaBlend imageData mask imgWidth imgHeight)[j]? =
          (imageData.data[j]?).map (fun b =>
            if 3 ≤ k ∧ k ≤ 252 then
              restored (some 255) (div (some (k : ℚ)) (int 255))
                (sub (int 1) (div (some (k : ℚ)) (int 255))) b
            else b) ∧
        (Worker.processImage (Worker.requestOf imageData mask imgWidth imgHeight))[j]? =
          (imageData.data[j]?).map (fun b =>
            if 1 ≤ k ∧ k ≤ 254 then
              restored (some 255) (div (some (k : ℚ)) (int 255))
                (sub (int 1) (div (some (k : ℚ)) (int 255))) b
            else b) := by
    intro my mx j k hmy hmx ht hk
    constructor
    · rw [App.reverseAlphaBlend_getElem?_of_targets _ _ _ _ my mx _ hmy hmx ht]
      congr 1
      funext b
      rw [App.byteMap_white b ht hk (hw my hmy mx hmx)]
      by_cases h : k ≤ 2 ∨ 253 ≤ k
      · rw [if_pos h, if_neg (by omega)]
      · rw [if_neg h, if_pos (by omega)]
    · rw [Worker.processImage_getElem?_of_targets _ my mx _ hmy hmx ht]
      show Option.map _ imageData.data[j]? = _
      congr 1
      funext b
      exact Worker.byteMap_alpha b ht hk
  refine ⟨?_, hpix⟩
  intro hoff
  apply List.ext_getElem?
  intro j
  by_cases hex : ∃ my, my < mask.height ∧ ∃ mx, mx < mask.width ∧
      targets imgWidth imgHeight ((imgWidth : ℤ) - mask.width - mask.margin)
        ((imgHeight : ℤ) - mask.height - mask.margin) my mx j
  · obtain ⟨my, hmy, mx, hmx, ht⟩ := hex
    obtain ⟨k, hk⟩ : ∃ k, mask.imageData.data[(my * mask.width + mx) * 4 + 3]? = some k :=
      ⟨_, List.getElem?_eq_getElem (ha my hmy mx hmx)⟩
    obtain ⟨h1, h2⟩ := hpix my mx j k hmy hmx ht hk
    obtain ⟨n1, n2, n3, n4⟩ := hoff my hmy mx hmx k hk
    rw [h1, h2]
    congr 1
    funext b
    by_cases hr : 3 ≤ k ∧ k ≤ 252
    · rw [if_pos hr, if_pos (by omega)]
    · rw [if_neg hr, if_neg (by omega)]
  · have hn : ∀ my, my < mask.height → ∀ mx, mx < mask.width →
        ¬ targets imgWidth imgHeight ((imgWidth : ℤ) - mask.width - mask.margin)
          ((imgHeight : ℤ) - mask.height - mask.margin) my mx j :=
      fun my hmy mx hmx ht => hex ⟨my, hmy, mx, hmx, ht⟩
    rw [App.reverseAlphaBlend_getElem?_of_not_targets _ _ _ _ _ hn]
    exact Worker.processImage_getElem?_of_not_targets _ _ hn

/-- C23 (witness): a 1×1 image under a white mask pixel of alpha byte 100. -/
theorem C23_paths_agree_off_the_cutoffs_witness :
    Worker.processImage (Worker.requestOf ⟨[10, 20, 30, 255], 1, 1⟩
        ⟨⟨[255, 255, 255, 100], 1, 1⟩, 1, 1, 0⟩ 1 1)
      = App.reverseAlphaBlend ⟨[10, 20, 30, 255], 1, 1⟩ ⟨⟨[255, 255, 255, 100], 1, 1⟩, 1, 1, 0⟩ 1 1 :=
  (C23_paths_agree_off_the_cutoffs ⟨[10, 20, 30, 255], 1, 1⟩ ⟨⟨[255, 255, 255, 100], 1, 1⟩, 1, 1, 0⟩
    1 1 (by decide) (by decide)).1 (by decide)

/-- C24: let the footprint fit and let `(mx, my)` be a white mask pixel with alpha byte
`3 ≤ k ≤ 127`.  If the colour byte under it holds `compositeByte o k`, the composite of an
original byte `o ≤ 255`, then `reverseAlphaBlend` writes there the unblending formula's value,
and that value is within 1 of `o`. -/
theorem C24_roundtrip_moderate_opacity (comp : List ℕ) (mask : App.Mask)
    (imgWidth imgHeight my mx ch k o : ℕ)
    (hx : mask.width + mask.margin ≤ imgWidth) (hy : mask.height + mask.margin ≤ imgHeight)
    (hmy : my < mask.height) (hmx : mx < mask.width) (hch : ch < 3)
    (hw : ∀ c, c < 3 → mask.imageData.data[(my * mask.width + mx) * 4 + c]? = some 255)
    (hk : mask.imageData.data[(my * mask.width + mx) * 4 + 3]? = some k)
    (hk3 : 3 ≤ k) (hk127 : k ≤ 127) (ho255 : o ≤ 255)
    (hcomp : comp[((imgHeight - mask.height - mask.margin + my) * imgWidth
        + (imgWidth - mask.width - mask.margin + mx)) * 4 + ch]? = some (compositeByte o k)) :
    (App.reverseAlphaBlend ⟨comp, imgWidth, imgHeight⟩ mask imgWidth imgHeight)[
        ((imgHeight - mask.height - mask.margin + my) * imgWidth
          + (imgWidth - mask.width - mask.margin + mx)) * 4 + ch]? =
      some (restored (some 255) (div (some (k : ℚ)) (int 255))
        (sub (int 1) (div (some (k : ℚ)) (int 255))) (compositeByte o k)) ∧
    restored (some 255) (div (some (k : ℚ)) (int 255))
        (sub (int 1) (div (some (k : ℚ)) (int 255))) (compositeByte o k) ≤ o + 1 ∧
    o ≤ restored (some 255) (div (some (k : ℚ)) (int 255))
        (sub (int 1) (div (some (k : ℚ)) (int 255))) (compositeByte o k) + 1 := by
  have ht := targets_of_fit hx hy hmy hmx hch
  have hb := App.reverseAlphaBlend_byteMap_roundtrip o ht hk hw ho255 (by omega) (by omega)
  rw [App.byteMap_white _ ht hk hw, if_neg (by omega)] at hb
  refine ⟨?_, hb⟩
  rw [App.reverseAlphaBlend_getElem?_of_targets _ _ _ _ my mx _ hmy hmx ht]
  show Option.map _ comp[_]? = _
  rw [hcomp, Option.map_some', App.byteMap_white _ ht hk hw, if_neg (by omega)]

/-- C24 (witness): original byte 200 under alpha byte 127, composited to 227. -/
theorem C24_roundtrip_moderate_opacity_witness :
    restored (some 255) (div (some ((127 : ℕ) : ℚ)) (int 255))
        (sub (int 1) (div (some ((127 : ℕ) : ℚ)) (int 255))) (compositeByte 200 127) ≤ 200 + 1 ∧
    200 ≤ restored (some 255) (div (some ((127 : ℕ) : ℚ)) (int 255))
        (sub (int 1) (div (some ((127 : ℕ) : ℚ)) (int 255))) (compositeByte 200 127) + 1 :=
  (C24_roundtrip_moderate_opacity [227, 227, 227, 255] ⟨⟨[255, 255, 255, 127], 1, 1⟩, 1, 1, 0⟩
    1 1 0 0 0 127 200 (by decide) (by decide) (by decide) (by decide) (by decide) (by decide)
    (by decide) (by decide) (by decide) (by decide) (by decide!)).2

/-- C25: for a white mask and an image buffer of bytes, every byte `reverseAlphaBlend` and
the worker's `processImage` return is at most the byte that was there, and a byte 255 stays
255. -/
theorem C25_unblend_never_brightens (imageData : App.ImageData) (mask : App.Mask)
    (imgWidth imgHeight : ℕ)
    (hbytes : ∀ b ∈ imageData.data, b ≤ 255)
    (hw : ∀ my, my < mask.height → ∀ mx, mx < mask.width → ∀ c, c < 3 →
      mask.imageData.data[(my * mask.width + mx) * 4 + c]? = some 255)
    (ha : ∀ my, my < mask.height → ∀ mx, mx < mask.width →
      (my * mask.width + mx) * 4 + 3 < mask.imageData.data.length)
    (j b : ℕ) (hb : imageData.data[j]? = some b) :
    (∃ n, (App.reverseAlphaBlend imageData mask imgWidth imgHeight)[j]? = some n ∧ n ≤ b ∧
      (b = 255 → n = 255)) ∧
    (∃ n, (Worker.processImage (Worker.requestOf imageData mask imgWidth imgHeight))[j]?
      = some n ∧ n ≤ b ∧ (b = 255 → n = 255)) := by
  have hb255 : b ≤ 255 := hbytes b (List.getElem?_mem hb)
  by_cases hex : ∃ my, my < mask.height ∧ ∃ mx, mx < mask.width ∧
      targets imgWidth imgHeight ((imgWidth : ℤ) - mask.width - mask.margin)
        ((imgHeight : ℤ) - mask.height - mask.margin) my mx j
  · obtain ⟨my, hmy, mx, hmx, ht⟩ := hex
    obtain ⟨k, hk⟩ : ∃ k, mask.imageData.data[(my * mask.width + mx) * 4 + 3]? = some k :=
      ⟨_, List.getElem?_eq_getElem (ha my hmy mx hmx)⟩
    constructor
    · refine ⟨App.byteMap mask.imageData.data mask.width imgWidth imgHeight
        ((imgWidth : ℤ) - mask.width - mask.margin) ((imgHeight : ℤ) - mask.height - mask.margin)
        my mx j b, ?_, ?_⟩
      · rw [App.reverseAlphaBlend_getElem?_of_targets _ _ _ _ my mx _ hmy hmx ht, hb,
          Option.map_some']
      · rw [App.byteMap_white b ht hk (hw my hmy mx hmx)]
        by_cases h : k ≤ 2 ∨ 253 ≤ k
        · rw [if_pos h]
          exact ⟨le_rfl, fun h => h⟩
        · rw [if_neg h]
          exact restored_white_le k b (by omega) hb255
    · refine ⟨Worker.byteMap mask.imageData.data mask.width imgWidth imgHeight
        ((imgWidth : ℤ) - mask.width - mask.margin) ((imgHeight : ℤ) - mask.height - mask.margin)
        my mx j b, ?_, ?_⟩
      · rw [Worker.processImage_getElem?_of_targets _ my mx _ hmy hmx ht]
        show Option.map _ imageData.data[j]? = _
        rw [hb, Option.map_some']
        rfl
      · rw [Worker.byteMap_alpha b ht hk]
        by_cases h : 1 ≤ k ∧ k ≤ 254
        · rw [if_pos h]
          exact restored_white_le k b (by omega) hb255
        · rw [if_neg h]
          exact ⟨le_rfl, fun h => h⟩
  · have hn : ∀ my, my < mask.height → ∀ mx, mx < mask.width →
        ¬ targets imgWidth imgHeight ((imgWidth : ℤ) - mask.width - mask.margin)
          ((imgHeight : ℤ) - mask.height - mask.margin) my mx j :=
      fun my hmy mx hmx ht => hex ⟨my, hmy, mx, hmx, ht⟩
    constructor
    · exact ⟨b, by rw [App.reverseAlphaBlend_getElem?_of_not_targets _ _ _ _ _ hn, hb],
        le_rfl, fun h => h⟩
    · refine ⟨b, ?_, le_rfl, fun h => h⟩
      rw [Worker.processImage_getElem?_of_not_targets _ _ hn]
      exact hb

/-- C25 (witness): a 1×1 image under a white mask pixel of alpha byte 100; the red byte. -/
theorem C25_unblend_never_brightens_witness :
    (∃ n, (App.reverseAlphaBlend ⟨[255, 120, 130, 255], 1, 1⟩
        ⟨⟨[255, 255, 255, 100], 1, 1⟩, 1, 1, 0⟩ 1 1)[0]? = some n ∧ n ≤ 255 ∧
      (255 = 255 → n = 255)) ∧
    (∃ n, (Worker.processImage (Worker.requestOf ⟨[255, 120, 130, 255], 1, 1⟩
        ⟨⟨[255, 255, 255, 100], 1, 1⟩, 1, 1, 0⟩ 1 1))[0]? = some n ∧ n ≤ 255 ∧
      (255 = 255 → n = 255)) :=
  C25_unblend_never_brightens ⟨[255, 120, 130, 255], 1, 1⟩
    ⟨⟨[255, 255, 255, 100], 1, 1⟩, 1, 1, 0⟩ 1 1 (by decide) (by decide) (by decide) 0 255
    (by decide)

/-! ## Lightbox navigation -/

namespace App

/-- The loop of `navigateLightbox` with direction `+1` or `-1`: once the fuel exceeds the
distance `k` from `targetIndex` to the end of the list it is walking towards, the loop stops
after some number `n` of steps, every index it stepped over is in the list and not
successful, and the index it stops at is outside the list or successful. -/
theorem skipFailed_spec (successes : List Bool) (direction : ℤ)
    (hd : direction = 1 ∨ direction = -1) :
    ∀ (k : ℕ) (targetIndex : ℤ) (fuel : ℕ),
      (direction = 1 → (successes.length : ℤ) - targetIndex ≤ k) →
      (direction = -1 → targetIndex + 1 ≤ k) → k < fuel →
      ∃ n : ℕ, skipFailed fuel successes direction targetIndex
          = some (targetIndex + n * direction) ∧
        (∀ i : ℕ, i < n → (0 ≤ targetIndex + i * direction ∧
          targetIndex + i * direction < successes.length) ∧
          successes[(targetIndex + i * direction).toNat]? ≠ some true) ∧
        (¬ (0 ≤ targetIndex + n * direction ∧
            targetIndex + n * direction < successes.length) ∨
          successes[(targetIndex + n * direction).toNat]? = some true) := by
  intro k
  induction k with
  | zero =>
    intro t fuel h1 h2 hf
    obtain ⟨fuel, rfl⟩ : ∃ f, fuel = f + 1 := ⟨fuel - 1, by omega⟩
    refine ⟨0, ?_, ?_, ?_⟩
    · have hout : ¬ (0 ≤ t ∧ t < successes.length) := by
        rcases hd with hd | hd
        · have := h1 hd; push_cast at this; omega
        · have := h2 hd; push_cast at this; omega
      simp only [skipFailed, if_neg hout]; simp
    · intro i hi; omega
    · left
      simp only [Nat.cast_zero, zero_mul, add_zero]
      rcases hd with hd | hd
      · have := h1 hd; push_cast at this; omega
      · have := h2 hd; push_cast at this; omega
  | succ k ih =>
    intro t fuel h1 h2 hf
    obtain ⟨fuel, rfl⟩ : ∃ f, fuel = f + 1 := ⟨fuel - 1, by omega⟩
    by_cases hin : 0 ≤ t ∧ t < successes.length
    · by_cases hs : successes[t.toNat]? = some true
      · refine ⟨0, ?_, ?_, ?_⟩
        · simp only [skipFailed, if_pos hin, if_pos hs]; simp
        · intro i hi; omega
        · right; simpa using hs
      · obtain ⟨n, e, hskip, hstop⟩ := ih (t + direction) fuel
          (by intro h; have := h1 h; push_cast at this ⊢; omega)
          (by intro h; have := h2 h; push_cast at this ⊢; omega) (by omega)
        have re : ∀ m : ℕ, t + direction + (m : ℤ) * direction
            = t + ((m + 1 : ℕ) : ℤ) * direction := by
          intro m; push_cast; ring
        refine ⟨n + 1, ?_, ?_, ?_⟩
        · simp only [skipFailed, if_pos hin, if_neg hs]
          rw [e, re]
        · intro i hi
          rcases Nat.eq_zero_or_pos i with h0 | h0
          · subst h0
            simpa using And.intro hin hs
          · obtain ⟨j, rfl⟩ : ∃ j, i = j + 1 := ⟨i - 1, by omega⟩
            have := hskip j (by omega)
            rw [re] at this
            exact this
        · rw [← re]; exact hstop
    · refine ⟨0, ?_, ?_, ?_⟩
      · simp only [skipFailed, if_neg hin]; simp
      · intro i hi; omega
      · left; simpa using hin

end App

/-- C27, as written: the claim fails for a current index outside the list.  With the one
result `[success]` and current index 2, the result at index 0 is successful and lies beyond
the current index in direction `-1`, but `App.navigateLightbox(-1)` starts at index 1, which is
outside the list, so the loop is not entered and the state stays as it was. -/
theorem C27_stuck_outside_the_list :
    App.navigateLightbox 2 [true] ⟨2, true⟩ (-1) = some ⟨2, true⟩ ∧
      (0 : ℤ) ≤ 2 + 2 * (-1) ∧ (2 : ℤ) + 2 * (-1) < ([true] : List Bool).length ∧
      ([true] : List Bool)[((2 : ℤ) + 2 * (-1)).toNat]? = some true := by
  decide

/-- C27, amended: for every list of results, every current index between `-1` and the
length of the list, and direction `d` of `+1` or `-1`, `App.navigateLightbox` terminates: there
is one state that every run with more fuel than the length of the list returns.  If some
successful result exists at an index `cur + n * d` with `n ≥ 1`, that state has
`showingOriginal = false` and as `currentIndex` the nearest such index (no successful result
lies strictly between); otherwise it is the state before the call. -/
theorem C27_navigation_skips_failed (successes : List Bool) (lightbox : App.Lightbox)
    (direction : ℤ) (hd : direction = 1 ∨ direction = -1)
    (hlo : -1 ≤ lightbox.currentIndex) (hhi : lightbox.currentIndex ≤ successes.length) :
    ∃ result : App.Lightbox,
      (∀ fuel : ℕ, successes.length < fuel →
        App.navigateLightbox fuel successes lightbox direction = some result) ∧
      ((∃ n : ℕ, 1 ≤ n ∧ 0 ≤ lightbox.currentIndex + n * direction ∧
          lightbox.currentIndex + n * direction < successes.length ∧
          successes[(lightbox.currentIndex + n * direction).toNat]? = some true) →
        ∃ n : ℕ, 1 ≤ n ∧
          result = ⟨lightbox.currentIndex + n * direction, false⟩ ∧
          0 ≤ lightbox.currentIndex + n * direction ∧
          lightbox.currentIndex + n * direction < successes.length ∧
          successes[(lightbox.currentIndex + n * direction).toNat]? = some true ∧
          ∀ i : ℕ, 1 ≤ i → i < n →
            successes[(lightbox.currentIndex + i * direction).toNat]? ≠ some true) ∧
      ((¬ ∃ n : ℕ, 1 ≤ n ∧ 0 ≤ lightbox.currentIndex + n * direction ∧
          lightbox.currentIndex + n * direction < successes.length ∧
          successes[(lightbox.currentIndex + n * direction).toNat]? = some true) →
        result = lightbox) := by
  obtain ⟨cur, showing⟩ := lightbox
  simp only at hlo hhi ⊢
  have hspec := App.skipFailed_spec successes direction hd successes.length (cur + direction)
  have m1 : direction = 1 → (successes.length : ℤ) - (cur + direction) ≤ successes.length := by
    intro h; omega
  have m2 : direction = -1 → cur + direction + 1 ≤ successes.length := by
    intro h; omega
  obtain ⟨n, e0, hskip, hstop⟩ := hspec (successes.length + 1) m1 m2 (by omega)
  have hall : ∀ fuel : ℕ, successes.length < fuel →
      App.skipFailed fuel successes direction (cur + direction)
        = some (cur + direction + n * direction) := by
    intro fuel hf
    obtain ⟨n', e', hskip', hstop'⟩ := hspec fuel m1 m2 hf
    have hnn : n' = n := by
      rcases Nat.lt_trichotomy n' n with h | h | h
      · exfalso
        have := hskip n' h
        rcases hstop' with h' | h'
        · exact h' this.1
        · exact this.2 h'
      · exact h
      · exfalso
        have := hskip' n h
        rcases hstop with h' | h'
        · exact h' this.1
        · exact this.2 h'
    rw [e', hnn]
  have re : ∀ m : ℕ, cur + direction + (m : ℤ) * direction
      = cur + ((m + 1 : ℕ) : ℤ) * direction := by
    intro m; push_cast; ring
  -- monotonicity of the walk: being in the list at step `n` puts every earlier step in it
  have hmono : ∀ a b : ℕ, 1 ≤ a → a ≤ b →
      (0 ≤ cur + (b : ℤ) * direction ∧ cur + (b : ℤ) * direction < successes.length) →
      (0 ≤ cur + (a : ℤ) * direction ∧ cur + (a : ℤ) * direction < successes.length) := by
    intro a b ha hab hb
    rcases hd with hd | hd <;> subst hd <;> constructor <;> push_cast at hb ⊢ <;> omega
  by_cases hfound : (0 ≤ cur + direction + (n : ℤ) * direction ∧
      cur + direction + (n : ℤ) * direction < successes.length) ∧
      successes[(cur + direction + (n : ℤ) * direction).toNat]? = some true
  · refine ⟨⟨cur + direction + n * direction, false⟩, ?_, ?_, ?_⟩
    · intro fuel hf
      simp only [App.navigateLightbox, hall fuel hf]
      rw [if_pos ⟨hfound.1.1, hfound.1.2, hfound.2⟩]
    · intro _
      refine ⟨n + 1, by omega, ?_, ?_, ?_, ?_, ?_⟩
      · rw [re]
      · rw [← re]; exact hfound.1.1
      · rw [← re]; exact hfound.1.2
      · rw [← re]; exact hfound.2
      · intro i hi1 hin
        obtain ⟨j, rfl⟩ : ∃ j, i = j + 1 := ⟨i - 1, by omega⟩
        have := (hskip j (by omega)).2
        rw [re] at this
        exact this
    · intro hno
      exfalso
      apply hno
      refine ⟨n + 1, by omega, ?_, ?_, ?_⟩
      · rw [← re]; exact hfound.1.1
      · rw [← re]; exact hfound.1.2
      · rw [← re]; exact hfound.2
  · refine ⟨⟨cur, showing⟩, ?_, ?_, ?_⟩
    · intro fuel hf
      simp only [App.navigateLightbox, hall fuel hf]
      rw [if_neg]
      intro h
      exact hfound ⟨⟨h.1, h.2.1⟩, h.2.2⟩
    · rintro ⟨m, hm1, hm0, hmlen, hms⟩
      exfalso
      obtain ⟨j, rfl⟩ : ∃ j, m = j + 1 := ⟨m - 1, by omega⟩
      rcases Nat.lt_trichotomy j n with h | h | h
      · have := (hskip j h).2
        rw [re] at this
        exact this hms
      · subst h
        apply hfound
        rw [re]
        exact ⟨⟨hm0, hmlen⟩, hms⟩
      · -- the walk stopped at step `n` inside the list without success, or outside it
        rcases hstop with h' | h'
        · apply h'
          rw [re]
          exact hmono (n + 1) (j + 1) (by omega) (by omega) ⟨hm0, hmlen⟩
        · apply hfound
          refine ⟨?_, h'⟩
          rw [re]
          exact hmono (n + 1) (j + 1) (by omega) (by omega) ⟨hm0, hmlen⟩
    · intro _; rfl

/-- C27, amended, at a concrete input: from index 0 of `[ok, failed, ok]` the call
`App.navigateLightbox(1)` exists with one result state. -/
theorem C27_navigation_skips_failed_witness :
    ∃ result : App.Lightbox,
      (∀ fuel : ℕ, ([true, false, true] : List Bool).length < fuel →
        App.navigateLightbox fuel [true, false, true] ⟨0, true⟩ 1 = some result) ∧
      ((∃ n : ℕ, 1 ≤ n ∧ 0 ≤ (⟨0, true⟩ : App.Lightbox).currentIndex + n * (1 : ℤ) ∧
          (⟨0, true⟩ : App.Lightbox).currentIndex + n * (1 : ℤ)
            < ([true, false, true] : List Bool).length ∧
          ([true, false, true] : List Bool)[((⟨0, true⟩ : App.Lightbox).currentIndex
            + n * (1 : ℤ)).toNat]? = some true) →
        ∃ n : ℕ, 1 ≤ n ∧
          result = ⟨(⟨0, true⟩ : App.Lightbox).currentIndex + n * (1 : ℤ), false⟩ ∧
          0 ≤ (⟨0, true⟩ : App.Lightbox).currentIndex + n * (1 : ℤ) ∧
          (⟨0, true⟩ : App.Lightbox).currentIndex + n * (1 : ℤ)
            < ([true, false, true] : List Bool).length ∧
          ([true, false, true] : List Bool)[((⟨0, true⟩ : App.Lightbox).currentIndex
            + n * (1 : ℤ)).toNat]? = some true ∧
          ∀ i : ℕ, 1 ≤ i → i < n →
            ([true, false, true] : List Bool)[((⟨0, true⟩ : App.Lightbox).currentIndex
              + i * (1 : ℤ)).toNat]? ≠ some true) ∧
      ((¬ ∃ n : ℕ, 1 ≤ n ∧ 0 ≤ (⟨0, true⟩ : App.Lightbox).currentIndex + n * (1 : ℤ) ∧
          (⟨0, true⟩ : App.Lightbox).currentIndex + n * (1 : ℤ)
            < ([true, false, true] : List Bool).length ∧
          ([true, false, true] : List Bool)[((⟨0, true⟩ : App.Lightbox).currentIndex
            + n * (1 : ℤ)).toNat]? = some true) →
        result = ⟨0, true⟩) :=
  C27_navigation_skips_failed [true, false, true] ⟨0, true⟩ 1 (by decide) (by decide) (by decide)

/-! ## The template is never written -/

namespace JS

/-- Two folds over the same list whose steps preserve a relation end in related states. -/
theorem foldl_rel {α β ι : Type} (R : α → β → Prop) (f : α → ι → α) (g : β → ι → β) :
    ∀ (l : List ι) (a : α) (b : β), R a b → (∀ a b i, R a b → R (f a i) (g b i)) →
      R (l.foldl f a) (l.foldl g b) := by
  intro l
  induction l with
  | nil => intro a b h _; exact h
  | cons x xs ih =>
    intro a b h hstep
    simp only [List.foldl_cons]
    exact ih _ _ (hstep _ _ _ h) hstep

end JS

namespace App

/-- One pass of the body of `reverseAlphaBlend` on the memory stores what `blendStep`
computes into the image and leaves the template as it is. -/
theorem blendStepMem_eq (maskWidth imgWidth imgHeight : ℕ) (offsetX offsetY : ℤ)
    (mem : Memory) (my mx : ℕ) :
    blendStepMem maskWidth imgWidth imgHeight offsetX offsetY mem my mx
      = ⟨blendStep mem.maskPixels maskWidth imgWidth imgHeight offsetX offsetY
          mem.imgPixels my mx, mem.maskPixels⟩ := by
  simp only [blendStepMem, blendStep]
  split_ifs <;> rfl

/-- The call `reverseAlphaBlend` on the memory: the image becomes what `reverseAlphaBlend`
computes, the template stays. -/
theorem reverseAlphaBlendMem_eq (mem : Memory)
    (maskWidth maskHeight margin imgWidth imgHeight : ℕ) :
    reverseAlphaBlendMem mem maskWidth maskHeight margin imgWidth imgHeight
      = ⟨reverseAlphaBlend ⟨mem.imgPixels, imgWidth, imgHeight⟩
          ⟨⟨mem.maskPixels, maskWidth, maskHeight⟩, maskWidth, maskHeight, margin⟩
          imgWidth imgHeight, mem.maskPixels⟩ := by
  simp only [reverseAlphaBlendMem, reverseAlphaBlend]
  refine foldl_rel (fun (m : Memory) (b : List ℕ) => m = ⟨b, mem.maskPixels⟩) _ _ _ _ _ rfl ?_
  intro a b my hab
  refine foldl_rel (fun (m : Memory) (b : List ℕ) => m = ⟨b, mem.maskPixels⟩) _ _ _ _ _ hab ?_
  intro a b mx hab
  subst hab
  rw [blendStepMem_eq]

/-- The footprint scan of `detectWatermark` on the memory: the sums of `watermarkSums`, and
the memory as it was. -/
theorem watermarkMem_eq (mem : Memory) (maskWidth maskHeight imgWidth imgHeight : ℕ)
    (offsetX offsetY : ℤ) :
    (List.range maskHeight).foldl
        (fun st my =>
          (List.range maskWidth).foldl
            (fun st mx => watermarkStepMem maskWidth imgWidth imgHeight offsetX offsetY st my mx)
            st)
        ((int 0, int 0), mem)
      = (watermarkSums mem.imgPixels mem.maskPixels maskWidth maskHeight imgWidth imgHeight
          offsetX offsetY, mem) := by
  simp only [watermarkSums]
  refine foldl_rel (fun (st : (Number × Number) × Memory) (acc : Number × Number) =>
    st = (acc, mem)) _ _ _ _ _ rfl ?_
  intro a b my hab
  refine foldl_rel (fun (st : (Number × Number) × Memory) (acc : Number × Number) =>
    st = (acc, mem)) _ _ _ _ _ hab ?_
  intro a b mx hab
  subst hab
  simp only [watermarkStepMem]
  split_ifs <;> rfl

/-- One reference strip of `detectWatermark` on the memory: the sums of the loops over
`surroundingStep`, and the memory as it was. -/
theorem surroundingMem_eq (mem : Memory) (imgWidth : ℕ) (ys xs : List ℤ)
    (acc : Number × Number) :
    ys.foldl (fun st y => xs.foldl (fun st x => surroundingStepMem imgWidth st x y) st)
        (acc, mem)
      = (ys.foldl (fun acc y =>
          xs.foldl (fun acc x => surroundingStep mem.imgPixels imgWidth acc x y) acc) acc,
        mem) := by
  refine foldl_rel (fun (st : (Number × Number) × Memory) (acc : Number × Number) =>
    st = (acc, mem)) _ _ _ _ _ rfl ?_
  intro a b y hab
  refine foldl_rel (fun (st : (Number × Number) × Memory) (acc : Number × Number) =>
    st = (acc, mem)) _ _ _ _ _ hab ?_
  intro a b x hab
  subst hab
  rfl

end App

/-- C20: templates are read-only.  On the memory that holds the image buffer and the
template data, `App.detectWatermark` returns the boolean of the pure function and leaves both
arrays as they were; `App.reverseAlphaBlend` leaves the template data as it was and turns the
image buffer into the result of the pure function. -/
theorem C20_templates_read_only (mem : App.Memory)
    (maskWidth maskHeight margin imgWidth imgHeight : ℕ) :
    (App.detectWatermarkMem mem maskWidth maskHeight margin imgWidth imgHeight).2 = mem ∧
    (App.detectWatermarkMem mem maskWidth maskHeight margin imgWidth imgHeight).1
      = (App.detectWatermark ⟨mem.imgPixels, imgWidth, imgHeight⟩
          ⟨⟨mem.maskPixels, maskWidth, maskHeight⟩, maskWidth, maskHeight, margin⟩
          imgWidth imgHeight).result ∧
    (App.reverseAlphaBlendMem mem maskWidth maskHeight margin imgWidth imgHeight).maskPixels
      = mem.maskPixels ∧
    (App.reverseAlphaBlendMem mem maskWidth maskHeight margin imgWidth imgHeight).imgPixels
      = App.reverseAlphaBlend ⟨mem.imgPixels, imgWidth, imgHeight⟩
          ⟨⟨mem.maskPixels, maskWidth, maskHeight⟩, maskWidth, maskHeight, margin⟩
          imgWidth imgHeight := by
  have hd : App.detectWatermarkMem mem maskWidth maskHeight margin imgWidth imgHeight
      = ((App.detectWatermark ⟨mem.imgPixels, imgWidth, imgHeight⟩
          ⟨⟨mem.maskPixels, maskWidth, maskHeight⟩, maskWidth, maskHeight, margin⟩
          imgWidth imgHeight).result, mem) := by
    simp only [App.detectWatermarkMem, App.detectWatermark]
    by_cases h : (imgWidth : ℤ) - maskWidth - margin < 0 ∨ (imgHeight : ℤ) - maskHeight - margin < 0
    · rw [if_pos h, if_pos h]
    · rw [if_neg h, if_neg h]
      simp only [App.watermarkMem_eq, App.surroundingMem_eq, App.surroundingSums]
  refine ⟨?_, ?_, ?_, ?_⟩
  · rw [hd]
  · rw [hd]
  · rw [App.reverseAlphaBlendMem_eq]
  · rw [App.reverseAlphaBlendMem_eq]

/-! ## Template preprocessing -/

namespace JS

/-- The product of a rounded coefficient `c ≈ l` in `[0, 1]` and a byte value `x`, rounded:
it is within `511 / 2^53` of `l * x`. -/
theorem coef_mul_err (c l x : ℚ) (hc : |c - l| ≤ 1 / 2 ^ 53) (hl0 : 0 ≤ l) (hl1 : l ≤ 1)
    (hx0 : 0 ≤ x) (hx1 : x ≤ 255) : |f64 (c * x) - l * x| ≤ 511 / 2 ^ 53 := by
  have hc' := abs_le.mp hc
  have e1 : (c - l) * x ≤ 1 / 2 ^ 53 * 255 :=
    le_trans (mul_le_mul_of_nonneg_right hc'.2 hx0)
      (mul_le_mul_of_nonneg_left hx1 (by positivity))
  have e2 : -(1 / 2 ^ 53 * 255) ≤ (c - l) * x := by
    have h1 : -(1 / 2 ^ 53 : ℚ) * x ≤ (c - l) * x :=
      mul_le_mul_of_nonneg_right (by linarith [hc'.1]) hx0
    have h2 : (1 / 2 ^ 53 : ℚ) * x ≤ 1 / 2 ^ 53 * 255 :=
      mul_le_mul_of_nonneg_left hx1 (by positivity)
    linarith
  have e3 : l * x ≤ 255 := by
    have : l * x ≤ 1 * 255 := mul_le_mul hl1 hx1 hx0 (by norm_num)
    linarith
  have e4 : 0 ≤ l * x := mul_nonneg hl0 hx0
  have hB : |c * x| ≤ 256 := by
    rw [abs_le]
    constructor
    · have : (1 / 2 ^ 53 : ℚ) * 255 ≤ 1 := by norm_num
      linarith
    · have : (1 / 2 ^ 53 : ℚ) * 255 ≤ 1 := by norm_num
      linarith
  have hf := abs_le.mp (f64_within hB)
  rw [abs_le]
  constructor
  · have : (c - l) * x = c * x - l * x := by ring
    have h511 : (511 : ℚ) / 2 ^ 53 = 256 / 2 ^ 53 + 1 / 2 ^ 53 * 255 := by norm_num
    linarith [hf.1]
  · have : (c - l) * x = c * x - l * x := by ring
    have h511 : (511 : ℚ) / 2 ^ 53 = 256 / 2 ^ 53 + 1 / 2 ^ 53 * 255 := by norm_num
    linarith [hf.2]

/-- The luminance of a pixel in double arithmetic is within `1 / 200000` of the exact value
`0.299 r + 0.587 g + 0.114 b`. -/
theorem luminance_err (r g b : ℕ) (hr : r ≤ 255) (hg : g ≤ 255) (hb : b ≤ 255) :
    |f64 (f64 (f64 (f64 0.299 * (r : ℚ)) + f64 (f64 0.587 * (g : ℚ)))
        + f64 (f64 0.114 * (b : ℚ))) - (0.299 * r + 0.587 * g + 0.114 * b)| ≤ 1 / 200000 := by
  have hr0 : (0 : ℚ) ≤ r := Nat.cast_nonneg r
  have hr1 : (r : ℚ) ≤ 255 := by exact_mod_cast hr
  have hg0 : (0 : ℚ) ≤ g := Nat.cast_nonneg g
  have hg1 : (g : ℚ) ≤ 255 := by exact_mod_cast hg
  have hb0 : (0 : ℚ) ≤ b := Nat.cast_nonneg b
  have hb1 : (b : ℚ) ≤ 255 := by exact_mod_cast hb
  have c1 : |f64 0.299 - 0.299| ≤ 1 / 2 ^ 53 :=
    f64_within (q := 0.299) (B := 1) (by rw [abs_le]; constructor <;> norm_num)
  have c2 : |f64 0.587 - 0.587| ≤ 1 / 2 ^ 53 :=
    f64_within (q := 0.587) (B := 1) (by rw [abs_le]; constructor <;> norm_num)
  have c3 : |f64 0.114 - 0.114| ≤ 1 / 2 ^ 53 :=
    f64_within (q := 0.114) (B := 1) (by rw [abs_le]; constructor <;> norm_num)
  have p1 := abs_le.mp
    (coef_mul_err (f64 0.299) 0.299 r c1 (by norm_num) (by norm_num) hr0 hr1)
  have p2 := abs_le.mp
    (coef_mul_err (f64 0.587) 0.587 g c2 (by norm_num) (by norm_num) hg0 hg1)
  have p3 := abs_le.mp
    (coef_mul_err (f64 0.114) 0.114 b c3 (by norm_num) (by norm_num) hb0 hb1)
  generalize f64 (f64 0.299 * (r : ℚ)) = P1 at p1 ⊢
  generalize f64 (f64 0.587 * (g : ℚ)) = P2 at p2 ⊢
  generalize f64 (f64 0.114 * (b : ℚ)) = P3 at p3 ⊢
  have hu : (511 : ℚ) / 2 ^ 53 ≤ 1 / 1000000 := by norm_num
  have s1B : |P1 + P2| ≤ 256 := by
    rw [abs_le]; constructor <;> linarith [p1.1, p1.2, p2.1, p2.2]
  have s1 := abs_le.mp (f64_within s1B)
  generalize f64 (P1 + P2) = S1 at s1 ⊢
  have hu2 : (256 : ℚ) / 2 ^ 53 ≤ 1 / 1000000 := by norm_num
  have fB : |S1 + P3| ≤ 256 := by
    rw [abs_le]; constructor <;> linarith [p1.1, p1.2, p2.1, p2.2, p3.1, p3.2, s1.1, s1.2]
  have fe := abs_le.mp (f64_within fB)
  generalize f64 (S1 + P3) = F at fe ⊢
  rw [abs_le]
  constructor
  · linarith [p1.1, p2.1, p3.1, s1.1, fe.1]
  · linarith [p1.2, p2.2, p3.2, s1.2, fe.2]

/-- The luminance of a pixel in double arithmetic, rounded by `Math.round`, is an integer
within one half of the exact value `(299 r + 587 g + 114 b) / 1000`. -/
theorem luminance_core (r g b : ℕ) (hr : r ≤ 255) (hg : g ≤ 255) (hb : b ≤ 255) :
    |1000 * ⌊f64 (f64 (f64 (f64 0.299 * (r : ℚ)) + f64 (f64 0.587 * (g : ℚ)))
        + f64 (f64 0.114 * (b : ℚ))) + 1 / 2⌋
      - (299 * (r : ℤ) + 587 * g + 114 * b)| ≤ 500 := by
  have he := abs_le.mp (luminance_err r g b hr hg hb)
  generalize f64 (f64 (f64 (f64 0.299 * (r : ℚ)) + f64 (f64 0.587 * (g : ℚ)))
        + f64 (f64 0.114 * (b : ℚ))) = F at he ⊢
  have hF1 := he.2
  have hF2 := he.1
  have fl1 := Int.floor_le (F + 1 / 2)
  have fl2 := Int.lt_floor_add_one (F + 1 / 2)
  generalize ⌊F + 1 / 2⌋ = L at fl1 fl2 ⊢
  have hN : ((299 * (r : ℤ) + 587 * g + 114 * b : ℤ) : ℚ)
      = 1000 * (0.299 * r + 0.587 * g + 0.114 * b) := by
    push_cast; ring
  have up : ((1000 * L - (299 * (r : ℤ) + 587 * g + 114 * b) - 500 : ℤ) : ℚ) < 1 := by
    push_cast at hN ⊢
    linarith
  have lo : (-1 : ℚ) < ((1000 * L - (299 * (r : ℤ) + 587 * g + 114 * b) + 500 : ℤ) : ℚ) := by
    push_cast at hN ⊢
    linarith
  have up' : 1000 * L - (299 * (r : ℤ) + 587 * g + 114 * b) - 500 < 1 := by exact_mod_cast up
  have lo' : -1 < 1000 * L - (299 * (r : ℤ) + 587 * g + 114 * b) + 500 := by exact_mod_cast lo
  rw [abs_le]
  constructor <;> omega

/-- The alpha byte stored for a pixel `(r, g, b)`: at most 255 and within one half of the
exact luminance `(299 r + 587 g + 114 b) / 1000`. -/
theorem luminanceByte_spec (r g b : ℕ) (hr : r ≤ 255) (hg : g ≤ 255) (hb : b ≤ 255) :
    luminanceByte r g b ≤ 255 ∧
      |1000 * (luminanceByte r g b : ℤ) - (299 * (r : ℤ) + 587 * g + 114 * b)| ≤ 500 := by
  have core := luminance_core r g b hr hg hb
  simp only [luminanceByte, lit, mul, add, mathRound]
  generalize ⌊f64 (f64 (f64 (f64 0.299 * (r : ℚ)) + f64 (f64 0.587 * (g : ℚ)))
        + f64 (f64 0.114 * (b : ℚ))) + 1 / 2⌋ = L at core ⊢
  have hc := abs_le.mp core
  have h0 : 0 ≤ L := by omega
  have h1 : L ≤ 255 := by omega
  rw [toUint8Clamp_int L h0 h1]
  have ht : ((L.toNat : ℕ) : ℤ) = L := Int.toNat_of_nonneg h0
  refine ⟨by omega, ?_⟩
  rw [ht]
  exact core

/-- The conversion of the constant 255 stored into the colour channels. -/
theorem toUint8Clamp_255 : toUint8Clamp (int 255) = 255 := by
  have := toUint8Clamp_int 255 (by norm_num) (by norm_num)
  simpa [int] using this

end JS

namespace App

/-- What one pass of the loop of `preprocessMask` at byte offset `i` does to byte `j` of
the output. -/
theorem preprocessStep_getElem? (data output : List ℕ) (i j : ℕ) :
    (preprocessStep data output i)[j]? =
      (output[j]?).map (fun b =>
        if j = i ∨ j = i + 1 ∨ j = i + 2 then 255
        else if j = i + 3 then toUint8Clamp (mathRound (luminanceAt data i))
        else b) := by
  simp only [preprocessStep, getElem?_putByte, toUint8Clamp_255, luminanceAt]
  by_cases h3 : j = i + 3
  · subst h3
    simp
  · have a3 : ¬ (i + 3 = j) := fun h => h3 h.symm
    simp only [if_neg a3, if_neg h3]
    by_cases h2 : j = i + 2
    · subst h2
      simp
    · have b2 : ¬ (i + 2 = j) := fun h => h2 h.symm
      simp only [if_neg b2]
      by_cases h1 : j = i + 1
      · subst h1
        simp
      · have b1 : ¬ (i + 1 = j) := fun h => h1 h.symm
        simp only [if_neg b1]
        by_cases h0 : j = i
        · subst h0
          simp
        · have b0 : ¬ (i = j) := fun h => h0 h.symm
          have a0 : ¬ (j = i ∨ j = i + 1 ∨ j = i + 2) := by omega
          simp only [if_neg b0, if_neg a0]
          simp

/-- The loop of `preprocessMask` byte by byte: byte `j` of the output, if the output has
one and its pixel `j / 4` is visited, is 255 for a colour channel and the rounded luminance
of input pixel `j / 4` for the alpha channel. -/
theorem preprocessMask_getElem? (raw : ImageData) (j : ℕ)
    (hj : j / 4 < (raw.data.length + 3) / 4) :
    (preprocessMask raw).data[j]? =
      ((List.replicate (raw.width * raw.height * 4) 0)[j]?).map (fun _ =>
        if j % 4 = 3 then toUint8Clamp (mathRound (luminanceAt raw.data (4 * (j / 4))))
        else 255) := by
  simp only [preprocessMask]
  rw [foldl_getElem? (fun output n => preprocessStep raw.data output (4 * n))
    (fun n j b => if j = 4 * n ∨ j = 4 * n + 1 ∨ j = 4 * n + 2 then 255
        else if j = 4 * n + 3 then toUint8Clamp (mathRound (luminanceAt raw.data (4 * n)))
        else b)
    (fun buf n j => preprocessStep_getElem? raw.data buf (4 * n) j)]
  congr 1
  funext b
  rw [foldl_range_single _ _ (j / 4) b hj]
  · by_cases h3 : j % 4 = 3
    · have a0 : ¬ (j = 4 * (j / 4) ∨ j = 4 * (j / 4) + 1 ∨ j = 4 * (j / 4) + 2) := by omega
      have a1 : j = 4 * (j / 4) + 3 := by omega
      rw [if_neg a0, if_pos a1, if_pos h3]
    · have a0 : (j = 4 * (j / 4) ∨ j = 4 * (j / 4) + 1 ∨ j = 4 * (j / 4) + 2) := by omega
      rw [if_pos a0, if_neg h3]
  · intro n _ hne b
    have a0 : ¬ (j = 4 * n ∨ j = 4 * n + 1 ∨ j = 4 * n + 2) := by omega
    have a1 : ¬ (j = 4 * n + 3) := by omega
    rw [if_neg a0, if_neg a1]

end App

/-- C15: template preprocessing.  For a raw bitmap (four bytes per pixel, each at most 255)
`preprocessMask` returns a bitmap of the same width and height and the same number of bytes;
every pixel of it has RGB `(255, 255, 255)` and as alpha the byte
`Math.round(0.299 r + 0.587 g + 0.114 b)` of the input pixel's colour, computed in double
arithmetic, whatever the input pixel's alpha.  That byte is within one half of the exact
luminance, and for a gray pixel `(v, v, v)` it is `v`: 0 for black, 255 for white. -/
theorem C15_preprocess_mask (raw : App.ImageData)
    (hlen : raw.data.length = raw.width * raw.height * 4)
    (hbyte : ∀ x ∈ raw.data, x ≤ 255) :
    (App.preprocessMask raw).width = raw.width ∧
    (App.preprocessMask raw).height = raw.height ∧
    (App.preprocessMask raw).data.length = raw.width * raw.height * 4 ∧
    ∀ p, p < raw.width * raw.height →
      ∃ r g b : ℕ, raw.data[4 * p]? = some r ∧ raw.data[4 * p + 1]? = some g ∧
        raw.data[4 * p + 2]? = some b ∧
        (App.preprocessMask raw).data[4 * p]? = some 255 ∧
        (App.preprocessMask raw).data[4 * p + 1]? = some 255 ∧
        (App.preprocessMask raw).data[4 * p + 2]? = some 255 ∧
        (App.preprocessMask raw).data[4 * p + 3]? = some (luminanceByte r g b) ∧
        |1000 * (luminanceByte r g b : ℤ) - (299 * (r : ℤ) + 587 * g + 114 * b)| ≤ 500 ∧
        (r = g → g = b → luminanceByte r g b = r) := by
  refine ⟨rfl, rfl, ?_, ?_⟩
  · have h := length_eq_of_getElem?_map (App.preprocessMask raw).data
      (List.replicate (raw.width * raw.height * 4) 0)
      (fun j b => (List.range ((raw.data.length + 3) / 4)).foldl
        (fun b n => if j = 4 * n ∨ j = 4 * n + 1 ∨ j = 4 * n + 2 then 255
          else if j = 4 * n + 3 then toUint8Clamp (mathRound (luminanceAt raw.data (4 * n)))
          else b) b)
      (fun j => by
        simp only [App.preprocessMask]
        exact foldl_getElem? (fun output n => App.preprocessStep raw.data output (4 * n))
          (fun n j b => if j = 4 * n ∨ j = 4 * n + 1 ∨ j = 4 * n + 2 then 255
            else if j = 4 * n + 3 then toUint8Clamp (mathRound (luminanceAt raw.data (4 * n)))
            else b)
          (fun buf n j => App.preprocessStep_getElem? raw.data buf (4 * n) j) _ _ j)
    rw [h, List.length_replicate]
  · intro p hp
    have l0 : 4 * p < raw.data.length := by omega
    have l1 : 4 * p + 1 < raw.data.length := by omega
    have l2 : 4 * p + 2 < raw.data.length := by omega
    have e0 : raw.data[4 * p]? = some (raw.data[4 * p]) := List.getElem?_eq_getElem l0
    have e1 : raw.data[4 * p + 1]? = some (raw.data[4 * p + 1]) := List.getElem?_eq_getElem l1
    have e2 : raw.data[4 * p + 2]? = some (raw.data[4 * p + 2]) := List.getElem?_eq_getElem l2
    have hr : raw.data[4 * p] ≤ 255 := hbyte _ (List.getElem_mem l0)
    have hg : raw.data[4 * p + 1] ≤ 255 := hbyte _ (List.getElem_mem l1)
    have hb : raw.data[4 * p + 2] ≤ 255 := hbyte _ (List.getElem_mem l2)
    have spec := luminanceByte_spec _ _ _ hr hg hb
    generalize raw.data[4 * p] = r at e0 hr spec
    generalize raw.data[4 * p + 1] = g at e1 hg spec
    generalize raw.data[4 * p + 2] = b at e2 hb spec
    have out : ∀ c, c < 4 → (App.preprocessMask raw).data[4 * p + c]? =
        some (if c = 3 then luminanceByte r g b else 255) := by
      intro c hc
      have hd : (4 * p + c) / 4 = p := by omega
      have hm : (4 * p + c) % 4 = c := by omega
      have hlt : (4 * p + c) / 4 < (raw.data.length + 3) / 4 := by
        rw [hd, hlen]; omega
      have hin : 4 * p + c < raw.width * raw.height * 4 := by omega
      rw [App.preprocessMask_getElem? raw (4 * p + c) hlt, hd, hm,
        List.getElem?_replicate, if_pos hin]
      simp only [Option.map_some', luminanceAt, getByte_of_getElem? e0, getByte_of_getElem? e1,
        getByte_of_getElem? e2]
      rfl
    refine ⟨r, g, b, e0, e1, e2, ?_, ?_, ?_, ?_, spec.2, ?_⟩
    · simpa using out 0 (by omega)
    · simpa using out 1 (by omega)
    · simpa using out 2 (by omega)
    · simpa using out 3 (by omega)
    · intro h1 h2
      subst h1 h2
      have := abs_le.mp spec.2
      omega

/-- C15 at a concrete input: a bitmap of one black pixel and one white pixel, with alpha
bytes 7 and 9. -/
theorem C15_preprocess_mask_witness :
    (App.preprocessMask ⟨[0, 0, 0, 7, 255, 255, 255, 9], 2, 1⟩).width = 2 ∧
    (App.preprocessMask ⟨[0, 0, 0, 7, 255, 255, 255, 9], 2, 1⟩).height = 1 ∧
    (App.preprocessMask ⟨[0, 0, 0, 7, 255, 255, 255, 9], 2, 1⟩).data.length = 2 * 1 * 4 ∧
    ∀ p, p < 2 * 1 →
      ∃ r g b : ℕ, ([0, 0, 0, 7, 255, 255, 255, 9] : List ℕ)[4 * p]? = some r ∧
        ([0, 0, 0, 7, 255, 255, 255, 9] : List ℕ)[4 * p + 1]? = some g ∧
        ([0, 0, 0, 7, 255, 255, 255, 9] : List ℕ)[4 * p + 2]? = some b ∧
        (App.preprocessMask ⟨[0, 0, 0, 7, 255, 255, 255, 9], 2, 1⟩).data[4 * p]? = some 255 ∧
        (App.preprocessMask ⟨[0, 0, 0, 7, 255, 255, 255, 9], 2, 1⟩).data[4 * p + 1]?
          = some 255 ∧
        (App.preprocessMask ⟨[0, 0, 0, 7, 255, 255, 255, 9], 2, 1⟩).data[4 * p + 2]?
          = some 255 ∧
        (App.preprocessMask ⟨[0, 0, 0, 7, 255, 255, 255, 9], 2, 1⟩).data[4 * p + 3]?
          = some (luminanceByte r g b) ∧
        |1000 * (luminanceByte r g b : ℤ) - (299 * (r : ℤ) + 587 * g + 114 * b)| ≤ 500 ∧
        (r = g → g = b → luminanceByte r g b = r) :=
  C15_preprocess_mask ⟨[0, 0, 0, 7, 255, 255, 255, 9], 2, 1⟩ (by decide) (by decide)

/-! ## The two brightness averages of `detectWatermark` -/

namespace JS

/-- Two folds agree when their steps agree on the elements of the list. -/
theorem foldl_congr_mem {β ι : Type} (f g : β → ι → β) :
    ∀ (l : List ι) (b : β), (∀ b, ∀ i ∈ l, f b i = g b i) → l.foldl f b = l.foldl g b := by
  intro l
  induction l with
  | nil => intro b _; rfl
  | cons x xs ih =>
    intro b h
    simp only [List.foldl_cons]
    rw [h b x (List.mem_cons_self _ _)]
    exact ih _ (fun b i hi => h b i (List.mem_cons_of_mem _ hi))

/-- A loop nest is one loop over the pairs it visits. -/
theorem foldl_nest {β ι κ π : Type} (f : β → π → β) (pair : ι → κ → π) (inner : ι → List κ) :
    ∀ (l : List ι) (b : β),
      l.foldl (fun acc i => (inner i).foldl (fun acc k => f acc (pair i k)) acc) b
        = (l.flatMap (fun i => (inner i).map (pair i))).foldl f b := by
  intro l
  induction l with
  | nil => intro b; rfl
  | cons x xs ih =>
    intro b
    simp only [List.foldl_cons, List.flatMap_cons, List.foldl_append, List.foldl_map]
    exact ih _

/-- A loop whose body is guarded by a test is the loop over the elements passing the test. -/
theorem foldl_guard {β ι : Type} (p : ι → Bool) (f : β → ι → β) :
    ∀ (l : List ι) (b : β),
      l.foldl (fun acc i => if p i = true then f acc i else acc) b = (l.filter p).foldl f b := by
  intro l
  induction l with
  | nil => intro b; rfl
  | cons x xs ih =>
    intro b
    by_cases hp : p x = true
    · simp only [List.foldl_cons, if_pos hp, List.filter_cons_of_pos hp]
      exact ih _
    · simp only [List.foldl_cons, if_neg hp, List.filter_cons_of_neg hp]
      exact ih _

/-- A loop that updates two accumulators independently is two loops. -/
theorem foldl_pair {α β ι : Type} (g1 : α → ι → α) (g2 : β → ι → β) :
    ∀ (l : List ι) (a : α) (b : β),
      l.foldl (fun acc i => (g1 acc.1 i, g2 acc.2 i)) (a, b) = (l.foldl g1 a, l.foldl g2 b) := by
  intro l
  induction l with
  | nil => intro a b; rfl
  | cons x xs ih =>
    intro a b
    simp only [List.foldl_cons]
    exact ih _ _

/-- Rounding keeps a positive number positive. -/
theorem f64_pos {q : ℚ} (h : 0 < q) : 0 < f64 q := by
  have hb := (f64_bounds (le_of_lt h)).1
  have : q / 2 ^ 53 < q := by
    rw [div_lt_iff₀ (by positivity)]
    have : q * 1 < q * 2 ^ 53 := mul_lt_mul_of_pos_left (by norm_num) h
    linarith
  linarith

/-- A sum of positive numbers that starts from a positive number is a positive number. -/
theorem sum_pos_of_pos {ι : Type} (a : ι → Number) :
    ∀ (l : List ι) (s : ℚ), 0 < s → (∀ c ∈ l, ∃ x, a c = some x ∧ 0 < x) →
      ∃ d, l.foldl (fun s c => add s (a c)) (some s) = some d ∧ 0 < d := by
  intro l
  induction l with
  | nil => intro s hs _; exact ⟨s, rfl, hs⟩
  | cons c cs ih =>
    intro s hs h
    obtain ⟨x, hx, hx0⟩ := h c (List.mem_cons_self _ _)
    simp only [List.foldl_cons, hx, add]
    exact ih _ (f64_pos (by linarith)) (fun c hc => h c (List.mem_cons_of_mem _ hc))

/-- A sum of positive numbers over a non-empty list, started from 0, is a positive number. -/
theorem sum_pos {ι : Type} (a : ι → Number) (l : List ι) (hl : l ≠ [])
    (h : ∀ c ∈ l, ∃ x, a c = some x ∧ 0 < x) :
    ∃ d, l.foldl (fun s c => add s (a c)) (int 0) = some d ∧ 0 < d := by
  cases l with
  | nil => exact absurd rfl hl
  | cons c cs =>
    obtain ⟨x, hx, hx0⟩ := h c (List.mem_cons_self _ _)
    simp only [List.foldl_cons, hx, add, int]
    exact sum_pos_of_pos a cs _ (f64_pos (by push_cast; linarith))
      (fun c hc => h c (List.mem_cons_of_mem _ hc))

/-- The test `alpha > 0.1` of the detector in terms of the alpha byte, a missing byte
counting as 0: it holds exactly from byte 26 on. -/
theorem gt_alpha_getD (maskPixels : List ℕ) (i : ℕ) :
    gt (div (getByte maskPixels i) (int 255)) (lit 0.1) = decide (26 ≤ maskPixels.getD i 0) := by
  rcases h : maskPixels[i]? with _ | k
  · have hg : getByte maskPixels i = none := by simp [getByte, h]
    have hd : maskPixels.getD i 0 = 0 := by simp [List.getD, h]
    rw [hg, hd]
    rfl
  · have hd : maskPixels.getD i 0 = k := by simp [List.getD, h]
    rw [getByte_of_getElem? h, hd]
    exact gt_alpha_01 k

/-- The opacity of a template pixel of alpha byte at least 26 is a positive number. -/
theorem alpha_pos (maskPixels : List ℕ) (i : ℕ) (h : 26 ≤ maskPixels.getD i 0) :
    ∃ x, div (getByte maskPixels i) (int 255) = some x ∧ 0 < x := by
  rcases hk : maskPixels[i]? with _ | k
  · have hd : maskPixels.getD i 0 = 0 := by simp [List.getD, hk]
    omega
  · have hd : maskPixels.getD i 0 = k := by simp [List.getD, hk]
    rw [getByte_of_getElem? hk, div_byte]
    refine ⟨_, rfl, f64_pos ?_⟩
    have : (0 : ℚ) < k := by
      have : 0 < k := by omega
      exact_mod_cast this
    positivity

/-- The integers a counting loop runs through are none exactly when the bound is not above
the start. -/
theorem intRange_eq_nil (lo hi : ℤ) : intRange lo hi = [] ↔ hi ≤ lo := by
  simp only [intRange, List.map_eq_nil_iff, List.range_eq_nil]
  omega

end JS

namespace App

/-- The footprint scan of `detectWatermark` when the footprint fits: the two sums run over
the mask pixels of alpha byte at least 26, in the order of the loops. -/
theorem watermarkSums_eq_spec (imgPixels maskPixels : List ℕ)
    (maskWidth maskHeight margin imgWidth imgHeight : ℕ)
    (hx : maskWidth + margin ≤ imgWidth) (hy : maskHeight + margin ≤ imgHeight) :
    watermarkSums imgPixels maskPixels maskWidth maskHeight imgWidth imgHeight
        ((imgWidth : ℤ) - maskWidth - margin) ((imgHeight : ℤ) - maskHeight - margin)
      = (((maskCells maskWidth maskHeight).filter
            (fun c => decide (26 ≤ maskPixels.getD ((c.1 * maskWidth + c.2) * 4 + 3) 0))).foldl
          (fun s c => add s (mul
            (luminanceAt imgPixels (((((imgHeight : ℤ) - maskHeight - margin) + c.1) * imgWidth
              + (((imgWidth : ℤ) - maskWidth - margin) + c.2)) * 4).toNat)
            (div (getByte maskPixels ((c.1 * maskWidth + c.2) * 4 + 3)) (int 255)))) (int 0),
        ((maskCells maskWidth maskHeight).filter
            (fun c => decide (26 ≤ maskPixels.getD ((c.1 * maskWidth + c.2) * 4 + 3) 0))).foldl
          (fun s c => add s (div (getByte maskPixels ((c.1 * maskWidth + c.2) * 4 + 3))
            (int 255))) (int 0)) := by
  rw [← foldl_pair, ← foldl_guard, maskCells, ← foldl_nest _ (fun my mx => (my, mx))]
  unfold watermarkSums
  apply foldl_congr_mem
  intro acc my hmy
  apply foldl_congr_mem
  intro acc mx hmx
  have hmy' : my < maskHeight := List.mem_range.mp hmy
  have hmx' : mx < maskWidth := List.mem_range.mp hmx
  have hb : ¬ ((imgWidth : ℤ) - maskWidth - margin + mx < 0 ∨
      (imgHeight : ℤ) - maskHeight - margin + my < 0 ∨
      (imgWidth : ℤ) - maskWidth - margin + mx ≥ imgWidth ∨
      (imgHeight : ℤ) - maskHeight - margin + my ≥ imgHeight) := by omega
  simp only [if_neg hb, gt_alpha_getD, luminanceAt]

/-- The reference scan of `detectWatermark`: sum and count run over the pixels of the two
strips, in the order of the loops (the cuts at the right and bottom image border never bite,
the footprint ending `margin` pixels before them). -/
theorem surroundingSums_eq_spec (imgPixels : List ℕ)
    (maskWidth maskHeight margin imgWidth imgHeight : ℕ) :
    surroundingSums imgPixels maskWidth maskHeight imgWidth imgHeight
        ((imgWidth : ℤ) - maskWidth - margin) ((imgHeight : ℤ) - maskHeight - margin)
      = ((referencePixels maskWidth maskHeight ((imgWidth : ℤ) - maskWidth - margin)
            ((imgHeight : ℤ) - maskHeight - margin)).foldl
          (fun s p => add s (luminanceAt imgPixels ((p.2 * (imgWidth : ℤ) + p.1) * 4).toNat))
          (int 0),
        (referencePixels maskWidth maskHeight ((imgWidth : ℤ) - maskWidth - margin)
            ((imgHeight : ℤ) - maskHeight - margin)).foldl
          (fun n _ => add n (int 1)) (int 0)) := by
  have h1 : min ((imgHeight : ℤ) - maskHeight - margin + maskHeight) imgHeight
      = (imgHeight : ℤ) - maskHeight - margin + maskHeight := by
    apply min_eq_left; omega
  have h2 : min ((imgWidth : ℤ) - maskWidth - margin + maskWidth) imgWidth
      = (imgWidth : ℤ) - maskWidth - margin + maskWidth := by
    apply min_eq_left; omega
  rw [← foldl_pair]
  simp only [surroundingSums, referencePixels, h1, h2, List.foldl_append]
  rw [← foldl_nest _ (fun (y x : ℤ) => (x, y)), ← foldl_nest _ (fun (y x : ℤ) => (x, y))]
  rfl

end App

/-- C21: overlay-region brightness.  When the footprint fits, the overlay brightness that
`detectWatermark` reports is `Σ(L·a) / Σ(a)` over exactly the template pixels of alpha byte
at least 26, with `L` the luminance of the image pixel at `(offsetX + mx, offsetY + my)` and
`a = alphaByte / 255`; the test `a > 0.1` of the code holds exactly for alpha bytes from 26
on; and the brightness is 0 when no template pixel passes the test. -/
theorem C21_overlay_brightness (imageData : App.ImageData) (mask : App.Mask)
    (imgWidth imgHeight : ℕ)
    (hx : mask.width + mask.margin ≤ imgWidth) (hy : mask.height + mask.margin ≤ imgHeight) :
    (∃ sb d : Number,
      (App.detectWatermark imageData mask imgWidth imgHeight).logged
        = some ⟨overlayBrightnessSpec imageData.data mask.imageData.data mask.width mask.height
            imgWidth ((imgWidth : ℤ) - mask.width - mask.margin)
            ((imgHeight : ℤ) - mask.height - mask.margin), sb, d⟩) ∧
    (∀ i, gt (div (getByte mask.imageData.data i) (int 255)) (lit 0.1)
      = decide (26 ≤ mask.imageData.data.getD i 0)) ∧
    ((∀ my, my < mask.height → ∀ mx, mx < mask.width →
        mask.imageData.data.getD ((my * mask.width + mx) * 4 + 3) 0 < 26) →
      overlayBrightnessSpec imageData.data mask.imageData.data mask.width mask.height
        imgWidth ((imgWidth : ℤ) - mask.width - mask.margin)
        ((imgHeight : ℤ) - mask.height - mask.margin) = int 0) := by
  have hoff : ¬ ((imgWidth : ℤ) - mask.width - mask.margin < 0 ∨
      (imgHeight : ℤ) - mask.height - mask.margin < 0) := by omega
  refine ⟨?_, fun i => gt_alpha_getD _ i, ?_⟩
  · unfold App.detectWatermark
    simp only [if_neg hoff]
    rw [App.watermarkSums_eq_spec imageData.data mask.imageData.data mask.width mask.height
      mask.margin imgWidth imgHeight hx hy]
    have key : (if gt (((maskCells mask.width mask.height).filter
            (fun c => decide (26 ≤ mask.imageData.data.getD ((c.1 * mask.width + c.2) * 4 + 3)
              0))).foldl
            (fun s c => add s (div (getByte mask.imageData.data
              ((c.1 * mask.width + c.2) * 4 + 3)) (int 255))) (int 0)) (int 0) = true
        then div (((maskCells mask.width mask.height).filter
            (fun c => decide (26 ≤ mask.imageData.data.getD ((c.1 * mask.width + c.2) * 4 + 3)
              0))).foldl
            (fun s c => add s (mul
              (luminanceAt imageData.data
                (((((imgHeight : ℤ) - mask.height - mask.margin) + c.1) * imgWidth
                  + (((imgWidth : ℤ) - mask.width - mask.margin) + c.2)) * 4).toNat)
              (div (getByte mask.imageData.data ((c.1 * mask.width + c.2) * 4 + 3)) (int 255))))
            (int 0))
          (((maskCells mask.width mask.height).filter
            (fun c => decide (26 ≤ mask.imageData.data.getD ((c.1 * mask.width + c.2) * 4 + 3)
              0))).foldl
            (fun s c => add s (div (getByte mask.imageData.data
              ((c.1 * mask.width + c.2) * 4 + 3)) (int 255))) (int 0))
        else int 0)
        = overlayBrightnessSpec imageData.data mask.imageData.data mask.width mask.height
            imgWidth ((imgWidth : ℤ) - mask.width - mask.margin)
            ((imgHeight : ℤ) - mask.height - mask.margin) := by
      unfold overlayBrightnessSpec
      simp only
      by_cases hw : (maskCells mask.width mask.height).filter
          (fun c => decide (26 ≤ mask.imageData.data.getD ((c.1 * mask.width + c.2) * 4 + 3) 0))
          = []
      · rw [hw, if_pos rfl]
        rfl
      · rw [if_neg hw]
        obtain ⟨d, hd, hd0⟩ := sum_pos
          (fun c : ℕ × ℕ => div (getByte mask.imageData.data ((c.1 * mask.width + c.2) * 4 + 3))
            (int 255)) _ hw
          (fun c hc => alpha_pos _ _ (by simpa using (List.mem_filter.mp hc).2))
        have hg : gt (some d) (int 0) = true := by
          simp only [gt, lt, int, decide_eq_true_eq]
          exact_mod_cast hd0
        rw [hd, if_pos hg]
    simp only [key]
    exact ⟨_, _, rfl⟩
  · intro hnone
    unfold overlayBrightnessSpec
    simp only
    rw [if_pos]
    rw [List.filter_eq_nil_iff]
    intro c hc
    simp only [maskCells, List.mem_flatMap, List.mem_map, List.mem_range] at hc
    obtain ⟨my, hmy, mx, hmx, rfl⟩ := hc
    have := hnone my hmy mx hmx
    simp only [decide_eq_true_eq, not_le]
    exact this

/-- C21 at a concrete input: a 2×1 image under a 1×1 mask of alpha byte 255 and margin 0. -/
theorem C21_overlay_brightness_witness :
    (∃ sb d : Number,
      (App.detectWatermark ⟨[0, 0, 0, 255, 10, 10, 10, 255], 2, 1⟩
          ⟨⟨[255, 255, 255, 255], 1, 1⟩, 1, 1, 0⟩ 2 1).logged
        = some ⟨overlayBrightnessSpec [0, 0, 0, 255, 10, 10, 10, 255] [255, 255, 255, 255] 1 1
            2 (((2 : ℕ) : ℤ) - (1 : ℕ) - (0 : ℕ)) (((1 : ℕ) : ℤ) - (1 : ℕ) - (0 : ℕ)), sb, d⟩) ∧
    (∀ i, gt (div (getByte [255, 255, 255, 255] i) (int 255)) (lit 0.1)
      = decide (26 ≤ ([255, 255, 255, 255] : List ℕ).getD i 0)) ∧
    ((∀ my, my < 1 → ∀ mx, mx < 1 →
        ([255, 255, 255, 255] : List ℕ).getD ((my * 1 + mx) * 4 + 3) 0 < 26) →
      overlayBrightnessSpec [0, 0, 0, 255, 10, 10, 10, 255] [255, 255, 255, 255] 1 1
        2 (((2 : ℕ) : ℤ) - (1 : ℕ) - (0 : ℕ)) (((1 : ℕ) : ℤ) - (1 : ℕ) - (0 : ℕ)) = int 0) :=
  C21_overlay_brightness ⟨[0, 0, 0, 255, 10, 10, 10, 255], 2, 1⟩
    ⟨⟨[255, 255, 255, 255], 1, 1⟩, 1, 1, 0⟩ 2 1 (by decide) (by decide)

/-- C22, as written: the reference brightness can be 128 although a strip is not empty.
In the 2×1 image `(1, 189, 147), (0, 0, 0)` under a 1×1 mask of margin 0 the footprint is
the second pixel, the left strip is the first pixel, and its luminance
`0.299 * 1 + 0.587 * 189 + 0.114 * 147` is the double 128. -/
theorem C22_reference_128_with_a_non_empty_strip :
    (App.detectWatermark ⟨[1, 189, 147, 255, 0, 0, 0, 255], 2, 1⟩
        ⟨⟨[255, 255, 255, 255], 1, 1⟩, 1, 1, 0⟩ 2 1).logged.map
        (fun b => b.avgSurroundingBrightness) = some (int 128) ∧
      (Worker.detectWatermark (Worker.requestOf ⟨[1, 189, 147, 255, 0, 0, 0, 255], 2, 1⟩
        ⟨⟨[255, 255, 255, 255], 1, 1⟩, 1, 1, 0⟩ 2 1)).debug.map
        (fun b => b.avgSurroundingBrightness) = some (int 128) ∧
      referencePixels 1 1 1 0 = [(0, 0)] := by
  decide!

/-- C22, amended: reference-region brightness.  The reference brightness that
`detectWatermark` reports, in `app.js` and in the worker, is the unweighted mean luminance
over the pixels of the left strip and the top strip, and the default 128 when there is no
such pixel; for a template of positive size whose footprint fits there is no such pixel
exactly when `offsetX = 0` and `offsetY = 0`. -/
theorem C22_reference_brightness (imageData : App.ImageData) (mask : App.Mask)
    (imgWidth imgHeight : ℕ)
    (hx : mask.width + mask.margin ≤ imgWidth) (hy : mask.height + mask.margin ≤ imgHeight) :
    (∃ wb d : Number,
      (App.detectWatermark imageData mask imgWidth imgHeight).logged
        = some ⟨wb, referenceBrightnessSpec imageData.data mask.width mask.height imgWidth
            ((imgWidth : ℤ) - mask.width - mask.margin)
            ((imgHeight : ℤ) - mask.height - mask.margin), d⟩ ∧
      (Worker.detectWatermark (Worker.requestOf imageData mask imgWidth imgHeight)).debug
        = some ⟨wb, referenceBrightnessSpec imageData.data mask.width mask.height imgWidth
            ((imgWidth : ℤ) - mask.width - mask.margin)
            ((imgHeight : ℤ) - mask.height - mask.margin), d⟩) ∧
    (referencePixels mask.width mask.height ((imgWidth : ℤ) - mask.width - mask.margin)
        ((imgHeight : ℤ) - mask.height - mask.margin) = [] →
      referenceBrightnessSpec imageData.data mask.width mask.height imgWidth
        ((imgWidth : ℤ) - mask.width - mask.margin)
        ((imgHeight : ℤ) - mask.height - mask.margin) = int 128) ∧
    (0 < mask.width → 0 < mask.height →
      (referencePixels mask.width mask.height ((imgWidth : ℤ) - mask.width - mask.margin)
          ((imgHeight : ℤ) - mask.height - mask.margin) = [] ↔
        (imgWidth : ℤ) - mask.width - mask.margin = 0 ∧
          (imgHeight : ℤ) - mask.height - mask.margin = 0)) := by
  have hoff : ¬ ((imgWidth : ℤ) - mask.width - mask.margin < 0 ∨
      (imgHeight : ℤ) - mask.height - mask.margin < 0) := by omega
  refine ⟨?_, ?_, ?_⟩
  · unfold Worker.detectWatermark App.detectWatermark Worker.requestOf
    simp only [Worker.watermarkSums_eq, Worker.surroundingSums_eq, if_neg hoff]
    rw [App.surroundingSums_eq_spec imageData.data mask.width mask.height
      mask.margin imgWidth imgHeight]
    have key : (if gt ((referencePixels mask.width mask.height
            ((imgWidth : ℤ) - mask.width - mask.margin)
            ((imgHeight : ℤ) - mask.height - mask.margin)).foldl
            (fun n _ => add n (int 1)) (int 0)) (int 0) = true
        then div ((referencePixels mask.width mask.height
            ((imgWidth : ℤ) - mask.width - mask.margin)
            ((imgHeight : ℤ) - mask.height - mask.margin)).foldl
            (fun s p => add s (luminanceAt imageData.data
              ((p.2 * (imgWidth : ℤ) + p.1) * 4).toNat)) (int 0))
          ((referencePixels mask.width mask.height
            ((imgWidth : ℤ) - mask.width - mask.margin)
            ((imgHeight : ℤ) - mask.height - mask.margin)).foldl
            (fun n _ => add n (int 1)) (int 0))
        else int 128)
        = referenceBrightnessSpec imageData.data mask.width mask.height imgWidth
            ((imgWidth : ℤ) - mask.width - mask.margin)
            ((imgHeight : ℤ) - mask.height - mask.margin) := by
      unfold referenceBrightnessSpec
      simp only
      by_cases hp : referencePixels mask.width mask.height
          ((imgWidth : ℤ) - mask.width - mask.margin)
          ((imgHeight : ℤ) - mask.height - mask.margin) = []
      · rw [hp, if_pos rfl]
        rfl
      · rw [if_neg hp]
        obtain ⟨d, hd, hd0⟩ := sum_pos (fun _ : ℤ × ℤ => int 1) _ hp
          (fun c _ => ⟨1, by simp [int], by norm_num⟩)
        have hg : gt (some d) (int 0) = true := by
          simp only [gt, lt, int, decide_eq_true_eq]
          exact_mod_cast hd0
        rw [hd, if_pos hg]
    simp only [key]
    exact ⟨_, _, rfl, rfl⟩
  · intro hp
    unfold referenceBrightnessSpec
    simp only
    rw [if_pos hp]
  · intro hw hh
    simp only [referencePixels, List.append_eq_nil, List.flatMap_eq_nil_iff,
      List.map_eq_nil_iff, intRange_eq_nil]
    constructor
    · rintro ⟨hl, ht⟩
      have hl' := hl ((imgHeight : ℤ) - mask.height - mask.margin)
        (mem_intRange.mpr (by omega))
      constructor
      · omega
      · by_contra hne
        have ht' := ht ((imgHeight : ℤ) - mask.height - mask.margin - 1)
          (mem_intRange.mpr (by omega))
        omega
    · rintro ⟨h1, h2⟩
      constructor
      · intro y _; omega
      · intro y hy'
        have := mem_intRange.mp hy'
        omega

/-- C22, amended, at a concrete input: a 2×1 image under a 1×1 mask of margin 0. -/
theorem C22_reference_brightness_witness :
    (∃ wb d : Number,
      (App.detectWatermark ⟨[0, 0, 0, 255, 10, 10, 10, 255], 2, 1⟩
          ⟨⟨[255, 255, 255, 255], 1, 1⟩, 1, 1, 0⟩ 2 1).logged
        = some ⟨wb, referenceBrightnessSpec [0, 0, 0, 255, 10, 10, 10, 255] 1 1 2
            (((2 : ℕ) : ℤ) - (1 : ℕ) - (0 : ℕ)) (((1 : ℕ) : ℤ) - (1 : ℕ) - (0 : ℕ)), d⟩ ∧
      (Worker.detectWatermark (Worker.requestOf ⟨[0, 0, 0, 255, 10, 10, 10, 255], 2, 1⟩
          ⟨⟨[255, 255, 255, 255], 1, 1⟩, 1, 1, 0⟩ 2 1)).debug
        = some ⟨wb, referenceBrightnessSpec [0, 0, 0, 255, 10, 10, 10, 255] 1 1 2
            (((2 : ℕ) : ℤ) - (1 : ℕ) - (0 : ℕ)) (((1 : ℕ) : ℤ) - (1 : ℕ) - (0 : ℕ)), d⟩) ∧
    (referencePixels 1 1 (((2 : ℕ) : ℤ) - (1 : ℕ) - (0 : ℕ)) (((1 : ℕ) : ℤ) - (1 : ℕ) - (0 : ℕ))
        = [] →
      referenceBrightnessSpec [0, 0, 0, 255, 10, 10, 10, 255] 1 1 2
        (((2 : ℕ) : ℤ) - (1 : ℕ) - (0 : ℕ)) (((1 : ℕ) : ℤ) - (1 : ℕ) - (0 : ℕ)) = int 128) ∧
    (0 < 1 → 0 < 1 →
      (referencePixels 1 1 (((2 : ℕ) : ℤ) - (1 : ℕ) - (0 : ℕ))
          (((1 : ℕ) : ℤ) - (1 : ℕ) - (0 : ℕ)) = [] ↔
        ((2 : ℕ) : ℤ) - (1 : ℕ) - (0 : ℕ) = 0 ∧ ((1 : ℕ) : ℤ) - (1 : ℕ) - (0 : ℕ) = 0)) :=
  C22_reference_brightness ⟨[0, 0, 0, 255, 10, 10, 10, 255], 2, 1⟩
    ⟨⟨[255, 255, 255, 255], 1, 1⟩, 1, 1, 0⟩ 2 1 (by decide) (by decide)

/-! ## The end-to-end scenario -/

namespace JS

/-- The ramp stays inside a byte. -/
theorem rampAlpha_le (i : ℕ) (hi : i < 2304) : rampAlpha i ≤ 255 := by
  unfold rampAlpha
  omega

/-- Byte `j` of the scenario image. -/
theorem scenarioImage_getElem? (alphaOf : ℕ → ℕ) (j : ℕ) (hj : j < 160000) :
    (scenarioImage alphaOf).data[j]? = some (scenarioByte alphaOf j) := by
  simp only [scenarioImage, List.getElem?_map]
  rw [List.getElem?_range (by omega)]
  rfl

/-- The alpha byte of pixel `i` of the scenario template. -/
theorem scenarioMask_alpha (alphaOf : ℕ → ℕ) (i : ℕ) (hi : i < 2304) :
    (scenarioMask alphaOf).imageData.data[i * 4 + 3]? = some (alphaOf i) := by
  simp only [scenarioMask, List.getElem?_map]
  rw [List.getElem?_range (by omega)]
  have h1 : (i * 4 + 3) % 4 = 3 := by omega
  have h2 : (i * 4 + 3) / 4 = i := by omega
  simp only [Option.map_some', h1, h2, if_true]

/-- The colour bytes of pixel `i` of the scenario template are 255. -/
theorem scenarioMask_white (alphaOf : ℕ → ℕ) (i : ℕ) (hi : i < 2304) (c : ℕ) (hc : c < 3) :
    (scenarioMask alphaOf).imageData.data[i * 4 + c]? = some 255 := by
  simp only [scenarioMask, List.getElem?_map]
  rw [List.getElem?_range (by omega)]
  have h1 : ¬ ((i * 4 + c) % 4 = 3) := by omega
  simp only [Option.map_some', if_neg h1]

/-- A colour byte of the scenario image inside the footprint is the composite of 128 with
the ramp. -/
theorem scenarioByte_footprint (alphaOf : ℕ → ℕ) (my mx ch : ℕ) (hmy : my < 48)
    (hmx : mx < 48) (hch : ch < 3) :
    scenarioByte alphaOf (((120 + my) * 200 + (120 + mx)) * 4 + ch)
      = compositeByte 128 (alphaOf (my * 48 + mx)) := by
  have h1 : ¬ ((((120 + my) * 200 + (120 + mx)) * 4 + ch) % 4 = 3) := by omega
  have h2 : (((120 + my) * 200 + (120 + mx)) * 4 + ch) / 4 % 200 = 120 + mx := by omega
  have h3 : (((120 + my) * 200 + (120 + mx)) * 4 + ch) / 4 / 200 = 120 + my := by omega
  have h4 : 120 ≤ 120 + mx ∧ 120 + mx < 168 ∧ 120 ≤ 120 + my ∧ 120 + my < 168 := by omega
  have h5 : (120 + my - 120) * 48 + (120 + mx - 120) = my * 48 + mx := by
    rw [Nat.add_sub_cancel_left, Nat.add_sub_cancel_left]
  unfold scenarioByte
  rw [if_neg h1, h2, h3, if_pos h4, h5]

/-- A colour byte of the scenario image outside the footprint is 128. -/
theorem scenarioByte_outside (alphaOf : ℕ → ℕ) (x y ch : ℕ) (hx : x < 200) (hch : ch < 3)
    (hout : x < 120 ∨ 168 ≤ x ∨ y < 120 ∨ 168 ≤ y) :
    scenarioByte alphaOf ((y * 200 + x) * 4 + ch) = 128 := by
  have h1 : ¬ (((y * 200 + x) * 4 + ch) % 4 = 3) := by omega
  have h2 : ((y * 200 + x) * 4 + ch) / 4 % 200 = x := by omega
  have h3 : ((y * 200 + x) * 4 + ch) / 4 / 200 = y := by omega
  have h4 : ¬ (120 ≤ x ∧ x < 168 ∧ 120 ≤ y ∧ y < 168) := by omega
  unfold scenarioByte
  rw [if_neg h1, h2, h3, if_neg h4]

/-- The footprint bytes of the scenario are targeted by the mask pixel above them. -/
theorem scenario_targets (alphaOf : ℕ → ℕ) (my mx ch : ℕ) (hmy : my < 48) (hmx : mx < 48)
    (hch : ch < 3) :
    targets 200 200
      (((200 : ℕ) : ℤ) - (scenarioMask alphaOf).width - (scenarioMask alphaOf).margin)
      (((200 : ℕ) : ℤ) - (scenarioMask alphaOf).height - (scenarioMask alphaOf).margin) my mx
      (((120 + my) * 200 + (120 + mx)) * 4 + ch) := by
  show targets 200 200 (((200 : ℕ) : ℤ) - (48 : ℕ) - (32 : ℕ))
    (((200 : ℕ) : ℤ) - (48 : ℕ) - (32 : ℕ)) my mx _
  unfold targets
  refine ⟨by omega, by omega, by omega, by omega, ch, hch, by omega⟩

/-- The 21 alpha bytes from 171 to 191: unblending the composite of 128 gives 127, 128 or
129. -/
theorem restored_gray_upper :
    ∀ k : ℕ, k < 192 → 171 ≤ k →
      127 ≤ restored (some 255) (div (some (k : ℚ)) (int 255))
          (sub (int 1) (div (some (k : ℚ)) (int 255))) (compositeByte 128 k) ∧
        restored (some 255) (div (some (k : ℚ)) (int 255))
          (sub (int 1) (div (some (k : ℚ)) (int 255))) (compositeByte 128 k) ≤ 129 := by
  decide!

/-- Unblending the composite of 128 under a white overlay of alpha byte at most 191 gives
127, 128 or 129. -/
theorem restored_gray (k : ℕ) (hk : k ≤ 191) :
    127 ≤ restored (some 255) (div (some (k : ℚ)) (int 255))
        (sub (int 1) (div (some (k : ℚ)) (int 255))) (compositeByte 128 k) ∧
      restored (some 255) (div (some (k : ℚ)) (int 255))
        (sub (int 1) (div (some (k : ℚ)) (int 255))) (compositeByte 128 k) ≤ 129 := by
  by_cases h170 : k ≤ 170
  · have hc := compositeByte_spec 128 k (by norm_num) (by omega)
    obtain ⟨m, hm, hr⟩ := restored_white k (compositeByte 128 k) (by omega) hc.1
    have hn := clamp_near 128 k (compositeByte 128 k) m (by norm_num) h170
      (by simpa using hc.2) hm
    rw [hr]
    omega
  · exact restored_gray_upper k (by omega) (by omega)

/-- The composite of 128 with an overlay of alpha byte at most 2 is 128 or 129. -/
theorem compositeByte_gray_low (k : ℕ) (hk : k ≤ 2) :
    127 ≤ compositeByte 128 k ∧ compositeByte 128 k ≤ 129 := by
  have hc := compositeByte_spec 128 k (by norm_num) (by omega)
  have h := abs_le.mp hc.2
  push_cast at h
  omega

end JS

namespace App

/-- The byte `reverseAlphaBlend` leaves at a colour channel of a footprint pixel of the
scenario. -/
theorem scenario_reverseAlphaBlend (alphaOf : ℕ → ℕ) (my mx ch : ℕ) (hmy : my < 48)
    (hmx : mx < 48) (hch : ch < 3) :
    (reverseAlphaBlend (scenarioImage alphaOf) (scenarioMask alphaOf) 200 200)[
        ((120 + my) * 200 + (120 + mx)) * 4 + ch]?
      = some (if alphaOf (my * 48 + mx) ≤ 2 ∨ 253 ≤ alphaOf (my * 48 + mx) then
          compositeByte 128 (alphaOf (my * 48 + mx))
        else restored (some 255) (div (some (alphaOf (my * 48 + mx) : ℚ)) (int 255))
          (sub (int 1) (div (some (alphaOf (my * 48 + mx) : ℚ)) (int 255)))
          (compositeByte 128 (alphaOf (my * 48 + mx)))) := by
  have ht := scenario_targets alphaOf my mx ch hmy hmx hch
  have hi : my * 48 + mx < 2304 := by omega
  rw [reverseAlphaBlend_getElem?_of_targets _ _ _ _ my mx _ hmy hmx ht,
    scenarioImage_getElem? _ _ (by omega), scenarioByte_footprint alphaOf my mx ch hmy hmx hch,
    Option.map_some']
  have hk : (scenarioMask alphaOf).imageData.data[
      (my * (scenarioMask alphaOf).width + mx) * 4 + 3]?
      = some (alphaOf (my * 48 + mx)) := scenarioMask_alpha alphaOf _ hi
  have hw : ∀ c, c < 3 → (scenarioMask alphaOf).imageData.data[
      (my * (scenarioMask alphaOf).width + mx) * 4 + c]?
      = some 255 := fun c hc => scenarioMask_white alphaOf _ hi c hc
  rw [byteMap_white _ ht hk hw]

end App

namespace Worker

/-- The byte the worker's `processImage` leaves at a colour channel of a footprint pixel of
the scenario. -/
theorem scenario_processImage (alphaOf : ℕ → ℕ) (my mx ch : ℕ) (hmy : my < 48)
    (hmx : mx < 48) (hch : ch < 3) :
    (processImage (requestOf (scenarioImage alphaOf) (scenarioMask alphaOf) 200 200))[
        ((120 + my) * 200 + (120 + mx)) * 4 + ch]?
      = some (if 1 ≤ alphaOf (my * 48 + mx) ∧ alphaOf (my * 48 + mx) ≤ 254 then
          restored (some 255) (div (some (alphaOf (my * 48 + mx) : ℚ)) (int 255))
            (sub (int 1) (div (some (alphaOf (my * 48 + mx) : ℚ)) (int 255)))
            (compositeByte 128 (alphaOf (my * 48 + mx)))
        else compositeByte 128 (alphaOf (my * 48 + mx))) := by
  have ht := scenario_targets alphaOf my mx ch hmy hmx hch
  have hi : my * 48 + mx < 2304 := by omega
  have hk : (scenarioMask alphaOf).imageData.data[
      (my * (scenarioMask alphaOf).width + mx) * 4 + 3]?
      = some (alphaOf (my * 48 + mx)) := scenarioMask_alpha alphaOf _ hi
  rw [processImage_getElem?_of_targets _ my mx _ hmy hmx ht]
  simp only [requestOf]
  rw [scenarioImage_getElem? _ _ (by omega),
    scenarioByte_footprint alphaOf my mx ch hmy hmx hch, Option.map_some']
  rw [byteMap_alpha _ ht hk]

end Worker

/-- C17, as written: the recovery fails at a footprint pixel of opacity below 0.99.  With
the ramp that is linear in raster order, the template pixel `(mx, my) = (7, 36)` has alpha
byte 192, so `a = 192 / 255` is about 0.753; the composite of 128 there is 224, and both
`reverseAlphaBlend` and the worker's `processImage` restore it to 130. -/
theorem C17_recovery_fails_at_alpha_192 :
    rampAlpha 0 = 0 ∧ rampAlpha 2303 = 255 ∧
      rampAlpha (36 * 48 + 7) = 192 ∧ (192 : ℚ) / 255 < 99 / 100 ∧
      compositeByte 128 192 = 224 ∧
      (App.reverseAlphaBlend (scenarioImage rampAlpha) (scenarioMask rampAlpha) 200 200)[
        ((120 + 36) * 200 + (120 + 7)) * 4 + 0]? = some 130 ∧
      (Worker.processImage
        (Worker.requestOf (scenarioImage rampAlpha) (scenarioMask rampAlpha) 200 200))[
        ((120 + 36) * 200 + (120 + 7)) * 4 + 0]? = some 130 := by
  refine ⟨by decide, by decide, by decide, by norm_num, by decide!, ?_, ?_⟩
  · rw [App.scenario_reverseAlphaBlend rampAlpha 36 7 0 (by decide) (by decide) (by decide)]
    decide!
  · rw [Worker.scenario_processImage rampAlpha 36 7 0 (by decide) (by decide) (by decide)]
    decide!

/-- C17, amended: end-to-end recovery.  In the 200×200 all-`(128, 128, 128)` image
composited with a white 48×48 template of margin 32, whatever its alpha bytes `alphaOf` (any
ramp from 0 to 255 among them), after `reverseAlphaBlend` and after the worker's
`processImage` every footprint pixel whose alpha byte is at most 191 (opacity at most about
0.749) has each RGB channel in `{127, 128, 129}`. -/
theorem C17_recovery_up_to_alpha_191 (alphaOf : ℕ → ℕ) (my mx ch : ℕ) (hmy : my < 48)
    (hmx : mx < 48) (hch : ch < 3) (hk : alphaOf (my * 48 + mx) ≤ 191) :
    (∃ n, (App.reverseAlphaBlend (scenarioImage alphaOf) (scenarioMask alphaOf) 200 200)[
        ((120 + my) * 200 + (120 + mx)) * 4 + ch]? = some n ∧ 127 ≤ n ∧ n ≤ 129) ∧
    (∃ n, (Worker.processImage
        (Worker.requestOf (scenarioImage alphaOf) (scenarioMask alphaOf) 200 200))[
        ((120 + my) * 200 + (120 + mx)) * 4 + ch]? = some n ∧ 127 ≤ n ∧ n ≤ 129) := by
  have hr := restored_gray _ hk
  constructor
  · refine ⟨_, App.scenario_reverseAlphaBlend alphaOf my mx ch hmy hmx hch, ?_⟩
    by_cases h : alphaOf (my * 48 + mx) ≤ 2 ∨ 253 ≤ alphaOf (my * 48 + mx)
    · rw [if_pos h]
      exact compositeByte_gray_low _ (by omega)
    · rw [if_neg h]
      exact hr
  · refine ⟨_, Worker.scenario_processImage alphaOf my mx ch hmy hmx hch, ?_⟩
    by_cases h : 1 ≤ alphaOf (my * 48 + mx) ∧ alphaOf (my * 48 + mx) ≤ 254
    · rw [if_pos h]
      exact hr
    · rw [if_neg h]
      exact compositeByte_gray_low _ (by omega)

/-- C17, amended, at a concrete input: with the ramp that is linear in raster order, the
red channel of the footprint pixel under the template pixel `(mx, my) = (10, 20)`, of alpha
byte 107. -/
theorem C17_recovery_up_to_alpha_191_witness :
    (∃ n, (App.reverseAlphaBlend (scenarioImage rampAlpha) (scenarioMask rampAlpha) 200 200)[
        ((120 + 20) * 200 + (120 + 10)) * 4 + 0]? = some n ∧ 127 ≤ n ∧ n ≤ 129) ∧
    (∃ n, (Worker.processImage
        (Worker.requestOf (scenarioImage rampAlpha) (scenarioMask rampAlpha) 200 200))[
        ((120 + 20) * 200 + (120 + 10)) * 4 + 0]? = some n ∧ 127 ≤ n ∧ n ≤ 129) :=
  C17_recovery_up_to_alpha_191 rampAlpha 20 10 0 (by decide) (by decide) (by decide) (by decide)

/-! ## Detection on the end-to-end scenario -/

namespace JS

/-- A loop invariant that counts the iterations done so far, for loops of at most `L`
iterations. -/
theorem foldl_invariant_count {β ι : Type} (I : ℕ → β → Prop) (f : β → ι → β) (L : ℕ) :
    ∀ (l : List ι) (n : ℕ) (b : β), I n b → n + l.length ≤ L →
      (∀ n b x, x ∈ l → n < L → I n b → I (n + 1) (f b x)) →
      I (n + l.length) (l.foldl f b) := by
  intro l
  induction l with
  | nil => intro n b h _ _; simpa using h
  | cons x xs ih =>
    intro n b h hL hstep
    simp only [List.foldl_cons, List.length_cons] at hL ⊢
    have := ih (n + 1) (f b x) (hstep n b x (List.mem_cons_self _ _) (by omega) h) (by omega)
      (fun n b y hy => hstep n b y (List.mem_cons_of_mem _ hy))
    have e : n + (xs.length + 1) = n + 1 + xs.length := by omega
    rw [e]
    exact this

/-- The number of pairs a loop nest with a fixed inner range visits. -/
theorem length_flatMap_map {ι κ π : Type} (pair : ι → κ → π) (inner : List κ) :
    ∀ l : List ι, (l.flatMap (fun i => inner.map (pair i))).length = l.length * inner.length := by
  intro l
  induction l with
  | nil => simp
  | cons x xs ih =>
    simp only [List.flatMap_cons, List.length_append, List.length_map, ih, List.length_cons]
    ring

/-- The number of values a counting loop runs through. -/
theorem length_intRange (lo hi : ℤ) : (intRange lo hi).length = (hi - lo).toNat := by
  simp [intRange]

/-- The luminance of a gray pixel `(c, c, c)` in double arithmetic is within `1 / 200000` of
`c`. -/
theorem luminanceAt_gray (imgPixels : List ℕ) (i c : ℕ) (hc : c ≤ 255)
    (h0 : imgPixels[i]? = some c) (h1 : imgPixels[i + 1]? = some c)
    (h2 : imgPixels[i + 2]? = some c) :
    ∃ l : ℚ, luminanceAt imgPixels i = some l ∧ |l - c| ≤ 1 / 200000 := by
  have he := luminance_err c c c hc hc hc
  refine ⟨f64 (f64 (f64 (f64 0.299 * (c : ℚ)) + f64 (f64 0.587 * (c : ℚ)))
    + f64 (f64 0.114 * (c : ℚ))), ?_, ?_⟩
  · simp only [luminanceAt, getByte_of_getElem? h0, getByte_of_getElem? h1,
      getByte_of_getElem? h2, lit, mul, add]
  · have e : (0.299 * c + 0.587 * c + 0.114 * c : ℚ) = c := by ring
    rw [e] at he
    exact he

/-- One iteration of the footprint loop keeps the bounds on the two sums: the sum of the
weights stays between `0.09 n` and `1.01 n`, and the weighted sum at least 140.5 times it. -/
theorem overlay_step (n : ℕ) (hn : n < 2304) (x d l a : ℚ)
    (hd0 : (9 / 100 : ℚ) * n ≤ d) (hd1 : d ≤ (101 / 100) * n) (hx : (281 / 2) * d ≤ x)
    (hl : (1409 / 10 : ℚ) ≤ l) (ha0 : (1 / 10 : ℚ) ≤ a) (ha1 : a ≤ 1001 / 1000) :
    (9 / 100 : ℚ) * ((n + 1 : ℕ) : ℚ) ≤ f64 (d + a) ∧
      f64 (d + a) ≤ (101 / 100) * ((n + 1 : ℕ) : ℚ) ∧
      (281 / 2) * f64 (d + a) ≤ f64 (x + f64 (l * a)) := by
  have hn' : (n : ℚ) ≤ 2304 := by exact_mod_cast (le_of_lt hn)
  have hn0 : (0 : ℚ) ≤ n := Nat.cast_nonneg n
  have hda : 0 ≤ d + a := by linarith
  have b1 := f64_bounds hda
  have hp : 0 ≤ l * a := mul_nonneg (by linarith) (by linarith)
  have b2 := f64_bounds hp
  have hla : (1409 / 10) * a ≤ l * a := mul_le_mul_of_nonneg_right hl (by linarith)
  have hxp : 0 ≤ x + f64 (l * a) := by linarith [f64_nonneg hp]
  have b3 := f64_bounds hxp
  generalize f64 (d + a) = F1 at b1 ⊢
  generalize f64 (l * a) = P at b2 b3 hxp ⊢
  generalize f64 (x + P) = F3 at b3 ⊢
  generalize l * a = la at b2 hla hp
  push_cast
  have hu : (1 : ℚ) / 2 ^ 53 ≤ 1 / 10 ^ 15 := by norm_num
  have e1 : (d + a) / 2 ^ 53 ≤ 1 / 10 ^ 11 := by
    rw [div_le_iff₀ (by positivity)]
    norm_num
    linarith
  refine ⟨by linarith [b1.1], by linarith [b1.2], ?_⟩
  have k1 : (1 - 1 / 2 ^ 53 : ℚ) * (x + P) ≤ F3 := by linarith [b3.1]
  have k2 : (1 - 1 / 2 ^ 53 : ℚ) * la ≤ P := by linarith [b2.1]
  have k3 : F1 ≤ d + a + 1 / 10 ^ 11 := by linarith [b1.2]
  have k4 : (1 - 1 / 2 ^ 53 : ℚ) * ((281 / 2) * d + (1 - 1 / 2 ^ 53) * ((1409 / 10) * a))
      ≤ (1 - 1 / 2 ^ 53 : ℚ) * (x + P) := by
    apply mul_le_mul_of_nonneg_left _ (by norm_num)
    have : (1 - 1 / 2 ^ 53 : ℚ) * ((1409 / 10) * a) ≤ (1 - 1 / 2 ^ 53 : ℚ) * la :=
      mul_le_mul_of_nonneg_left hla (by norm_num)
    linarith
  have k5 : (281 / 2 : ℚ) * (d + a + 1 / 10 ^ 11)
      ≤ (1 - 1 / 2 ^ 53 : ℚ) * ((281 / 2) * d + (1 - 1 / 2 ^ 53) * ((1409 / 10) * a)) := by
    have hd2 : d ≤ 2328 := by linarith
    have t1 : (1 - 1 / 2 ^ 53 : ℚ) * ((281 / 2) * d) ≥ (281 / 2) * d - 1 / 10 ^ 9 := by
      have : (1 / 2 ^ 53 : ℚ) * ((281 / 2) * d) ≤ 1 / 10 ^ 9 := by
        have : (1 / 2 ^ 53 : ℚ) * ((281 / 2) * d) ≤ (1 / 2 ^ 53 : ℚ) * ((281 / 2) * 2328) :=
          mul_le_mul_of_nonneg_left (by linarith) (by norm_num)
        have : (1 / 2 ^ 53 : ℚ) * ((281 / 2) * 2328) ≤ 1 / 10 ^ 9 := by norm_num
        linarith
      linarith
    have t2 : (1 - 1 / 2 ^ 53 : ℚ) * ((1 - 1 / 2 ^ 53) * ((1409 / 10) * a))
        ≥ (1408 / 10) * a := by
      have : (1408 / 10 : ℚ) ≤ (1 - 1 / 2 ^ 53) * ((1 - 1 / 2 ^ 53) * (1409 / 10)) := by norm_num
      have := mul_le_mul_of_nonneg_right this (show (0 : ℚ) ≤ a by linarith)
      linarith
    linarith
  linarith

/-- One iteration of a reference loop keeps the bounds on sum and count: the sum stays
between 0 and `128.2 n`, the count at least `0.999 n`. -/
theorem reference_step (n : ℕ) (hn : n < 4608) (s c l : ℚ)
    (hs0 : 0 ≤ s) (hs1 : s ≤ (641 / 5) * n) (hc : (999 / 1000 : ℚ) * n ≤ c)
    (hl0 : 0 ≤ l) (hl1 : l ≤ 1281 / 10) :
    0 ≤ f64 (s + l) ∧ f64 (s + l) ≤ (641 / 5) * ((n + 1 : ℕ) : ℚ) ∧
      (999 / 1000 : ℚ) * ((n + 1 : ℕ) : ℚ) ≤ f64 (c + 1) := by
  have hn' : (n : ℚ) ≤ 4608 := by exact_mod_cast (le_of_lt hn)
  have hn0 : (0 : ℚ) ≤ n := Nat.cast_nonneg n
  have hsl : 0 ≤ s + l := by linarith
  have b1 := f64_bounds hsl
  have hc1 : 0 ≤ c + 1 := by linarith
  have b2 := f64_bounds hc1
  push_cast
  refine ⟨f64_nonneg hsl, ?_, ?_⟩
  · have e1 : (s + l) / 2 ^ 53 ≤ 1 / 10 ^ 9 := by
      rw [div_le_iff₀ (by positivity)]
      norm_num
      linarith
    linarith [b1.2]
  · have k : (1 - 1 / 2 ^ 53 : ℚ) * (c + 1) ≤ f64 (c + 1) := by linarith [b2.1]
    have k2 : (1 - 1 / 2 ^ 53 : ℚ) * ((999 / 1000) * n + 1) ≤ (1 - 1 / 2 ^ 53 : ℚ) * (c + 1) :=
      mul_le_mul_of_nonneg_left (by linarith) (by norm_num)
    have k3 : (999 / 1000 : ℚ) * n + 999 / 1000
        ≤ (1 - 1 / 2 ^ 53 : ℚ) * ((999 / 1000) * n + 1) := by
      have : (1 / 2 ^ 53 : ℚ) * ((999 / 1000) * n + 1) ≤ 1 / 10 ^ 9 := by
        have : (1 / 2 ^ 53 : ℚ) * ((999 / 1000) * n + 1)
            ≤ (1 / 2 ^ 53 : ℚ) * ((999 / 1000) * 4608 + 1) :=
          mul_le_mul_of_nonneg_left (by linarith) (by norm_num)
        have : (1 / 2 ^ 53 : ℚ) * ((999 / 1000) * 4608 + 1) ≤ 1 / 10 ^ 9 := by norm_num
        linarith
      linarith
    linarith

/-- With the bounds the loops keep, the brightness difference is a double above 10. -/
theorem detect_margin (x d s c : ℚ) (n m : ℕ) (hn : 1 ≤ n) (hm : 1 ≤ m)
    (hd0 : (9 / 100 : ℚ) * n ≤ d) (hx : (281 / 2) * d ≤ x)
    (hs0 : 0 ≤ s) (hs1 : s ≤ (641 / 5) * m) (hc : (999 / 1000 : ℚ) * m ≤ c) :
    0 < d ∧ 0 < c ∧ 10 < f64 (f64 (x / d) - f64 (s / c)) := by
  have hn' : (1 : ℚ) ≤ n := by exact_mod_cast hn
  have hm' : (1 : ℚ) ≤ m := by exact_mod_cast hm
  have hd : 0 < d := by linarith
  have hcpos : 0 < c := by linarith
  have q1 : (281 / 2 : ℚ) ≤ x / d := by
    rw [le_div_iff₀ hd]
    exact hx
  have q2 : s / c ≤ 1284 / 10 := by
    rw [div_le_iff₀ hcpos]
    linarith
  have q20 : 0 ≤ s / c := div_nonneg hs0 (le_of_lt hcpos)
  have b1 := f64_bounds (show (0 : ℚ) ≤ x / d by linarith)
  have b2 := f64_bounds q20
  generalize x / d = w at q1 b1
  generalize s / c = v at q2 q20 b2
  generalize f64 w = W at b1 ⊢
  generalize f64 v = V at b2 ⊢
  have w1 : (140 : ℚ) ≤ W := by
    have : (1 - 1 / 2 ^ 53 : ℚ) * (281 / 2) ≤ (1 - 1 / 2 ^ 53 : ℚ) * w :=
      mul_le_mul_of_nonneg_left q1 (by norm_num)
    have : (140 : ℚ) ≤ (1 - 1 / 2 ^ 53 : ℚ) * (281 / 2) := by norm_num
    linarith [b1.1]
  have v1 : V ≤ 129 := by
    have : v / 2 ^ 53 ≤ 1 := by
      rw [div_le_iff₀ (by positivity)]
      norm_num
      linarith
    linarith [b2.2]
  have hdiff : (11 : ℚ) ≤ W - V := by linarith
  have b3 := f64_bounds (show (0 : ℚ) ≤ W - V by linarith)
  refine ⟨hd, hcpos, ?_⟩
  have : (1 - 1 / 2 ^ 53 : ℚ) * (W - V) ≤ f64 (W - V) := by linarith [b3.1]
  have e : (1 - 1 / 2 ^ 53 : ℚ) * 11 ≤ (1 - 1 / 2 ^ 53 : ℚ) * (W - V) :=
    mul_le_mul_of_nonneg_left hdiff (by norm_num)
  have e2 : (10 : ℚ) < (1 - 1 / 2 ^ 53 : ℚ) * 11 := by norm_num
  linarith

/-- The two sums of the footprint loop over at most 2304 weighted pixels, each of luminance
at least 140.9 and opacity between 0.1 and 1.001: both are numbers, the sum of the weights is
at least 0.09 per pixel and the weighted sum at least 140.5 times the sum of the weights. -/
theorem overlay_fold_bound {ι : Type} (l : List ι) (Lf af : ι → Number)
    (hlen : l.length ≤ 2304)
    (h : ∀ c ∈ l, ∃ lum a : ℚ, Lf c = some lum ∧ af c = some a ∧ (1409 / 10 : ℚ) ≤ lum ∧
      (1 / 10 : ℚ) ≤ a ∧ a ≤ 1001 / 1000) :
    ∃ x d : ℚ, l.foldl (fun s c => add s (mul (Lf c) (af c))) (int 0) = some x ∧
      l.foldl (fun s c => add s (af c)) (int 0) = some d ∧
      (9 / 100 : ℚ) * (l.length : ℚ) ≤ d ∧ (281 / 2) * d ≤ x := by
  have inv := foldl_invariant_count
    (fun (n : ℕ) (acc : Number × Number) => ∃ x d : ℚ, acc.1 = some x ∧ acc.2 = some d ∧
      (9 / 100 : ℚ) * (n : ℚ) ≤ d ∧ d ≤ (101 / 100) * (n : ℚ) ∧ (281 / 2) * d ≤ x)
    (fun acc c => (add acc.1 (mul (Lf c) (af c)), add acc.2 (af c))) 2304 l 0 (int 0, int 0)
    ⟨0, 0, by simp [int], by simp [int], by norm_num, by norm_num, by norm_num⟩
    (by omega)
    (by
      rintro n ⟨N, D⟩ c hc hn ⟨x, d, hN, hD, hd0, hd1, hx⟩
      obtain ⟨lum, a, hL, hA, hl, ha0, ha1⟩ := h c hc
      simp only at hN hD
      subst hN hD
      have st := overlay_step n hn x d lum a hd0 hd1 hx hl ha0 ha1
      refine ⟨f64 (x + f64 (lum * a)), f64 (d + a), ?_, ?_, st.1, st.2.1, st.2.2⟩
      · simp only [hL, hA, mul, add]
      · simp only [hA, add])
  rw [foldl_pair (fun s c => add s (mul (Lf c) (af c))) (fun s c => add s (af c))] at inv
  obtain ⟨x, d, hN, hD, hd0, _, hx⟩ := inv
  simp only [Nat.zero_add] at hd0
  exact ⟨x, d, hN, hD, hd0, hx⟩

/-- Sum and count of the reference loops over at most 4608 pixels of luminance between 0 and
128.1: both are numbers, the sum is between 0 and 128.2 per pixel and the count at least
0.999 per pixel. -/
theorem reference_fold_bound {ι : Type} (l : List ι) (Lf : ι → Number)
    (hlen : l.length ≤ 4608)
    (h : ∀ p ∈ l, ∃ lum : ℚ, Lf p = some lum ∧ 0 ≤ lum ∧ lum ≤ 1281 / 10) :
    ∃ s c : ℚ, l.foldl (fun s p => add s (Lf p)) (int 0) = some s ∧
      l.foldl (fun n _ => add n (int 1)) (int 0) = some c ∧
      0 ≤ s ∧ s ≤ (641 / 5) * (l.length : ℚ) ∧ (999 / 1000 : ℚ) * (l.length : ℚ) ≤ c := by
  have inv := foldl_invariant_count
    (fun (n : ℕ) (acc : Number × Number) => ∃ s c : ℚ, acc.1 = some s ∧ acc.2 = some c ∧
      0 ≤ s ∧ s ≤ (641 / 5) * (n : ℚ) ∧ (999 / 1000 : ℚ) * (n : ℚ) ≤ c)
    (fun acc p => (add acc.1 (Lf p), add acc.2 (int 1))) 4608 l 0 (int 0, int 0)
    ⟨0, 0, by simp [int], by simp [int], by norm_num, by norm_num, by norm_num⟩
    (by omega)
    (by
      rintro n ⟨S, C⟩ p hp hn ⟨s, c, hS, hC, hs0, hs1, hc⟩
      obtain ⟨lum, hL, hl0, hl1⟩ := h p hp
      simp only at hS hC
      subst hS hC
      have st := reference_step n hn s c lum hs0 hs1 hc hl0 hl1
      refine ⟨f64 (s + lum), f64 (c + 1), ?_, ?_, st.1, st.2.1, st.2.2⟩
      · simp only [hL, add]
      · simp only [int, add, Int.cast_one])
  rw [foldl_pair (fun s p => add s (Lf p)) (fun n _ => add n (int 1))] at inv
  obtain ⟨s, c, hS, hC, hs0, hs1, hc⟩ := inv
  simp only [Nat.zero_add] at hs1 hc
  exact ⟨s, c, hS, hC, hs0, hs1, hc⟩

end JS

namespace JS

/-- The alpha byte the detector reads for pixel `(mx, my)` of the scenario template. -/
theorem scenario_mask_getD (alphaOf : ℕ → ℕ) (my mx : ℕ) (hmy : my < 48) (hmx : mx < 48) :
    (scenarioMask alphaOf).imageData.data.getD ((my * 48 + mx) * 4 + 3) 0
      = alphaOf (my * 48 + mx) := by
  rw [List.getD_eq_getElem?_getD, scenarioMask_alpha alphaOf _ (by omega)]
  rfl

/-- A weighted pixel of the scenario footprint: its luminance is at least 140.9 and its
opacity between 0.1 and 1.001. -/
theorem scenario_footprint_term (alphaOf : ℕ → ℕ) (my mx : ℕ) (hmy : my < 48) (hmx : mx < 48)
    (hk : 26 ≤ alphaOf (my * 48 + mx)) (hk255 : alphaOf (my * 48 + mx) ≤ 255) :
    ∃ lum a : ℚ,
      luminanceAt (scenarioImage alphaOf).data (((120 + my) * 200 + (120 + mx)) * 4)
        = some lum ∧
      div (getByte (scenarioMask alphaOf).imageData.data ((my * 48 + mx) * 4 + 3)) (int 255)
        = some a ∧
      (1409 / 10 : ℚ) ≤ lum ∧ (1 / 10 : ℚ) ≤ a ∧ a ≤ 1001 / 1000 := by
  have hi : my * 48 + mx < 2304 := by omega
  have hc := compositeByte_spec 128 (alphaOf (my * 48 + mx)) (by norm_num) hk255
  have hb : ∀ ch, ch < 3 →
      (scenarioImage alphaOf).data[((120 + my) * 200 + (120 + mx)) * 4 + ch]?
      = some (compositeByte 128 (alphaOf (my * 48 + mx))) := by
    intro ch hch
    rw [scenarioImage_getElem? _ _ (by omega),
      scenarioByte_footprint alphaOf my mx ch hmy hmx hch]
  obtain ⟨lum, hl, hle⟩ := luminanceAt_gray (scenarioImage alphaOf).data
    (((120 + my) * 200 + (120 + mx)) * 4) _ hc.1 (hb 0 (by norm_num)) (hb 1 (by norm_num))
    (hb 2 (by norm_num))
  have hab := alpha_bounds (alphaOf (my * 48 + mx))
  refine ⟨lum, f64 ((alphaOf (my * 48 + mx) : ℚ) / 255), hl, ?_, ?_, ?_, ?_⟩
  · rw [getByte_of_getElem? (scenarioMask_alpha alphaOf _ hi), div_byte]
  · have h2 := abs_le.mp hc.2
    have hC : (141 : ℤ) ≤ compositeByte 128 (alphaOf (my * 48 + mx)) := by
      push_cast at h2
      omega
    have hC' : (141 : ℚ) ≤ (compositeByte 128 (alphaOf (my * 48 + mx)) : ℚ) := by
      exact_mod_cast hC
    have := abs_le.mp hle
    linarith [this.1]
  · have hkq : (26 : ℚ) ≤ (alphaOf (my * 48 + mx) : ℚ) := by exact_mod_cast hk
    have : (26 : ℚ) / 255 * (1 - 1 / 2 ^ 53) ≤
        (alphaOf (my * 48 + mx) : ℚ) / 255 * (1 - 1 / 2 ^ 53) := by
      apply mul_le_mul_of_nonneg_right _ (by norm_num)
      linarith
    have : (1 / 10 : ℚ) ≤ (26 : ℚ) / 255 * (1 - 1 / 2 ^ 53) := by norm_num
    linarith [hab.1]
  · have hkq : (alphaOf (my * 48 + mx) : ℚ) ≤ 255 := by exact_mod_cast hk255
    have : (alphaOf (my * 48 + mx) : ℚ) / 255 * (1 + 1 / 2 ^ 53) ≤
        (255 : ℚ) / 255 * (1 + 1 / 2 ^ 53) := by
      apply mul_le_mul_of_nonneg_right _ (by norm_num)
      linarith
    have : (255 : ℚ) / 255 * (1 + 1 / 2 ^ 53) ≤ 1001 / 1000 := by norm_num
    linarith [hab.2]

/-- A pixel of the scenario image left of or above the footprint: its luminance is between
0 and 128.1. -/
theorem scenario_reference_term (alphaOf : ℕ → ℕ) (x y : ℕ) (hx : x < 200) (hy : y < 200)
    (hout : x < 120 ∨ y < 120) :
    ∃ lum : ℚ, luminanceAt (scenarioImage alphaOf).data ((y * 200 + x) * 4) = some lum ∧
      0 ≤ lum ∧ lum ≤ 1281 / 10 := by
  have hb : ∀ ch, ch < 3 →
      (scenarioImage alphaOf).data[(y * 200 + x) * 4 + ch]? = some 128 := by
    intro ch hch
    rw [scenarioImage_getElem? _ _ (by omega),
      scenarioByte_outside alphaOf x y ch hx hch (by omega)]
  obtain ⟨lum, hl, hle⟩ := luminanceAt_gray (scenarioImage alphaOf).data
    ((y * 200 + x) * 4) 128
    (by norm_num) (hb 0 (by norm_num)) (hb 1 (by norm_num)) (hb 2 (by norm_num))
  have := abs_le.mp hle
  push_cast at this
  exact ⟨lum, hl, by linarith [this.1], by linarith [this.2]⟩

end JS

namespace App

/-- Detection from bounds on the sums: when the footprint fits, the weighted sum over the
footprint is at least 140.5 times the positive sum of the weights, and the reference sum is
at most 128.2 per counted pixel, both detectors answer `true`. -/
theorem detect_true_of_bounds (imageData : ImageData) (mask : Mask) (imgWidth imgHeight : ℕ)
    (hx : mask.width + mask.margin ≤ imgWidth) (hy : mask.height + mask.margin ≤ imgHeight)
    (hov : ∃ (x d : ℚ) (n : ℕ), 1 ≤ n ∧
      watermarkSums imageData.data mask.imageData.data mask.width mask.height imgWidth
        imgHeight ((imgWidth : ℤ) - mask.width - mask.margin)
        ((imgHeight : ℤ) - mask.height - mask.margin) = (some x, some d) ∧
      (9 / 100 : ℚ) * (n : ℚ) ≤ d ∧ (281 / 2) * d ≤ x)
    (href : ∃ (s c : ℚ) (m : ℕ), 1 ≤ m ∧
      surroundingSums imageData.data mask.width mask.height imgWidth imgHeight
        ((imgWidth : ℤ) - mask.width - mask.margin)
        ((imgHeight : ℤ) - mask.height - mask.margin) = (some s, some c) ∧
      0 ≤ s ∧ s ≤ (641 / 5) * (m : ℚ) ∧ (999 / 1000 : ℚ) * (m : ℚ) ≤ c) :
    (detectWatermark imageData mask imgWidth imgHeight).result = true ∧
      (Worker.detectWatermark (Worker.requestOf imageData mask imgWidth imgHeight)).hasWatermark
        = true := by
  have hoff : ¬ ((imgWidth : ℤ) - mask.width - mask.margin < 0 ∨
      (imgHeight : ℤ) - mask.height - mask.margin < 0) := by omega
  obtain ⟨x, d, n, hn, hW, hd0, hxd⟩ := hov
  obtain ⟨s, c, m, hm, hS, hs0, hs1, hc⟩ := href
  obtain ⟨hd, hcp, hgt⟩ := detect_margin x d s c n m hn hm hd0 hxd hs0 hs1 hc
  have g1 : gt (some d) (int 0) = true := by
    simp only [gt, lt, int, decide_eq_true_eq]
    exact_mod_cast hd
  have g2 : gt (some c) (int 0) = true := by
    simp only [gt, lt, int, decide_eq_true_eq]
    exact_mod_cast hcp
  have key : gt (sub (div (some x) (some d)) (div (some s) (some c))) (int 10) = true := by
    simp only [gt, lt, int, div, sub, if_neg (ne_of_gt hd), if_neg (ne_of_gt hcp),
      decide_eq_true_eq]
    exact_mod_cast hgt
  unfold Worker.detectWatermark detectWatermark Worker.requestOf
  simp only [Worker.watermarkSums_eq, Worker.surroundingSums_eq, if_neg hoff, hW, hS, g1, g2,
    if_true, key, and_self]

end App

/-- C16: end-to-end detection.  For the 200×200 image that is `(128, 128, 128)` everywhere,
composited per channel as `round(128 * (1 - a) + 255 * a)` with a white 48×48 template of
margin 32, `detectWatermark` of `app.js` returns `true`, and so does the worker's, whatever
the alpha bytes `alphaOf` of the template as long as one of them is at least 26: every ramp
from 0 to 255 over the footprint is such a template. -/
theorem C16_scenario_is_detected (alphaOf : ℕ → ℕ)
    (hbyte : ∀ i, i < 2304 → alphaOf i ≤ 255)
    (hsome : ∃ i, i < 2304 ∧ 26 ≤ alphaOf i) :
    (App.detectWatermark (scenarioImage alphaOf) (scenarioMask alphaOf) 200 200).result
        = true ∧
      (Worker.detectWatermark (Worker.requestOf (scenarioImage alphaOf)
        (scenarioMask alphaOf) 200 200)).hasWatermark = true := by
  have hw : (scenarioMask alphaOf).width = 48 := rfl
  have hh : (scenarioMask alphaOf).height = 48 := rfl
  have hm : (scenarioMask alphaOf).margin = 32 := rfl
  have hx : (scenarioMask alphaOf).width + (scenarioMask alphaOf).margin ≤ 200 := by
    rw [hw, hm]; norm_num
  have hy : (scenarioMask alphaOf).height + (scenarioMask alphaOf).margin ≤ 200 := by
    rw [hh, hm]; norm_num
  have hox : ((200 : ℕ) : ℤ) - ((48 : ℕ) : ℤ) - ((32 : ℕ) : ℤ) = 120 := by norm_num
  apply App.detect_true_of_bounds (scenarioImage alphaOf) (scenarioMask alphaOf) 200 200 hx hy
  · rw [App.watermarkSums_eq_spec _ _ _ _ _ _ _ hx hy]
    simp only [hw, hh, hm, hox]
    have hmem : ∀ c ∈ (maskCells 48 48).filter
        (fun c => decide (26 ≤ (scenarioMask alphaOf).imageData.data.getD
          ((c.1 * 48 + c.2) * 4 + 3) 0)),
        c.1 < 48 ∧ c.2 < 48 ∧ 26 ≤ alphaOf (c.1 * 48 + c.2) := by
      intro c hc
      obtain ⟨hcm, hcp⟩ := List.mem_filter.mp hc
      simp only [maskCells, List.mem_flatMap, List.mem_map, List.mem_range] at hcm
      obtain ⟨my, hmy, mx, hmx, rfl⟩ := hcm
      have := of_decide_eq_true hcp
      rw [scenario_mask_getD alphaOf my mx hmy hmx] at this
      exact ⟨hmy, hmx, this⟩
    obtain ⟨x, d, hN, hD, hd0, hxd⟩ := overlay_fold_bound
      ((maskCells 48 48).filter
        (fun c => decide (26 ≤ (scenarioMask alphaOf).imageData.data.getD
          ((c.1 * 48 + c.2) * 4 + 3) 0)))
      (fun c => luminanceAt (scenarioImage alphaOf).data
        ((((120 : ℤ) + c.1) * ((200 : ℕ) : ℤ) + ((120 : ℤ) + c.2)) * 4).toNat)
      (fun c => div (getByte (scenarioMask alphaOf).imageData.data
        ((c.1 * 48 + c.2) * 4 + 3)) (int 255))
      (le_trans (List.length_filter_le _ _) (by
        rw [maskCells, length_flatMap_map, List.length_range]))
      (by
        intro c hc
        obtain ⟨h1, h2, h3⟩ := hmem c hc
        have hidx : ((((120 : ℤ) + c.1) * ((200 : ℕ) : ℤ) + ((120 : ℤ) + c.2)) * 4).toNat
            = ((120 + c.1) * 200 + (120 + c.2)) * 4 := by omega
        simp only [hidx]
        exact scenario_footprint_term alphaOf c.1 c.2 h1 h2 h3 (hbyte _ (by omega)))
    refine ⟨x, d, _, ?_, ?_, hd0, hxd⟩
    · obtain ⟨i, hi, hki⟩ := hsome
      apply List.length_pos_of_mem (a := (i / 48, i % 48))
      rw [List.mem_filter]
      have hdiv : i / 48 < 48 := by omega
      have hmod : i % 48 < 48 := by omega
      have hrec : i / 48 * 48 + i % 48 = i := by omega
      constructor
      · simp only [maskCells, List.mem_flatMap, List.mem_map, List.mem_range]
        exact ⟨i / 48, hdiv, i % 48, hmod, rfl⟩
      · apply decide_eq_true
        rw [scenario_mask_getD alphaOf (i / 48) (i % 48) hdiv hmod, hrec]
        exact hki
    · rw [hN, hD]
  · rw [App.surroundingSums_eq_spec]
    simp only [hw, hh, hm, hox]
    have hmem : ∀ p ∈ referencePixels 48 48 120 120,
        0 ≤ p.1 ∧ p.1 < 200 ∧ 0 ≤ p.2 ∧ p.2 < 200 ∧ (p.1 < 120 ∨ p.2 < 120) := by
      intro p hp
      simp only [referencePixels, List.mem_append, List.mem_flatMap, List.mem_map,
        mem_intRange] at hp
      rcases hp with ⟨y, hy', x, hx', rfl⟩ | ⟨y, hy', x, hx', rfl⟩
      · simp only
        omega
      · simp only
        omega
    obtain ⟨s, c, hS, hC, hs0, hs1, hc⟩ := reference_fold_bound
      (referencePixels 48 48 120 120)
      (fun p => luminanceAt (scenarioImage alphaOf).data
        ((p.2 * ((200 : ℕ) : ℤ) + p.1) * 4).toNat)
      (by
        simp only [referencePixels, List.length_append, length_flatMap_map, length_intRange]
        decide)
      (by
        intro p hp
        obtain ⟨h1, h2, h3, h4, h5⟩ := hmem p hp
        have hidx : ((p.2 * ((200 : ℕ) : ℤ) + p.1) * 4).toNat
            = (p.2.toNat * 200 + p.1.toNat) * 4 := by omega
        simp only [hidx]
        exact scenario_reference_term alphaOf p.1.toNat p.2.toNat (by omega) (by omega)
          (by omega))
    refine ⟨s, c, _, ?_, ?_, hs0, hs1, hc⟩
    · simp only [referencePixels, List.length_append, length_flatMap_map, length_intRange]
      decide
    · rw [hS, hC]

/-- C16 at a concrete input: the template whose alpha bytes ramp from 0 to 255 linearly in
raster order. -/
theorem C16_scenario_is_detected_witness :
    (App.detectWatermark (scenarioImage rampAlpha) (scenarioMask rampAlpha) 200 200).result
        = true ∧
      (Worker.detectWatermark (Worker.requestOf (scenarioImage rampAlpha)
        (scenarioMask rampAlpha) 200 200)).hasWatermark = true :=
  C16_scenario_is_detected rampAlpha (fun i hi => rampAlpha_le i hi)
    ⟨2303, by decide, by decide⟩

